import Mathlib

/-!
# Camera slider firmware: motion profile engine and slider coordinator

A shallow embedding of `Core/Src/stepper.c` (the interrupt-driven motion
profile engine) and `Core/Src/slider.c` (the request coordinator), with the
properties of the natural-language specification stated over it.

Conventions of the embedding

* `int32_t` values are `Int`, `uint32_t` values are `Nat`.  Every C operation
  that can leave the type's range is followed by an explicit reduction:
  `wrapI32` (two's complement, the behaviour of the Cortex-M target) for
  `int32_t`, `% 2 ^ 32` for `uint32_t`, `% 2 ^ 64` for `unsigned long long`.
* GPIO writes and timer register programming are the hardware actuation
  interface and carry no state of the engine; they are left out.
* The completion callback is a function pointer.  A call through it is
  returned by the engine operations as a `CallbackEvent`; the coordinator
  applies `OnMotionComplete` to each event it receives.
* The `for` loop of the acceleration branch has no syntactic bound, so it is
  run with a fuel argument: `none` means the fuel ran out.
-/

namespace Slider

/-! ## stepper.h / stepper.c -/

def STEPPER_DEFAULT_ACCEL : Nat := 600
def STEPPER_HOME_SPEED : Nat := 500
def STEPPER_MIN_SPEED : Nat := 50
def STEPPER_MAX_SPEED : Nat := 5000

inductive StepPhase where
  | PHASE_IDLE
  | PHASE_ACCEL
  | PHASE_CRUISE
  | PHASE_DECEL
  deriving DecidableEq

/-- Functions of type `StepperCallback` that exist in the repository. -/
inductive StepperCallback where
  | OnMotionComplete
  deriving DecidableEq

/-- One call `callback(completed, position)` made by the engine. -/
structure CallbackEvent where
  fn : StepperCallback
  completed : Bool
  position : Int
  deriving DecidableEq

/-- Reduction of an integer to the `int32_t` range (two's complement). -/
def wrapI32 (x : Int) : Int := (x + 2 ^ 31) % 2 ^ 32 - 2 ^ 31

/-- Conversion of an `int32_t` value to `uint32_t`. -/
def toU32 (x : Int) : Nat := (x % 2 ^ 32).toNat

/-- Conversion of an `int32_t` value to `unsigned long long`. -/
def toU64 (x : Int) : Nat := (x % 2 ^ 64).toNat

/-- Membership in the `int32_t` range. -/
def isI32 (x : Int) : Prop := -2 ^ 31 ≤ x ∧ x < 2 ^ 31

/-- Membership in the `uint32_t` range. -/
def isU32 (n : Nat) : Prop := n < 2 ^ 32

instance (x : Int) : Decidable (isI32 x) := inferInstanceAs (Decidable (_ ∧ _))
instance (n : Nat) : Decidable (isU32 n) := inferInstanceAs (Decidable (_ < _))

structure StepperMoveParams where
  steps : Int
  max_speed : Nat
  acceleration : Nat
  on_complete : Option StepperCallback
  deriving DecidableEq

/-- The file-scope `state` of stepper.c. -/
structure StepperState where
  position : Int
  target_steps : Int
  steps_done : Int
  steps_to_go : Int
  current_speed : Nat
  max_speed : Nat
  accel : Nat
  accel_steps : Int
  decel_start : Int
  direction : Bool
  phase : StepPhase
  callback : Option StepperCallback
  deriving DecidableEq

/-- `if (state.callback) state.callback(completed, position);` -/
def invoke (cb : Option StepperCallback) (completed : Bool) (position : Int) :
    Option CallbackEvent :=
  match cb with
  | none => none
  | some f => some ⟨f, completed, position⟩

/-- `CalcDecelSteps`: the quotient is formed in 64 bits and cast to `uint32_t`. -/
def CalcDecelSteps (speed accel : Nat) : Nat :=
  if accel = 0 then 0
  else (((speed * speed) % 2 ^ 64) / ((2 * accel) % 2 ^ 64)) % 2 ^ 32

/-- The zero-initialised static `state` before any function has run. -/
def StepperState.boot : StepperState :=
  { position := 0, target_steps := 0, steps_done := 0, steps_to_go := 0,
    current_speed := 0, max_speed := 0, accel := 0, accel_steps := 0,
    decel_start := 0, direction := false, phase := .PHASE_IDLE, callback := none }

def Stepper_Init (s : StepperState) : StepperState :=
  { s with position := 0, phase := .PHASE_IDLE }

def Stepper_IsRunning (s : StepperState) : Bool :=
  decide (s.phase ≠ .PHASE_IDLE)

def Stepper_GetPosition (s : StepperState) : Int := s.position

def Stepper_SetPosition (s : StepperState) (position : Int) : StepperState :=
  if Stepper_IsRunning s then s else { s with position := position }

def Stepper_StartMove (s : StepperState) (params : StepperMoveParams) :
    StepperState × Bool :=
  if Stepper_IsRunning s then (s, false)
  else if params.steps = 0 then (s, false)
  else
    let direction := decide (params.steps > 0)
    let target_steps := if params.steps > 0 then params.steps else wrapI32 (-params.steps)
    let max_speed0 := params.max_speed
    let max_speed1 := if max_speed0 < STEPPER_MIN_SPEED then STEPPER_MIN_SPEED else max_speed0
    let max_speed := if max_speed1 > STEPPER_MAX_SPEED then STEPPER_MAX_SPEED else max_speed1
    let accel := if params.acceleration = 0 then STEPPER_DEFAULT_ACCEL else params.acceleration
    let full_accel_steps := CalcDecelSteps max_speed accel
    let decel_start :=
      if (2 * full_accel_steps) % 2 ^ 32 ≥ toU32 target_steps then
        Int.tdiv target_steps 2
      else
        wrapI32 (((toU32 target_steps + 2 ^ 32 - full_accel_steps) % 2 ^ 32 : Nat) : Int)
    ({ position := s.position,
       target_steps := target_steps,
       steps_done := 0,
       steps_to_go := target_steps,
       current_speed := STEPPER_MIN_SPEED,
       max_speed := max_speed,
       accel := accel,
       accel_steps := 0,
       decel_start := decel_start,
       direction := direction,
       phase := .PHASE_ACCEL,
       callback := params.on_complete }, true)

def Stepper_Stop (s : StepperState) : StepperState × Option CallbackEvent :=
  if s.phase ≠ .PHASE_IDLE then
    if s.phase ≠ .PHASE_DECEL ∧ s.current_speed > STEPPER_MIN_SPEED then
      let decel_steps := CalcDecelSteps s.current_speed s.accel
      ({ s with
          decel_start := s.steps_done,
          target_steps := wrapI32 (((toU32 s.steps_done + decel_steps) % 2 ^ 32 : Nat) : Int),
          steps_to_go := wrapI32 (decel_steps : Int),
          phase := .PHASE_DECEL }, none)
    else
      ({ s with phase := .PHASE_IDLE }, invoke s.callback false s.position)
  else (s, none)

/-- The loop `for (s = current_speed; s * s <= speed_sq; s++) new_speed = s;`
with `s * s` and `s++` in `uint32_t`; the result is the final `new_speed`. -/
def scanUp : Nat → Nat → Nat → Nat → Option Nat
  | 0, _, _, _ => none
  | fuel + 1, s, new_speed, speed_sq =>
    if (s * s) % 2 ^ 32 ≤ speed_sq then scanUp fuel ((s + 1) % 2 ^ 32) s speed_sq
    else some new_speed

/-- The loop `while (new_speed > MIN && new_speed * new_speed > target_sq) new_speed--;`
by recursion on the loop variable. -/
def scanDown (target_sq : Nat) : Nat → Nat
  | 0 => 0
  | n + 1 =>
    if n + 1 > STEPPER_MIN_SPEED ∧ ((n + 1) * (n + 1)) % 2 ^ 32 > target_sq then
      scanDown target_sq n
    else n + 1

/-- The `PHASE_ACCEL` case of the switch in `Stepper_TimerISR`. -/
def accelCase (fuel : Nat) (s : StepperState) : Option StepperState :=
  let accel_steps := wrapI32 (s.accel_steps + 1)
  let speed_sq :=
    ((STEPPER_MIN_SPEED * STEPPER_MIN_SPEED) % 2 ^ 32
      + ((2 * s.accel) % 2 ^ 64 * toU64 accel_steps) % 2 ^ 64) % 2 ^ 64 % 2 ^ 32
  match scanUp fuel s.current_speed 1 speed_sq with
  | none => none
  | some new_speed =>
    let s1 := { s with accel_steps := accel_steps, current_speed := new_speed }
    if s1.current_speed ≥ s1.max_speed then
      some { s1 with current_speed := s1.max_speed, phase := .PHASE_CRUISE }
    else if s1.steps_done ≥ s1.decel_start then
      some { s1 with phase := .PHASE_DECEL }
    else some s1

/-- The `PHASE_CRUISE` case. -/
def cruiseCase (s : StepperState) : StepperState :=
  if s.steps_done ≥ s.decel_start then { s with phase := .PHASE_DECEL } else s

/-- The `PHASE_DECEL` case. -/
def decelCase (s : StepperState) : StepperState :=
  let decel_step := wrapI32 (s.steps_done - s.decel_start)
  let speed_sq := (s.max_speed * s.max_speed) % 2 ^ 32
  let reduction := ((2 * s.accel) % 2 ^ 64 * toU64 decel_step) % 2 ^ 64 % 2 ^ 32
  let s1 :=
    if reduction ≥ speed_sq then { s with current_speed := STEPPER_MIN_SPEED }
    else
      let target_sq := speed_sq - reduction
      { s with current_speed := scanDown target_sq s.current_speed }
  if s1.current_speed ≤ STEPPER_MIN_SPEED then { s1 with current_speed := STEPPER_MIN_SPEED }
  else s1

/-- The first statements of `Stepper_TimerISR` after the Idle check: one pulse,
`position` moved by one in the current direction, `steps_done++`, `steps_to_go--`. -/
def stepped (s : StepperState) : StepperState :=
  { s with
    position := if s.direction then wrapI32 (s.position + 1) else wrapI32 (s.position - 1),
    steps_done := wrapI32 (s.steps_done + 1),
    steps_to_go := wrapI32 (s.steps_to_go - 1) }

/-- One run of `Stepper_TimerISR` with the timer's update flag set. -/
def Stepper_TimerISR (fuel : Nat) (s : StepperState) :
    Option (StepperState × Option CallbackEvent) :=
  if s.phase = .PHASE_IDLE then some (s, none)
  else
    let s1 := stepped s
    if s1.steps_to_go ≤ 0 then
      let prev_phase := s1.phase
      some ({ s1 with phase := .PHASE_IDLE },
            invoke s1.callback (decide (prev_phase ≠ .PHASE_IDLE)) s1.position)
    else
      match s1.phase with
      | .PHASE_ACCEL =>
        match accelCase fuel s1 with
        | none => none
        | some s2 => some (s2, none)
      | .PHASE_CRUISE => some (cruiseCase s1, none)
      | .PHASE_DECEL => some (decelCase s1, none)
      | .PHASE_IDLE => some (s1, none)

/-- Operations on a started engine. -/
inductive EngineOp where
  | tick
  | stop
  deriving DecidableEq

def applyOp (fuel : Nat) (op : EngineOp) (s : StepperState) :
    Option (StepperState × Option CallbackEvent) :=
  match op with
  | .tick => Stepper_TimerISR fuel s
  | .stop => some (Stepper_Stop s)

/-- Runs a sequence of engine operations, collecting the callback calls in order. -/
def runOps (fuel : Nat) : List EngineOp → StepperState →
    Option (StepperState × List CallbackEvent)
  | [], s => some (s, [])
  | op :: ops, s =>
    match applyOp fuel op s with
    | none => none
    | some (s1, e) =>
      match runOps fuel ops s1 with
      | none => none
      | some (s2, es) => some (s2, e.toList ++ es)

/-- The state after `n` timer ticks. -/
def runTicks (fuel : Nat) (n : Nat) (s : StepperState) : Option StepperState :=
  (runOps fuel (List.replicate n EngineOp.tick) s).map Prod.fst

/-! ## slider.h / slider.c -/

inductive SliderState where
  | SLIDER_STATE_IDLE
  | SLIDER_STATE_MOVING
  | SLIDER_STATE_HOMING
  | SLIDER_STATE_ERROR
  deriving DecidableEq

inductive SliderResult where
  | SLIDER_OK
  | SLIDER_ERR_BUSY
  | SLIDER_ERR_NOT_HOMED
  | SLIDER_ERR_INVALID_PARAM
  deriving DecidableEq

inductive SliderErrorCode where
  | SLIDER_ERROR_NONE
  | SLIDER_ERROR_ENDSTOP_NOT_FOUND
  | SLIDER_ERROR_LIMIT_REACHED
  | SLIDER_ERROR_MOVE_TIMEOUT
  deriving DecidableEq

structure SliderStatus where
  state : SliderState
  error_code : SliderErrorCode
  position : Int
  homed : Bool
  deriving DecidableEq

/-- The file-scope variables of slider.c together with the engine they drive. -/
structure SliderSys where
  state : SliderState
  error_code : SliderErrorCode
  homed : Bool
  pending_steps : Int
  pending_speed : Nat
  motion_requested : Bool
  home_requested : Bool
  stop_requested : Bool
  motion_complete : Bool
  motion_success : Bool
  stepper : StepperState
  deriving DecidableEq

/-- The statics as the C runtime initialises them. -/
def SliderSys.boot : SliderSys :=
  { state := .SLIDER_STATE_IDLE, error_code := .SLIDER_ERROR_NONE, homed := false,
    pending_steps := 0, pending_speed := 0, motion_requested := false,
    home_requested := false, stop_requested := false, motion_complete := false,
    motion_success := false, stepper := StepperState.boot }

def Slider_Init (sys : SliderSys) : SliderSys :=
  { sys with stepper := Stepper_Init sys.stepper, state := .SLIDER_STATE_IDLE, homed := false }

def Slider_GetStatus (sys : SliderSys) : SliderStatus :=
  { state := sys.state, error_code := sys.error_code,
    position := Stepper_GetPosition sys.stepper, homed := sys.homed }

def Slider_Home (sys : SliderSys) : SliderSys × SliderResult :=
  if sys.state ≠ .SLIDER_STATE_IDLE then (sys, .SLIDER_ERR_BUSY)
  else ({ sys with home_requested := true }, .SLIDER_OK)

def Slider_Move (sys : SliderSys) (steps : Int) (speed : Nat) : SliderSys × SliderResult :=
  if steps = 0 ∨ speed = 0 then (sys, .SLIDER_ERR_INVALID_PARAM)
  else if sys.state ≠ .SLIDER_STATE_IDLE then (sys, .SLIDER_ERR_BUSY)
  else ({ sys with pending_steps := steps, pending_speed := speed, motion_requested := true },
        .SLIDER_OK)

def Slider_Stop (sys : SliderSys) : SliderSys × SliderResult :=
  ({ sys with stop_requested := true }, .SLIDER_OK)

def OnMotionComplete (sys : SliderSys) (completed : Bool) (_position : Int) : SliderSys :=
  { sys with motion_complete := true, motion_success := completed }

/-- Runs the function a callback event points to. -/
def deliver (sys : SliderSys) : Option CallbackEvent → SliderSys
  | none => sys
  | some ⟨.OnMotionComplete, completed, position⟩ => OnMotionComplete sys completed position

/-- The first block of `Slider_Run`: a pending stop request is consumed. -/
def Slider_Run_stop (sys : SliderSys) : SliderSys :=
  if sys.stop_requested then
    let a := { sys with stop_requested := false }
    if a.state = .SLIDER_STATE_MOVING ∨ a.state = .SLIDER_STATE_HOMING then
      let r := Stepper_Stop a.stepper
      deliver { a with stepper := r.1 } r.2
    else a
  else sys

/-- The `switch (state)` of `Slider_Run`. -/
def Slider_Run_dispatch (sys : SliderSys) : SliderSys :=
  match sys.state with
  | .SLIDER_STATE_IDLE =>
    if sys.home_requested then
      let a := { sys with home_requested := false, state := .SLIDER_STATE_HOMING,
                          homed := false, error_code := .SLIDER_ERROR_NONE,
                          motion_complete := false }
      let params : StepperMoveParams :=
        { steps := -100000, max_speed := STEPPER_HOME_SPEED,
          acceleration := STEPPER_DEFAULT_ACCEL, on_complete := some .OnMotionComplete }
      { a with stepper := (Stepper_StartMove a.stepper params).1 }
    else if sys.motion_requested then
      let a := { sys with motion_requested := false, state := .SLIDER_STATE_MOVING,
                          error_code := .SLIDER_ERROR_NONE, motion_complete := false }
      let params : StepperMoveParams :=
        { steps := a.pending_steps, max_speed := a.pending_speed,
          acceleration := STEPPER_DEFAULT_ACCEL, on_complete := some .OnMotionComplete }
      { a with stepper := (Stepper_StartMove a.stepper params).1 }
    else sys
  | .SLIDER_STATE_HOMING =>
    if sys.motion_complete then
      { sys with motion_complete := false, stepper := Stepper_SetPosition sys.stepper 0,
                 homed := true, state := .SLIDER_STATE_IDLE }
    else sys
  | .SLIDER_STATE_MOVING =>
    if sys.motion_complete then
      { sys with motion_complete := false, state := .SLIDER_STATE_IDLE }
    else sys
  | .SLIDER_STATE_ERROR => sys

/-- One pass of `Slider_Run` (the waits after the unlock carry no state). -/
def Slider_Run (sys : SliderSys) : SliderSys :=
  Slider_Run_dispatch (Slider_Run_stop sys)

/-- A timer interrupt seen from the whole system: the engine's ISR, then the
callback it calls. -/
def Sys_TimerISR (fuel : Nat) (sys : SliderSys) : Option SliderSys :=
  match Stepper_TimerISR fuel sys.stepper with
  | none => none
  | some (st, e) => some (deliver { sys with stepper := st } e)

/-- What can happen to the system between two observations. -/
inductive SysOp where
  | home
  | move (steps : Int) (speed : Nat)
  | stop
  | run
  | tick
  deriving DecidableEq

def sysStep (fuel : Nat) (op : SysOp) (sys : SliderSys) : Option SliderSys :=
  match op with
  | .home => some (Slider_Home sys).1
  | .move steps speed => some (Slider_Move sys steps speed).1
  | .stop => some (Slider_Stop sys).1
  | .run => some (Slider_Run sys)
  | .tick => Sys_TimerISR fuel sys

def sysRun (fuel : Nat) : List SysOp → SliderSys → Option SliderSys
  | [], sys => some sys
  | op :: ops, sys =>
    match sysStep fuel op sys with
    | none => none
    | some sys1 => sysRun fuel ops sys1

/-! ## Notions used by the statements -/

/-- The top speed a start request runs with: `max_speed` clamped into
`[STEPPER_MIN_SPEED, STEPPER_MAX_SPEED]`. -/
def clampSpeed (max_speed : Nat) : Nat :=
  min (max max_speed STEPPER_MIN_SPEED) STEPPER_MAX_SPEED

/-- The acceleration a start request runs with: the default when it passes 0. -/
def effAccel (acceleration : Nat) : Nat :=
  if acceleration = 0 then STEPPER_DEFAULT_ACCEL else acceleration

/-- Accelerations for which one more acceleration step past the squared top
speed still lies below `65535²`, the largest square the 32-bit scan can pass. -/
def accelInRange (a : Nat) : Prop :=
  STEPPER_MAX_SPEED * STEPPER_MAX_SPEED + 2 * a < 65535 * 65535

instance (a : Nat) : Decidable (accelInRange a) := inferInstanceAs (Decidable (_ < _))

/-- The squared-speed target of the Accel phase after `k` acceleration steps. -/
def accelTarget (a k : Nat) : Nat :=
  STEPPER_MIN_SPEED * STEPPER_MIN_SPEED + 2 * a * k

/-- What holds of the speed fields from an accepted start onwards. -/
structure Inv (s : StepperState) : Prop where
  hM : STEPPER_MIN_SPEED ≤ s.max_speed ∧ s.max_speed ≤ STEPPER_MAX_SPEED
  hc : STEPPER_MIN_SPEED ≤ s.current_speed ∧ s.current_speed ≤ s.max_speed
  ha : 1 ≤ s.accel ∧ accelInRange s.accel
  hacc : s.phase = .PHASE_ACCEL →
    ∃ k : Nat, s.accel_steps = (k : Int) ∧
      s.current_speed * s.current_speed ≤ 2500 + 2 * (s.accel * k) ∧
      2500 + 2 * (s.accel * k) ≤ 25000000

/-- The signed displacement of `n` steps in direction `d`. -/
def travel (d : Bool) (n : Nat) : Int := if d then (n : Int) else -(n : Int)

/-- The acceleration law in the words of the specification: the largest integer
whose square does not exceed `MIN_SPEED² + 2·accel·accel_steps`, capped at
`max_speed`. -/
def accelLaw (max_speed accel accel_steps : Nat) : Nat :=
  min max_speed (Nat.sqrt (STEPPER_MIN_SPEED * STEPPER_MIN_SPEED + 2 * accel * accel_steps))

/-- The invariant of a running move with its start parameters named: top speed
`M`, acceleration `a`, and `accel_steps == steps_done` while in phase Accel. -/
structure RunInv (M a : Nat) (s : StepperState) : Prop where
  inv : Inv s
  hMs : s.max_speed = M
  has : s.accel = a
  sync : s.phase = .PHASE_ACCEL → s.steps_done = s.accel_steps

/-- The invariant of a triangle profile of `T` steps with `decel_start = H`:
the squared speed stays below the target of the `H`-th acceleration step. -/
structure TriInv (M a H : Nat) (T : Int) (s : StepperState) : Prop where
  run : RunInv M a s
  peak : s.current_speed * s.current_speed ≤ 2500 + 2 * (a * H)
  tri : s.phase = .PHASE_ACCEL →
    s.decel_start = (H : Int) ∧
      (s.accel_steps < (H : Int) ∨ (s.accel_steps = 0 ∧ s.steps_to_go = T))

/-- The parameters of the homing move `Slider_Run` starts. -/
def homeParams : StepperMoveParams :=
  { steps := -100000, max_speed := STEPPER_HOME_SPEED,
    acceleration := STEPPER_DEFAULT_ACCEL, on_complete := some .OnMotionComplete }

/-- The parameters of the pending move `Slider_Run` starts. -/
def moveParams (sys : SliderSys) : StepperMoveParams :=
  { steps := sys.pending_steps, max_speed := sys.pending_speed,
    acceleration := STEPPER_DEFAULT_ACCEL, on_complete := some .OnMotionComplete }

/-- What holds of the coordinator and its engine in every reachable state. -/
structure SysInv (sys : SliderSys) : Prop where
  hst : sys.state ≠ .SLIDER_STATE_ERROR
  hidle : sys.state = .SLIDER_STATE_IDLE → sys.stepper.phase = .PHASE_IDLE
  hpend : sys.motion_requested = true → sys.pending_steps ≠ 0
  hcb : sys.stepper.phase ≠ .PHASE_IDLE →
    sys.stepper.callback = some StepperCallback.OnMotionComplete
  hdone : sys.state ≠ .SLIDER_STATE_IDLE →
    (sys.stepper.phase = .PHASE_IDLE ↔ sys.motion_complete = true)
  hinv : sys.stepper.phase ≠ .PHASE_IDLE → Inv sys.stepper

/-! ## Arithmetic of the machine types -/

theorem wrapI32_eq {x : Int} (h : isI32 x) : wrapI32 x = x := by
  unfold isI32 at h
  unfold wrapI32
  omega

theorem wrapI32_isI32 (x : Int) : isI32 (wrapI32 x) := by
  unfold isI32 wrapI32
  omega

theorem toU32_nonneg {x : Int} (h0 : 0 ≤ x) (h1 : x < 2 ^ 32) : toU32 x = x.toNat := by
  unfold toU32
  rw [Int.emod_eq_of_lt h0 h1]

theorem toU64_nonneg {x : Int} (h0 : 0 ≤ x) (h1 : x < 2 ^ 64) : toU64 x = x.toNat := by
  unfold toU64
  rw [Int.emod_eq_of_lt h0 h1]

theorem CalcDecelSteps_eq {speed accel : Nat} (hs : speed ≤ 5000) (ha0 : accel ≠ 0)
    (ha : accel < 2 ^ 32) : CalcDecelSteps speed accel = speed * speed / (2 * accel) := by
  unfold CalcDecelSteps
  have h1 : speed * speed ≤ 5000 * 5000 := Nat.mul_le_mul hs hs
  have h2 : speed * speed / (2 * accel) ≤ speed * speed := Nat.div_le_self _ _
  rw [if_neg ha0, Nat.mod_eq_of_lt (by omega : speed * speed < 2 ^ 64),
    Nat.mod_eq_of_lt (by omega : 2 * accel < 2 ^ 64), Nat.mod_eq_of_lt (by omega)]

/-! ## The engine -/

theorem start_accepted (s : StepperState) (p : StepperMoveParams)
    (hidle : s.phase = .PHASE_IDLE) (h0 : p.steps ≠ 0) :
    Stepper_StartMove s p =
      ({ position := s.position,
         target_steps := if p.steps > 0 then p.steps else wrapI32 (-p.steps),
         steps_done := 0,
         steps_to_go := if p.steps > 0 then p.steps else wrapI32 (-p.steps),
         current_speed := STEPPER_MIN_SPEED,
         max_speed := clampSpeed p.max_speed,
         accel := effAccel p.acceleration,
         accel_steps := 0,
         decel_start :=
           if (2 * CalcDecelSteps (clampSpeed p.max_speed) (effAccel p.acceleration)) % 2 ^ 32
               ≥ toU32 (if p.steps > 0 then p.steps else wrapI32 (-p.steps)) then
             Int.tdiv (if p.steps > 0 then p.steps else wrapI32 (-p.steps)) 2
           else
             wrapI32 (((toU32 (if p.steps > 0 then p.steps else wrapI32 (-p.steps)) + 2 ^ 32
               - CalcDecelSteps (clampSpeed p.max_speed) (effAccel p.acceleration)) % 2 ^ 32 : Nat) : Int),
         direction := decide (p.steps > 0),
         phase := .PHASE_ACCEL,
         callback := p.on_complete }, true) := by
  have hc : clampSpeed p.max_speed =
      (if (if p.max_speed < STEPPER_MIN_SPEED then STEPPER_MIN_SPEED else p.max_speed)
          > STEPPER_MAX_SPEED then STEPPER_MAX_SPEED
       else (if p.max_speed < STEPPER_MIN_SPEED then STEPPER_MIN_SPEED else p.max_speed)) := by
    unfold clampSpeed STEPPER_MIN_SPEED STEPPER_MAX_SPEED
    split_ifs <;> omega
  unfold Stepper_StartMove Stepper_IsRunning
  simp only [hidle, ne_eq, not_true_eq_false, decide_False, Bool.false_eq_true, if_false, h0]
  rw [hc]
  rfl

theorem clampSpeed_bounds (m : Nat) :
    STEPPER_MIN_SPEED ≤ clampSpeed m ∧ clampSpeed m ≤ STEPPER_MAX_SPEED := by
  unfold clampSpeed STEPPER_MIN_SPEED STEPPER_MAX_SPEED
  omega

theorem effAccel_pos (a : Nat) : 1 ≤ effAccel a := by
  unfold effAccel STEPPER_DEFAULT_ACCEL
  split_ifs <;> omega

/-- C4: an accepted start sets `decel_start` to `T / 2` when `2 * F >= T` and to
`T - F` otherwise, where `M` is the clamped top speed, `A` the acceleration (600
when 0 is passed), `T = |steps|` and `F = M * M / (2 * A)`; it leaves the engine
in phase Accel at `STEPPER_MIN_SPEED`.  `steps` ranges over the `int32_t` values
whose negation, which the code takes, is an `int32_t` too. -/
theorem profile_selection (s : StepperState) (p : StepperMoveParams)
    (hidle : s.phase = .PHASE_IDLE) (h0 : p.steps ≠ 0)
    (hsteps : isI32 p.steps) (hneg : isI32 (-p.steps)) (hA : isU32 p.acceleration) :
    (Stepper_StartMove s p).2 = true ∧
    (Stepper_StartMove s p).1.phase = .PHASE_ACCEL ∧
    (Stepper_StartMove s p).1.current_speed = STEPPER_MIN_SPEED ∧
    (Stepper_StartMove s p).1.decel_start =
      (if 2 * (clampSpeed p.max_speed * clampSpeed p.max_speed / (2 * effAccel p.acceleration))
            ≥ p.steps.natAbs then
         (p.steps.natAbs / 2 : Nat)
       else
         (p.steps.natAbs - clampSpeed p.max_speed * clampSpeed p.max_speed
            / (2 * effAccel p.acceleration) : Nat)) := by
  have hlo : -2 ^ 31 < p.steps := by unfold isI32 at hneg; omega
  have hhi : p.steps < 2 ^ 31 := hsteps.2
  rw [start_accepted s p hidle h0]
  refine ⟨rfl, rfl, rfl, ?_⟩
  have hcb := clampSpeed_bounds p.max_speed
  have hap := effAccel_pos p.acceleration
  have haU : effAccel p.acceleration < 2 ^ 32 := by
    unfold effAccel STEPPER_DEFAULT_ACCEL
    unfold isU32 at hA
    split_ifs <;> omega
  unfold STEPPER_MAX_SPEED at hcb
  rw [CalcDecelSteps_eq hcb.2 (by omega) haU]
  generalize hF : clampSpeed p.max_speed * clampSpeed p.max_speed / (2 * effAccel p.acceleration) = F
  have hFle : F ≤ 12500000 := by
    rw [← hF]
    have h1 : clampSpeed p.max_speed * clampSpeed p.max_speed ≤ 5000 * 5000 :=
      Nat.mul_le_mul hcb.2 hcb.2
    calc clampSpeed p.max_speed * clampSpeed p.max_speed / (2 * effAccel p.acceleration)
        ≤ clampSpeed p.max_speed * clampSpeed p.max_speed / 2 :=
          Nat.div_le_div_left (by omega) (by omega)
      _ ≤ 12500000 := by omega
  generalize hT : (if p.steps > 0 then p.steps else wrapI32 (-p.steps)) = T
  have hTabs : T = (p.steps.natAbs : Int) := by
    rw [← hT]
    split_ifs with hpos
    · omega
    · rw [wrapI32_eq (by unfold isI32; omega)]; omega
  have hTpos : 0 < T := by omega
  have hTlt : T < 2 ^ 31 := by omega
  rw [toU32_nonneg (by omega) (by omega)]
  simp only [ge_iff_le]
  rw [Nat.mod_eq_of_lt (by omega : 2 * F < 2 ^ 32)]
  have hTn : T.toNat = p.steps.natAbs := by omega
  rw [hTn]
  split_ifs with hc
  · rw [hTabs]
    rw [Int.tdiv_eq_ediv (by omega) (by omega)]
    norm_cast
  · have : (p.steps.natAbs + 2 ^ 32 - F) % 2 ^ 32 = p.steps.natAbs - F := by omega
    rw [this, wrapI32_eq (by unfold isI32; omega)]

/-- Witness of C4: the two scenarios of the specification, `decel_start = 792`
for (1000 steps, speed 500, accel 600) and `decel_start = 50` for 100 steps. -/
theorem profile_selection_witness :
    (Stepper_StartMove StepperState.boot ⟨1000, 500, 600, none⟩).1.decel_start = 792 ∧
    (Stepper_StartMove StepperState.boot ⟨100, 500, 600, none⟩).1.decel_start = 50 ∧
    clampSpeed 500 * clampSpeed 500 / (2 * effAccel 600) = 208 :=
  ⟨(profile_selection StepperState.boot ⟨1000, 500, 600, none⟩ rfl (by decide) (by decide)
      (by decide) (by decide)).2.2.2.trans (by decide),
   (profile_selection StepperState.boot ⟨100, 500, 600, none⟩ rfl (by decide) (by decide)
      (by decide) (by decide)).2.2.2.trans (by decide),
   by decide⟩

/-! ### The two speed scans -/

theorem scanUp_aux (sq : Nat) (hsq : sq < 65535 * 65535) :
    ∀ (d s ns fuel : Nat), s + d = Nat.sqrt sq + 1 → d + 1 ≤ fuel →
      scanUp fuel s ns sq = some (if d = 0 then ns else Nat.sqrt sq) := by
  have hr : Nat.sqrt sq < 65535 := Nat.sqrt_lt.mpr hsq
  intro d
  induction d with
  | zero =>
    intro s ns fuel hs hf
    obtain ⟨f, rfl⟩ : ∃ f, fuel = f + 1 := ⟨fuel - 1, by omega⟩
    have hs' : s = Nat.sqrt sq + 1 := by omega
    have h1 : sq < s * s := by rw [hs']; exact Nat.lt_succ_sqrt sq
    have h2 : s * s ≤ 65535 * 65535 := Nat.mul_le_mul (by omega) (by omega)
    have h3 : (s * s) % 2 ^ 32 = s * s := Nat.mod_eq_of_lt (by omega)
    simp only [scanUp, h3, if_true]
    rw [if_neg (by omega)]
  | succ d ih =>
    intro s ns fuel hs hf
    obtain ⟨f, rfl⟩ : ∃ f, fuel = f + 1 := ⟨fuel - 1, by omega⟩
    have hle : s ≤ Nat.sqrt sq := by omega
    have h1 : s * s ≤ sq := Nat.le_sqrt.mp hle
    have h3 : (s * s) % 2 ^ 32 = s * s := Nat.mod_eq_of_lt (by omega)
    have h4 : (s + 1) % 2 ^ 32 = s + 1 := Nat.mod_eq_of_lt (by omega)
    simp only [scanUp, h3, h4]
    rw [if_pos h1, ih (s + 1) s f (by omega) (by omega)]
    by_cases hd : d = 0
    · subst hd
      simp only [if_true]
      have : s = Nat.sqrt sq := by omega
      simp [this]
    · simp [hd]

/-- Below `65535²` the upward scan returns the integer square root of its target. -/
theorem scanUp_sqrt {sq s ns fuel : Nat} (hsq : sq < 65535 * 65535) (hs : s * s ≤ sq)
    (hf : 65536 ≤ fuel) : scanUp fuel s ns sq = some (Nat.sqrt sq) := by
  have hr : Nat.sqrt sq < 65535 := Nat.sqrt_lt.mpr hsq
  have hle : s ≤ Nat.sqrt sq := Nat.le_sqrt.mpr hs
  have h := scanUp_aux sq hsq (Nat.sqrt sq + 1 - s) s ns fuel (by omega) (by omega)
  rw [h, if_neg (by omega)]

theorem scanDown_le (t : Nat) : ∀ c, scanDown t c ≤ c := by
  intro c
  induction c with
  | zero => simp [scanDown]
  | succ n ih =>
    unfold scanDown
    split_ifs
    · omega
    · omega

theorem scanDown_ge (t : Nat) : ∀ c, STEPPER_MIN_SPEED ≤ c → STEPPER_MIN_SPEED ≤ scanDown t c := by
  intro c
  induction c with
  | zero => intro h; simp [STEPPER_MIN_SPEED] at h
  | succ n ih =>
    intro h
    unfold scanDown
    split_ifs with hc
    · exact ih (by omega)
    · exact h

/-! ### Invariant of a running move -/

theorem accel_speed_sq {s : StepperState} (hI : Inv s) {k : Nat}
    (hk : s.accel_steps = (k : Int)) (hb : 2500 + 2 * (s.accel * k) ≤ 25000000) :
    wrapI32 (s.accel_steps + 1) = ((k + 1 : Nat) : Int) ∧
    ((STEPPER_MIN_SPEED * STEPPER_MIN_SPEED) % 2 ^ 32
      + ((2 * s.accel) % 2 ^ 64 * toU64 (wrapI32 (s.accel_steps + 1))) % 2 ^ 64) % 2 ^ 64 % 2 ^ 32
      = accelTarget s.accel (k + 1) ∧
    accelTarget s.accel (k + 1) < 65535 * 65535 ∧
    accelTarget s.accel (k + 1) = 2500 + 2 * (s.accel * k) + 2 * s.accel := by
  obtain ⟨ha1, ha2⟩ := hI.ha
  unfold accelInRange STEPPER_MAX_SPEED at ha2
  have hkle : k ≤ s.accel * k := Nat.le_mul_of_pos_left k (by omega)
  have hw : wrapI32 (s.accel_steps + 1) = ((k + 1 : Nat) : Int) := by
    rw [hk, wrapI32_eq (by unfold isI32; omega)]; norm_cast
  have hT : accelTarget s.accel (k + 1) = 2500 + 2 * (s.accel * k) + 2 * s.accel := by
    unfold accelTarget STEPPER_MIN_SPEED; ring
  refine ⟨hw, ?_, by omega, hT⟩
  rw [hw, toU64_nonneg (by omega) (by omega)]
  have h2 : (2 * s.accel) % 2 ^ 64 = 2 * s.accel := Nat.mod_eq_of_lt (by omega)
  have h3 : 2 * s.accel * (k + 1) = 2 * (s.accel * k) + 2 * s.accel := by ring
  have h4 : (STEPPER_MIN_SPEED * STEPPER_MIN_SPEED) % 2 ^ 32 = 2500 := by decide
  rw [Int.toNat_ofNat, h2, h4, hT, h3]
  omega

/-- The Accel case under the invariant: the new speed is the integer square
root of the target, capped at the top speed. -/
theorem accelCase_eq {s : StepperState} (hI : Inv s) {k : Nat}
    (hk : s.accel_steps = (k : Int))
    (hc : s.current_speed * s.current_speed ≤ 2500 + 2 * (s.accel * k))
    (hb : 2500 + 2 * (s.accel * k) ≤ 25000000) {fuel : Nat} (hf : 65536 ≤ fuel) :
    accelCase fuel s = some
      (if Nat.sqrt (accelTarget s.accel (k + 1)) ≥ s.max_speed then
        { s with accel_steps := ((k + 1 : Nat) : Int), current_speed := s.max_speed,
                 phase := .PHASE_CRUISE }
       else if s.steps_done ≥ s.decel_start then
        { s with accel_steps := ((k + 1 : Nat) : Int),
                 current_speed := Nat.sqrt (accelTarget s.accel (k + 1)),
                 phase := .PHASE_DECEL }
       else
        { s with accel_steps := ((k + 1 : Nat) : Int),
                 current_speed := Nat.sqrt (accelTarget s.accel (k + 1)) }) := by
  obtain ⟨hw, hsq, hlt, hT⟩ := accel_speed_sq hI hk hb
  unfold accelCase
  simp only [hsq]
  simp only [hw]
  rw [scanUp_sqrt hlt (by omega) hf]
  simp only [ge_iff_le]
  split_ifs <;> rfl

theorem accelCase_inv {s : StepperState} (hI : Inv s) (hph : s.phase = .PHASE_ACCEL)
    {fuel : Nat} (hf : 65536 ≤ fuel) :
    ∃ s', accelCase fuel s = some s' ∧ Inv s' ∧ s.current_speed ≤ s'.current_speed := by
  obtain ⟨k, hk, hc, hb⟩ := hI.hacc hph
  obtain ⟨hw, hsq, hlt, hT⟩ := accel_speed_sq hI hk hb
  have hr1 := Nat.sqrt_le (accelTarget s.accel (k + 1))
  have hr2 := Nat.lt_succ_sqrt (accelTarget s.accel (k + 1))
  have hcr : s.current_speed ≤ Nat.sqrt (accelTarget s.accel (k + 1)) :=
    Nat.le_sqrt.mpr (by omega)
  have hMM : s.max_speed * s.max_speed ≤ 5000 * 5000 :=
    Nat.mul_le_mul hI.hM.2 hI.hM.2
  refine ⟨_, accelCase_eq hI hk hc hb hf, ?_, ?_⟩
  · split_ifs with h1 h2
    · exact ⟨hI.hM, ⟨hI.hM.1, le_refl _⟩, hI.ha, fun h => by simp at h⟩
    · exact ⟨hI.hM, ⟨le_trans hI.hc.1 hcr, by simp only; omega⟩, hI.ha, fun h => by simp at h⟩
    · refine ⟨hI.hM, ⟨le_trans hI.hc.1 hcr, by simp only; omega⟩, hI.ha, fun _ => ⟨k + 1, rfl, ?_, ?_⟩⟩
      · simp only
        have : s.accel * (k + 1) = s.accel * k + s.accel := by ring
        rw [this]; omega
      · simp only
        have : s.accel * (k + 1) = s.accel * k + s.accel := by ring
        have h3 : (Nat.sqrt (accelTarget s.accel (k + 1))).succ ≤ s.max_speed := by omega
        have h4 := Nat.mul_le_mul h3 h3
        rw [this]; omega
  · split_ifs with h1 h2
    · exact hI.hc.2
    · exact hcr
    · exact hcr

theorem decelCase_speed (s : StepperState) (hc : STEPPER_MIN_SPEED ≤ s.current_speed) :
    STEPPER_MIN_SPEED ≤ (decelCase s).current_speed ∧
    (decelCase s).current_speed ≤ s.current_speed := by
  have h1 := scanDown_le
  have h2 := scanDown_ge
  unfold decelCase
  simp only
  split_ifs <;> simp only <;> first | exact ⟨le_refl _, hc⟩ | exact ⟨h2 _ _ hc, h1 _ _⟩

theorem decelCase_frame (s : StepperState) :
    (decelCase s) = { s with current_speed := (decelCase s).current_speed } := by
  unfold decelCase
  simp only
  split_ifs <;> rfl

theorem cruiseCase_frame (s : StepperState) :
    cruiseCase s = { s with phase := (cruiseCase s).phase } ∧
    ((cruiseCase s).phase = s.phase ∨ (cruiseCase s).phase = .PHASE_DECEL) := by
  unfold cruiseCase
  split_ifs <;> simp

theorem TimerISR_idle (fuel : Nat) (s : StepperState) (h : s.phase = .PHASE_IDLE) :
    Stepper_TimerISR fuel s = some (s, none) := by
  unfold Stepper_TimerISR
  rw [if_pos h]

theorem TimerISR_final (fuel : Nat) (s : StepperState) (h : s.phase ≠ .PHASE_IDLE)
    (hz : wrapI32 (s.steps_to_go - 1) ≤ 0) :
    Stepper_TimerISR fuel s =
      some ({ stepped s with phase := .PHASE_IDLE },
            invoke s.callback true (stepped s).position) := by
  unfold Stepper_TimerISR
  rw [if_neg h]
  simp only [hz, if_true, stepped, ne_eq, h, not_false_eq_true, decide_True]

theorem TimerISR_inner (fuel : Nat) (s : StepperState) (h : s.phase ≠ .PHASE_IDLE)
    (hz : ¬ wrapI32 (s.steps_to_go - 1) ≤ 0) :
    Stepper_TimerISR fuel s =
      match s.phase with
      | .PHASE_ACCEL => (accelCase fuel (stepped s)).map (fun s2 => (s2, none))
      | .PHASE_CRUISE => some (cruiseCase (stepped s), none)
      | .PHASE_DECEL => some (decelCase (stepped s), none)
      | .PHASE_IDLE => some (stepped s, none) := by
  unfold Stepper_TimerISR
  rw [if_neg h]
  simp only [hz, if_false, stepped]
  cases hp : s.phase <;> simp only [hp]
  · cases accelCase fuel _ <;> rfl

theorem Inv_stepped {s : StepperState} (hI : Inv s) : Inv (stepped s) :=
  ⟨hI.hM, hI.hc, hI.ha, hI.hacc⟩

/-- Under the invariant a tick returns, keeps the invariant, and moves the speed
in the direction of the phase it was taken in. -/
theorem TimerISR_inv {s : StepperState} (hI : Inv s) {fuel : Nat} (hf : 65536 ≤ fuel) :
    ∃ s' e, Stepper_TimerISR fuel s = some (s', e) ∧ Inv s' ∧
      (s.phase = .PHASE_ACCEL ∨ s.phase = .PHASE_CRUISE → s.current_speed ≤ s'.current_speed) ∧
      (s.phase = .PHASE_DECEL → s'.current_speed ≤ s.current_speed) := by
  by_cases hidle : s.phase = .PHASE_IDLE
  · exact ⟨s, none, TimerISR_idle fuel s hidle, hI, fun _ => le_refl _, fun _ => le_refl _⟩
  by_cases hz : wrapI32 (s.steps_to_go - 1) ≤ 0
  · refine ⟨_, _, TimerISR_final fuel s hidle hz, ?_, fun _ => le_refl _, fun _ => le_refl _⟩
    exact ⟨hI.hM, hI.hc, hI.ha, fun h => by simp at h⟩
  rw [TimerISR_inner fuel s hidle hz]
  cases hp : s.phase with
  | PHASE_IDLE => exact absurd hp hidle
  | PHASE_ACCEL =>
    obtain ⟨s', h1, h2, h3⟩ := accelCase_inv (Inv_stepped hI) hp hf
    refine ⟨s', none, ?_, h2, fun _ => h3, fun h => by simp at h⟩
    simp only [h1, Option.map_some']
  | PHASE_CRUISE =>
    obtain ⟨h1, h2⟩ := cruiseCase_frame (stepped s)
    refine ⟨_, _, rfl, ?_, fun _ => ?_, fun h => by simp at h⟩
    · rw [h1]
      refine ⟨hI.hM, hI.hc, hI.ha, fun h => ?_⟩
      simp only at h
      rcases h2 with h2 | h2
      · rw [h2] at h; simp [stepped, hp] at h
      · rw [h2] at h; simp at h
    · rw [h1]; exact le_refl _
  | PHASE_DECEL =>
    have h1 := decelCase_frame (stepped s)
    have h2 := decelCase_speed (stepped s) hI.hc.1
    refine ⟨_, _, rfl, ?_, fun h => by simp at h, fun _ => h2.2⟩
    rw [h1]
    exact ⟨hI.hM, ⟨h2.1, le_trans h2.2 hI.hc.2⟩, hI.ha, fun h => by simp [stepped, hp] at h⟩

theorem Stop_cases (s : StepperState) :
    (Stepper_Stop s).1 = s ∨
    (Stepper_Stop s).1 = { s with phase := .PHASE_IDLE } ∨
    (s.phase ≠ .PHASE_DECEL ∧ s.phase ≠ .PHASE_IDLE ∧ s.current_speed > STEPPER_MIN_SPEED ∧
     (Stepper_Stop s).1 = { s with
          decel_start := s.steps_done,
          target_steps := wrapI32 (((toU32 s.steps_done + CalcDecelSteps s.current_speed s.accel) % 2 ^ 32 : Nat) : Int),
          steps_to_go := wrapI32 (CalcDecelSteps s.current_speed s.accel : Int),
          phase := .PHASE_DECEL }) := by
  unfold Stepper_Stop
  split_ifs with h1 h2
  · right; right; exact ⟨h2.1, h1, h2.2, rfl⟩
  · right; left; rfl
  · left; rfl

theorem Stop_inv {s : StepperState} (hI : Inv s) :
    Inv (Stepper_Stop s).1 ∧ (Stepper_Stop s).1.current_speed = s.current_speed := by
  rcases Stop_cases s with h | h | ⟨_, _, _, h⟩
  · rw [h]; exact ⟨hI, rfl⟩
  · rw [h]; exact ⟨⟨hI.hM, hI.hc, hI.ha, fun h => StepPhase.noConfusion h⟩, rfl⟩
  · rw [h]; exact ⟨⟨hI.hM, hI.hc, hI.ha, fun h => StepPhase.noConfusion h⟩, rfl⟩

theorem Start_inv (s : StepperState) (p : StepperMoveParams)
    (hidle : s.phase = .PHASE_IDLE) (h0 : p.steps ≠ 0)
    (hA : accelInRange (effAccel p.acceleration)) :
    Inv (Stepper_StartMove s p).1 := by
  rw [start_accepted s p hidle h0]
  have hcb := clampSpeed_bounds p.max_speed
  refine ⟨hcb, ⟨le_refl _, hcb.1⟩, ⟨effAccel_pos _, hA⟩, fun _ => ⟨0, rfl, ?_, ?_⟩⟩
  · simp [STEPPER_MIN_SPEED]
  · simp

theorem applyOp_inv {s : StepperState} (hI : Inv s) {fuel : Nat} (hf : 65536 ≤ fuel)
    (op : EngineOp) : ∃ s' e, applyOp fuel op s = some (s', e) ∧ Inv s' := by
  cases op with
  | tick =>
    obtain ⟨s', e, h1, h2, _⟩ := TimerISR_inv hI hf
    exact ⟨s', e, h1, h2⟩
  | stop => exact ⟨_, _, rfl, (Stop_inv hI).1⟩

theorem runOps_inv {fuel : Nat} (hf : 65536 ≤ fuel) :
    ∀ (ops : List EngineOp) (s : StepperState), Inv s →
      ∃ s' es, runOps fuel ops s = some (s', es) ∧ Inv s' := by
  intro ops
  induction ops with
  | nil => intro s hI; exact ⟨s, [], rfl, hI⟩
  | cons op ops ih =>
    intro s hI
    obtain ⟨s1, e, h1, hI1⟩ := applyOp_inv hI hf op
    obtain ⟨s2, es, h2, hI2⟩ := ih s1 hI1
    exact ⟨s2, e.toList ++ es, by simp only [runOps, h1, h2], hI2⟩

theorem accelInRange_default : accelInRange (effAccel STEPPER_DEFAULT_ACCEL) := by decide

/-- Below the 32-bit wrap the speed stays in range: for every accepted start
whose acceleration `a` (600 when 0 is passed) satisfies
`STEPPER_MAX_SPEED² + 2 * a < 65535²`, every sequence of timer ticks and stops
returns and leaves `current_speed` in `[STEPPER_MIN_SPEED, STEPPER_MAX_SPEED]`;
the empty sequence is the state immediately after the start. -/
theorem speed_in_range (s : StepperState) (p : StepperMoveParams)
    (hidle : s.phase = .PHASE_IDLE) (h0 : p.steps ≠ 0)
    (hA : accelInRange (effAccel p.acceleration))
    (ops : List EngineOp) (fuel : Nat) (hf : 65536 ≤ fuel) :
    (Stepper_StartMove s p).2 = true ∧
    ∃ s' es, runOps fuel ops (Stepper_StartMove s p).1 = some (s', es) ∧
      STEPPER_MIN_SPEED ≤ s'.current_speed ∧ s'.current_speed ≤ STEPPER_MAX_SPEED := by
  refine ⟨by rw [start_accepted s p hidle h0], ?_⟩
  obtain ⟨s', es, h1, hI⟩ := runOps_inv hf ops _ (Start_inv s p hidle h0 hA)
  exact ⟨s', es, h1, hI.hc.1, le_trans hI.hc.2 hI.hM.2⟩

/-- The speed range on a start with the default acceleration. -/
theorem speed_in_range_witness :
    ∃ s' es, runOps 65536 [.tick, .tick, .stop, .tick]
        (Stepper_StartMove StepperState.boot ⟨1000, 500, 0, none⟩).1 = some (s', es) ∧
      STEPPER_MIN_SPEED ≤ s'.current_speed ∧ s'.current_speed ≤ STEPPER_MAX_SPEED :=
  (speed_in_range StepperState.boot ⟨1000, 500, 0, none⟩ rfl (by decide) (by decide)
    [.tick, .tick, .stop, .tick] 65536 (le_refl _)).2

/-- C2: the start (steps 3, speed 500, acceleration `2³¹ - 1`) is accepted at
`current_speed = 50`; the 32-bit target of the first tick is 2498, below
`50 * 50`, so the upward scan does not run once and the tick leaves the engine
in phase Accel at `current_speed = 1`; the second tick gives 49 and the move
ends at 49, below `STEPPER_MIN_SPEED`. -/
theorem speed_falls_below_min :
    (Stepper_StartMove StepperState.boot ⟨3, 500, 2147483647, none⟩).2 = true ∧
    ((Stepper_StartMove StepperState.boot ⟨3, 500, 2147483647, none⟩).1.phase,
     (Stepper_StartMove StepperState.boot ⟨3, 500, 2147483647, none⟩).1.current_speed)
      = (.PHASE_ACCEL, 50) ∧
    (((STEPPER_MIN_SPEED * STEPPER_MIN_SPEED) % 2 ^ 32
      + ((2 * 2147483647) % 2 ^ 64 * toU64 (wrapI32 (0 + 1))) % 2 ^ 64) % 2 ^ 64 % 2 ^ 32
        = 2498) ∧
    (runTicks 100 1 (Stepper_StartMove StepperState.boot ⟨3, 500, 2147483647, none⟩).1).map
      (fun y => (y.phase, y.current_speed, y.steps_to_go)) = some (.PHASE_ACCEL, 1, 2) ∧
    (runTicks 100 2 (Stepper_StartMove StepperState.boot ⟨3, 500, 2147483647, none⟩).1).map
      (fun y => (y.phase, y.current_speed, y.steps_to_go)) = some (.PHASE_ACCEL, 49, 1) ∧
    (runTicks 100 3 (Stepper_StartMove StepperState.boot ⟨3, 500, 2147483647, none⟩).1).map
      (fun y => (y.phase, y.current_speed, y.position)) = some (.PHASE_IDLE, 49, 3) := by
  decide

/-- C3: for a move started with the default acceleration, after any sequence of
ticks and stops the next tick returns, does not lower `current_speed` when taken
in phase Accel or Cruise, and does not raise it when taken in phase Decel. -/
theorem speed_monotone (s : StepperState) (p : StepperMoveParams)
    (hidle : s.phase = .PHASE_IDLE) (h0 : p.steps ≠ 0)
    (hA : p.acceleration = STEPPER_DEFAULT_ACCEL)
    (ops : List EngineOp) (fuel : Nat) (hf : 65536 ≤ fuel) :
    ∃ s1 es s2 e, runOps fuel ops (Stepper_StartMove s p).1 = some (s1, es) ∧
      Stepper_TimerISR fuel s1 = some (s2, e) ∧
      (s1.phase = .PHASE_ACCEL ∨ s1.phase = .PHASE_CRUISE →
        s1.current_speed ≤ s2.current_speed) ∧
      (s1.phase = .PHASE_DECEL → s2.current_speed ≤ s1.current_speed) := by
  have hA' : accelInRange (effAccel p.acceleration) := by rw [hA]; exact accelInRange_default
  obtain ⟨s1, es, h1, hI⟩ := runOps_inv hf ops _ (Start_inv s p hidle h0 hA')
  obtain ⟨s2, e, h2, _, h3, h4⟩ := TimerISR_inv hI hf
  exact ⟨s1, es, s2, e, h1, h2, h3, h4⟩

/-- Witness of C3: two ticks, a stop, and the tick that follows. -/
theorem speed_monotone_witness :
    ∃ s1 es s2 e, runOps 65536 [.tick, .tick, .stop]
        (Stepper_StartMove StepperState.boot ⟨1000, 500, 600, none⟩).1 = some (s1, es) ∧
      Stepper_TimerISR 65536 s1 = some (s2, e) ∧
      (s1.phase = .PHASE_ACCEL ∨ s1.phase = .PHASE_CRUISE →
        s1.current_speed ≤ s2.current_speed) ∧
      (s1.phase = .PHASE_DECEL → s2.current_speed ≤ s1.current_speed) :=
  speed_monotone StepperState.boot ⟨1000, 500, 600, none⟩ rfl (by decide) rfl
    [.tick, .tick, .stop] 65536 (le_refl _)

/-! ### Position and step counters along a run of ticks -/

theorem accelCase_frame {fuel : Nat} {s s' : StepperState} (h : accelCase fuel s = some s')
    (hp : s.phase = .PHASE_ACCEL) :
    s'.position = s.position ∧ s'.steps_to_go = s.steps_to_go ∧ s'.direction = s.direction ∧
    s'.callback = s.callback ∧ s'.phase ≠ .PHASE_IDLE := by
  unfold accelCase at h
  simp only at h
  cases hs : scanUp fuel s.current_speed 1
      (((STEPPER_MIN_SPEED * STEPPER_MIN_SPEED) % 2 ^ 32
        + ((2 * s.accel) % 2 ^ 64 * toU64 (wrapI32 (s.accel_steps + 1))) % 2 ^ 64)
          % 2 ^ 64 % 2 ^ 32) with
  | none => rw [hs] at h; exact Option.noConfusion h
  | some r =>
    rw [hs] at h
    simp only at h
    split_ifs at h <;> (cases h; refine ⟨rfl, rfl, rfl, rfl, ?_⟩; simp [hp])

/-- What a tick of a running engine does to position, counters and phase,
whatever the speed computation yields. -/
theorem TimerISR_frame {fuel : Nat} {s s' : StepperState} {e : Option CallbackEvent}
    (h : Stepper_TimerISR fuel s = some (s', e)) (hrun : s.phase ≠ .PHASE_IDLE) :
    s'.position = (if s.direction then wrapI32 (s.position + 1) else wrapI32 (s.position - 1)) ∧
    s'.steps_to_go = wrapI32 (s.steps_to_go - 1) ∧
    s'.direction = s.direction ∧
    s'.callback = s.callback ∧
    (s'.phase = .PHASE_IDLE ↔ wrapI32 (s.steps_to_go - 1) ≤ 0) := by
  by_cases hz : wrapI32 (s.steps_to_go - 1) ≤ 0
  · rw [TimerISR_final fuel s hrun hz] at h
    cases h
    exact ⟨rfl, rfl, rfl, rfl, by simp [hz]⟩
  · rw [TimerISR_inner fuel s hrun hz] at h
    cases hp : s.phase with
    | PHASE_IDLE => exact absurd hp hrun
    | PHASE_ACCEL =>
      rw [hp] at h
      simp only at h
      cases ha : accelCase fuel (stepped s) with
      | none => rw [ha] at h; simp at h
      | some s2 =>
        rw [ha] at h
        simp only [Option.map_some', Option.some.injEq, Prod.mk.injEq] at h
        obtain ⟨rfl, _⟩ := h
        obtain ⟨h1, h2, h3, h4, h5⟩ := accelCase_frame ha hp
        exact ⟨h1, h2, h3, h4, by simp [hz, h5]⟩
    | PHASE_CRUISE =>
      rw [hp] at h
      simp only [Option.some.injEq, Prod.mk.injEq] at h
      obtain ⟨rfl, _⟩ := h
      obtain ⟨h1, h2⟩ := cruiseCase_frame (stepped s)
      have hph : (cruiseCase (stepped s)).phase ≠ .PHASE_IDLE := by
        rcases h2 with h2 | h2 <;> rw [h2] <;> simp [stepped, hp]
      rw [h1]
      exact ⟨rfl, rfl, rfl, rfl, fun h => absurd h hph, fun h => absurd h hz⟩
    | PHASE_DECEL =>
      rw [hp] at h
      simp only [Option.some.injEq, Prod.mk.injEq] at h
      obtain ⟨rfl, _⟩ := h
      rw [decelCase_frame (stepped s)]
      exact ⟨rfl, rfl, rfl, rfl, by simp [hz, stepped, hp]⟩

theorem runTicks_zero (fuel : Nat) (s : StepperState) : runTicks fuel 0 s = some s := rfl

theorem runTicks_succ {fuel n : Nat} {s s' : StepperState}
    (h : runTicks fuel (n + 1) s = some s') :
    ∃ s1 e, Stepper_TimerISR fuel s = some (s1, e) ∧ runTicks fuel n s1 = some s' := by
  unfold runTicks at h
  simp only [List.replicate_succ, runOps, applyOp] at h
  cases h1 : Stepper_TimerISR fuel s with
  | none => rw [h1] at h; simp at h
  | some r =>
    obtain ⟨s1, e⟩ := r
    rw [h1] at h
    simp only at h
    refine ⟨s1, e, rfl, ?_⟩
    unfold runTicks
    cases h2 : runOps fuel (List.replicate n EngineOp.tick) s1 with
    | none => rw [h2] at h; simp at h
    | some r2 =>
      rw [h2] at h
      simpa using h





theorem runTicks_idle (fuel : Nat) (s : StepperState) (hidle : s.phase = .PHASE_IDLE) :
    ∀ k, runTicks fuel k s = some s := by
  intro k
  induction k with
  | zero => rfl
  | succ k ihk =>
    unfold runTicks at ihk ⊢
    cases h2 : runOps fuel (List.replicate k EngineOp.tick) s with
    | none => rw [h2] at ihk; exact Option.noConfusion ihk
    | some r2 =>
      rw [h2] at ihk
      simp only [Option.map_some', Option.some.injEq] at ihk
      simp only [List.replicate_succ, runOps, applyOp, TimerISR_idle fuel s hidle, h2,
        Option.map_some', Option.toList, List.nil_append, ihk]



theorem wrapI32_wrap_add (x y : Int) : wrapI32 (wrapI32 x + y) = wrapI32 (x + y) := by
  unfold wrapI32; omega

theorem wrap_step_pos (q : Int) (d : Bool) :
    wrapI32 (if d then wrapI32 (q + 1) else wrapI32 (q - 1)) = wrapI32 (q + travel d 1) := by
  unfold travel
  cases d
  · simp only [if_false, Bool.false_eq_true]; unfold wrapI32; omega
  · simp only [if_true]; unfold wrapI32; omega

theorem travel_succ (d : Bool) (n : Nat) : travel d 1 + travel d n = travel d (n + 1) := by
  unfold travel
  cases d
  · simp only [if_false, Bool.false_eq_true]; push_cast; omega
  · simp only [if_true]; push_cast; omega

theorem wrap_last (q : Int) (d : Bool) :
    (if d then wrapI32 (q + 1) else wrapI32 (q - 1)) = wrapI32 (q + travel d 1) := by
  unfold travel
  cases d
  · simp only [if_false, Bool.false_eq_true]; congr 1
  · simp only [if_true]; congr 1

theorem togo_step (m : Nat) (hm1 : 1 ≤ m) (hm2 : m ≤ 2 ^ 31) :
    wrapI32 (wrapI32 (m : Int) - 1) = ((m - 1 : Nat) : Int) := by
  unfold wrapI32; omega



theorem ticks_count {fuel : Nat} :
    ∀ (n : Nat) (s s' : StepperState) (m : Nat), s.phase ≠ .PHASE_IDLE →
      1 ≤ m → m ≤ 2 ^ 31 → s.steps_to_go = wrapI32 (m : Int) →
      runTicks fuel n s = some s' →
      (n < m → s'.phase ≠ .PHASE_IDLE ∧ s'.direction = s.direction ∧
        s'.callback = s.callback ∧
        wrapI32 s'.position = wrapI32 (s.position + travel s.direction n)) ∧
      (n = m → s'.phase = .PHASE_IDLE ∧
        s'.position = wrapI32 (s.position + travel s.direction m)) := by
  intro n
  induction n with
  | zero =>
    intro s s' m hrun hm1 hm2 hgo h
    rw [runTicks_zero] at h
    cases h
    refine ⟨fun _ => ⟨hrun, rfl, rfl, ?_⟩, fun h => by omega⟩
    have : ∀ d, travel d 0 = 0 := fun d => by cases d <;> rfl
    rw [this, add_zero]
  | succ n ih =>
    intro s s' m hrun hm1 hm2 hgo h
    obtain ⟨s1, e, ht, hr⟩ := runTicks_succ h
    obtain ⟨f1, f2, f3, f4, f5⟩ := TimerISR_frame ht hrun
    have hgo1 : s1.steps_to_go = ((m - 1 : Nat) : Int) := by
      rw [f2, hgo]; exact togo_step m hm1 hm2
    by_cases hm : m = 1
    · subst hm
      have hz : wrapI32 (s.steps_to_go - 1) ≤ 0 := by rw [← f2, hgo1]; simp
      have hidle : s1.phase = .PHASE_IDLE := f5.mpr hz
      rw [runTicks_idle fuel s1 hidle n] at hr
      cases hr
      refine ⟨fun h => by omega, fun _ => ⟨hidle, ?_⟩⟩
      rw [f1]; exact wrap_last _ _
    · have hz : ¬ wrapI32 (s.steps_to_go - 1) ≤ 0 := by rw [← f2, hgo1]; omega
      have hrun1 : s1.phase ≠ .PHASE_IDLE := fun h => hz (f5.mp h)
      have hgo1' : s1.steps_to_go = wrapI32 ((m - 1 : Nat) : Int) := by
        rw [hgo1, wrapI32_eq (by unfold isI32; omega)]
      obtain ⟨i1, i2⟩ := ih s1 s' (m - 1) hrun1 (by omega) (by omega) hgo1' hr
      have hpos : ∀ k, wrapI32 (s1.position + travel s.direction k)
          = wrapI32 (s.position + travel s.direction (k + 1)) := by
        intro k
        rw [← wrapI32_wrap_add s1.position, f1, wrap_step_pos, wrapI32_wrap_add, add_assoc,
          travel_succ]
      constructor
      · intro hlt
        obtain ⟨j1, j3, j4, j5⟩ := i1 (by omega)
        refine ⟨j1, by rw [j3, f3], by rw [j4, f4], ?_⟩
        rw [j5, f3]; exact hpos n
      · intro heq
        obtain ⟨j1, j2⟩ := i2 (by omega)
        refine ⟨j1, ?_⟩
        rw [j2, f3, hpos (m - 1)]
        have : m - 1 + 1 = m := by omega
        rw [this]

theorem start_counters (s : StepperState) (p : StepperMoveParams)
    (hidle : s.phase = .PHASE_IDLE) (h0 : p.steps ≠ 0) (hsteps : isI32 p.steps) :
    (Stepper_StartMove s p).1.phase ≠ .PHASE_IDLE ∧
    (Stepper_StartMove s p).1.steps_to_go = wrapI32 (p.steps.natAbs : Int) ∧
    (Stepper_StartMove s p).1.position = s.position ∧
    (Stepper_StartMove s p).1.callback = p.on_complete ∧
    travel (Stepper_StartMove s p).1.direction p.steps.natAbs = p.steps := by
  rw [start_accepted s p hidle h0]
  unfold isI32 at hsteps
  refine ⟨by simp, ?_, rfl, rfl, ?_⟩
  · simp only
    split_ifs with hpos
    · rw [wrapI32_eq (by unfold isI32; omega)]; omega
    · congr 1; omega
  · simp only
    unfold travel
    by_cases hpos : p.steps > 0
    · simp only [hpos, decide_True, if_true]; omega
    · simp only [hpos, decide_False, Bool.false_eq_true, if_false]; omega

/-- For every acceleration: if `n` ticks of a started move return, the engine is
running while `n < |steps|` and is Idle at the requested offset when `n = |steps|`. -/
theorem move_count (s : StepperState) (p : StepperMoveParams)
    (hidle : s.phase = .PHASE_IDLE) (h0 : p.steps ≠ 0) (hsteps : isI32 p.steps)
    (fuel n : Nat) (s' : StepperState)
    (h : runTicks fuel n (Stepper_StartMove s p).1 = some s') :
    (n < p.steps.natAbs → s'.phase ≠ .PHASE_IDLE) ∧
    (n = p.steps.natAbs → s'.phase = .PHASE_IDLE ∧
      s'.position = wrapI32 (s.position + p.steps)) := by
  obtain ⟨c1, c2, c3, _, c5⟩ := start_counters s p hidle h0 hsteps
  have hm1 : 1 ≤ p.steps.natAbs := by omega
  have hm2 : p.steps.natAbs ≤ 2 ^ 31 := by unfold isI32 at hsteps; omega
  obtain ⟨i1, i2⟩ := ticks_count n _ s' p.steps.natAbs c1 hm1 hm2 c2 h
  refine ⟨fun hlt => (i1 hlt).1, fun heq => ?_⟩
  obtain ⟨j1, j2⟩ := i2 heq
  rw [c5, c3] at j2
  exact ⟨j1, j2⟩

theorem runTicks_total {s : StepperState} (hI : Inv s) {fuel : Nat} (hf : 65536 ≤ fuel)
    (n : Nat) : ∃ s', runTicks fuel n s = some s' := by
  obtain ⟨s', es, h, _⟩ := runOps_inv hf (List.replicate n EngineOp.tick) s hI
  exact ⟨s', by unfold runTicks; rw [h]; rfl⟩

/-- Below the 32-bit wrap a move completes: for every initial position and every
accepted start whose acceleration `a` (600 when 0 is passed) satisfies
`STEPPER_MAX_SPEED² + 2 * a < 65535²`, with no stop issued: each of the first
`|steps|` ticks returns, no tick before the `|steps|`-th makes the engine Idle,
and after exactly `|steps|` ticks it is Idle with `position` equal to
`initial + steps` reduced to `int32_t`, hence to `initial + steps` itself when
that is representable. -/
theorem move_completes (s : StepperState) (p : StepperMoveParams)
    (hidle : s.phase = .PHASE_IDLE) (h0 : p.steps ≠ 0) (hsteps : isI32 p.steps)
    (hA : accelInRange (effAccel p.acceleration)) (fuel : Nat) (hf : 65536 ≤ fuel) :
    (Stepper_StartMove s p).2 = true ∧
    (∀ n, n < p.steps.natAbs →
      ∃ s', runTicks fuel n (Stepper_StartMove s p).1 = some s' ∧ s'.phase ≠ .PHASE_IDLE) ∧
    ∃ s', runTicks fuel p.steps.natAbs (Stepper_StartMove s p).1 = some s' ∧
      s'.phase = .PHASE_IDLE ∧
      s'.position = wrapI32 (s.position + p.steps) ∧
      (isI32 (s.position + p.steps) → s'.position = s.position + p.steps) := by
  have hI := Start_inv s p hidle h0 hA
  refine ⟨by rw [start_accepted s p hidle h0], fun n hn => ?_, ?_⟩
  · obtain ⟨s', h⟩ := runTicks_total hI hf n
    exact ⟨s', h, (move_count s p hidle h0 hsteps fuel n s' h).1 hn⟩
  · obtain ⟨s', h⟩ := runTicks_total hI hf p.steps.natAbs
    obtain ⟨h1, h2⟩ := (move_count s p hidle h0 hsteps fuel _ s' h).2 rfl
    exact ⟨s', h, h1, h2, fun hr => by rw [h2, wrapI32_eq hr]⟩

/-- The scenario of the specification: steps 1000, speed 500, accel 600 ends at position 1000. -/
theorem move_completes_witness :
    ∃ s', runTicks 65536 1000
        (Stepper_StartMove StepperState.boot ⟨1000, 500, 600, none⟩).1 = some s' ∧
      s'.phase = .PHASE_IDLE ∧ s'.position = 1000 := by
  obtain ⟨s', h1, h2, _, h4⟩ :=
    (move_completes StepperState.boot ⟨1000, 500, 600, none⟩ rfl (by decide) (by decide)
      (by decide) 65536 (le_refl _)).2.2
  exact ⟨s', h1, h2, h4 (by decide)⟩

/-! ### A start whose first tick never returns -/

theorem sq_mod_ne (s : Nat) : (s * s) % 2 ^ 32 ≠ 4294967295 := by
  intro h
  have h4 : (s * s) % 4 = 3 := by omega
  rw [Nat.mul_mod] at h4
  have : s % 4 < 4 := Nat.mod_lt _ (by decide)
  interval_cases (s % 4) <;> simp at h4

theorem scanUp_diverges : ∀ (fuel s ns : Nat), scanUp fuel s ns 4294967294 = none := by
  intro fuel
  induction fuel with
  | zero => intro s ns; rfl
  | succ f ih =>
    intro s ns
    have h1 := sq_mod_ne s
    have h2 : (s * s) % 2 ^ 32 < 2 ^ 32 := Nat.mod_lt _ (by decide)
    unfold scanUp
    rw [if_pos (by omega)]
    exact ih _ _

theorem first_tick_diverges (fuel : Nat) :
    Stepper_TimerISR fuel
      (Stepper_StartMove StepperState.boot ⟨2, 500, 2147482397, none⟩).1 = none := by
  have hs : (Stepper_StartMove StepperState.boot ⟨2, 500, 2147482397, none⟩).1 =
      { position := 0, target_steps := 2, steps_done := 0, steps_to_go := 2,
        current_speed := 50, max_speed := 500, accel := 2147482397, accel_steps := 0,
        decel_start := 2, direction := true, phase := .PHASE_ACCEL, callback := none } := by
    decide
  rw [hs, TimerISR_inner fuel _ (by decide) (by decide)]
  simp only
  have ha : accelCase fuel (stepped
      { position := 0, target_steps := 2, steps_done := 0, steps_to_go := 2,
        current_speed := 50, max_speed := 500, accel := 2147482397, accel_steps := 0,
        decel_start := 2, direction := true, phase := .PHASE_ACCEL, callback := none }) = none := by
    unfold accelCase
    have hq : ((STEPPER_MIN_SPEED * STEPPER_MIN_SPEED) % 2 ^ 32
      + ((2 * 2147482397) % 2 ^ 64 * toU64 (wrapI32 (0 + 1))) % 2 ^ 64) % 2 ^ 64 % 2 ^ 32
        = 4294967294 := by decide
    simp only [stepped]
    rw [hq, scanUp_diverges]
  rw [ha]
  rfl

/-- C1: the start (steps 2, speed 500, acceleration `2³¹ - 1251`) is accepted on
the booted engine with two steps to go, yet whatever number of loop iterations
is allowed neither one tick nor two ticks return: the move never reaches Idle
at position 2. -/
theorem move_never_completes :
    (Stepper_StartMove StepperState.boot ⟨2, 500, 2147482397, none⟩).2 = true ∧
    ((Stepper_StartMove StepperState.boot ⟨2, 500, 2147482397, none⟩).1.phase,
     (Stepper_StartMove StepperState.boot ⟨2, 500, 2147482397, none⟩).1.steps_to_go,
     (Stepper_StartMove StepperState.boot ⟨2, 500, 2147482397, none⟩).1.position)
      = (.PHASE_ACCEL, 2, 0) ∧
    (∀ fuel, runTicks fuel 1
        (Stepper_StartMove StepperState.boot ⟨2, 500, 2147482397, none⟩).1 = none) ∧
    (∀ fuel, runTicks fuel 2
        (Stepper_StartMove StepperState.boot ⟨2, 500, 2147482397, none⟩).1 = none) := by
  refine ⟨by decide, by decide, fun fuel => ?_, fun fuel => ?_⟩
  · cases h : runTicks fuel 1
        (Stepper_StartMove StepperState.boot ⟨2, 500, 2147482397, none⟩).1 with
    | none => rfl
    | some s' =>
      obtain ⟨s1, e, h1, _⟩ := runTicks_succ h
      rw [first_tick_diverges fuel] at h1
      exact Option.noConfusion h1
  · cases h : runTicks fuel 2
        (Stepper_StartMove StepperState.boot ⟨2, 500, 2147482397, none⟩).1 with
    | none => rfl
    | some s' =>
      obtain ⟨s1, e, h1, _⟩ := runTicks_succ h
      rw [first_tick_diverges fuel] at h1
      exact Option.noConfusion h1

/-! ### Start and stop of the engine -/

/-- C5: `Stepper_StartMove` returns false exactly when the engine is running or
`steps == 0`, then leaves every field of the state as it was, and returns true
in every other case. -/
theorem start_rejects (s : StepperState) (p : StepperMoveParams) :
    ((Stepper_StartMove s p).2 = false ↔ (s.phase ≠ .PHASE_IDLE ∨ p.steps = 0)) ∧
    ((Stepper_StartMove s p).2 = false → (Stepper_StartMove s p).1 = s) ∧
    (¬ (s.phase ≠ .PHASE_IDLE ∨ p.steps = 0) → (Stepper_StartMove s p).2 = true) := by
  by_cases hidle : s.phase = .PHASE_IDLE
  · by_cases h0 : p.steps = 0
    · have h : Stepper_StartMove s p = (s, false) := by
        unfold Stepper_StartMove Stepper_IsRunning
        simp only [hidle, ne_eq, not_true_eq_false, decide_False, Bool.false_eq_true, if_false,
          h0, if_true]
      rw [h]
      exact ⟨⟨fun _ => Or.inr h0, fun _ => rfl⟩, fun _ => rfl, fun hc => absurd (Or.inr h0) hc⟩
    · rw [start_accepted s p hidle h0]
      refine ⟨⟨fun h => Bool.noConfusion h, fun h => ?_⟩, fun h => Bool.noConfusion h,
        fun _ => rfl⟩
      rcases h with h | h
      · exact absurd hidle h
      · exact absurd h h0
  · have h : Stepper_StartMove s p = (s, false) := by
      unfold Stepper_StartMove Stepper_IsRunning
      simp only [ne_eq, hidle, not_false_eq_true, decide_True, if_true]
    rw [h]
    exact ⟨⟨fun _ => Or.inl hidle, fun _ => rfl⟩, fun _ => rfl, fun hc => absurd (Or.inl hidle) hc⟩

/-- C8: a stop on a running engine that is in phase Decel, or whose speed is at
`STEPPER_MIN_SPEED`, sets the phase to Idle, keeps the position, and calls the
registered completion callback once, with `completed = false` and the current
position. -/
theorem stop_immediate (s : StepperState) (hrun : s.phase ≠ .PHASE_IDLE)
    (h : s.phase = .PHASE_DECEL ∨ s.current_speed ≤ STEPPER_MIN_SPEED) :
    (Stepper_Stop s).1 = { s with phase := .PHASE_IDLE } ∧
    (Stepper_Stop s).1.phase = .PHASE_IDLE ∧
    (Stepper_Stop s).1.position = s.position ∧
    (∀ f, s.callback = some f → (Stepper_Stop s).2 = some ⟨f, false, s.position⟩) ∧
    (s.callback = none → (Stepper_Stop s).2 = none) := by
  have hc : ¬ (s.phase ≠ .PHASE_DECEL ∧ s.current_speed > STEPPER_MIN_SPEED) := by
    rintro ⟨h1, h2⟩
    rcases h with h | h
    · exact h1 h
    · omega
  have hs : Stepper_Stop s = ({ s with phase := .PHASE_IDLE }, invoke s.callback false s.position) := by
    unfold Stepper_Stop
    rw [if_pos hrun, if_neg hc]
  rw [hs]
  refine ⟨rfl, rfl, rfl, fun f hf => ?_, fun hn => ?_⟩
  · simp only [hf, invoke]
  · simp only [hn, invoke]

/-- Witness of C8: a stop right after the homing start, at the minimum speed. -/
theorem stop_immediate_witness :
    (Stepper_Stop (Stepper_StartMove StepperState.boot
        ⟨-100000, 500, 600, some .OnMotionComplete⟩).1).2
      = some ⟨.OnMotionComplete, false, 0⟩ :=
  (stop_immediate (Stepper_StartMove StepperState.boot
      ⟨-100000, 500, 600, some .OnMotionComplete⟩).1 (by decide) (Or.inr (by decide))).2.2.2.1
    .OnMotionComplete rfl

/-- C9: a stop issued in the Accel phase (coordinator parameters: 100000 steps,
speed 5000, default acceleration; stop after 7 ticks at speed 104) switches to
Decel, yet the speed stays 104 for the 8 remaining speed updates and the
engine becomes Idle at speed 104, not at the minimum of 50. -/
theorem graceful_stop_in_accel_keeps_speed :
    (runTicks 100 7 (Stepper_StartMove StepperState.boot
        ⟨100000, 5000, 600, some .OnMotionComplete⟩).1).map
      (fun s => (s.phase, s.current_speed, (Stepper_Stop s).1.phase, (Stepper_Stop s).1.steps_to_go))
      = some (.PHASE_ACCEL, 104, .PHASE_DECEL, 9) ∧
    ((runTicks 100 7 (Stepper_StartMove StepperState.boot
        ⟨100000, 5000, 600, some .OnMotionComplete⟩).1).bind
      (fun s => runTicks 100 8 (Stepper_Stop s).1)).map (fun s => (s.phase, s.current_speed))
      = some (.PHASE_DECEL, 104) ∧
    ((runTicks 100 7 (Stepper_StartMove StepperState.boot
        ⟨100000, 5000, 600, some .OnMotionComplete⟩).1).bind
      (fun s => runTicks 100 9 (Stepper_Stop s).1)).map (fun s => (s.phase, s.current_speed))
      = some (.PHASE_IDLE, 104) := by
  decide

/-! ### The coordinator -/

theorem Slider_Move_invalid (sys : SliderSys) (steps : Int) (speed : Nat)
    (h : steps = 0 ∨ speed = 0) :
    Slider_Move sys steps speed = (sys, .SLIDER_ERR_INVALID_PARAM) := by
  unfold Slider_Move; rw [if_pos h]

theorem Slider_Move_busy (sys : SliderSys) (steps : Int) (speed : Nat)
    (h1 : ¬ (steps = 0 ∨ speed = 0)) (h2 : sys.state ≠ .SLIDER_STATE_IDLE) :
    Slider_Move sys steps speed = (sys, .SLIDER_ERR_BUSY) := by
  unfold Slider_Move; rw [if_neg h1, if_pos h2]

theorem Slider_Move_ok (sys : SliderSys) (steps : Int) (speed : Nat)
    (h1 : ¬ (steps = 0 ∨ speed = 0)) (h2 : sys.state = .SLIDER_STATE_IDLE) :
    Slider_Move sys steps speed =
      ({ sys with pending_steps := steps, pending_speed := speed, motion_requested := true },
       .SLIDER_OK) := by
  unfold Slider_Move; rw [if_neg h1, if_neg (not_not.mpr h2)]

/-- C6: `Slider_Move` returns InvalidParam when `steps == 0` or `speed == 0`,
otherwise Busy when the coordinator is not Idle, otherwise OK after recording
`(steps, speed)` and setting the pending-move flag; when it returns InvalidParam
or Busy the whole system state, engine included, is unchanged. -/
theorem move_request (sys : SliderSys) (steps : Int) (speed : Nat) :
    ((steps = 0 ∨ speed = 0) →
      Slider_Move sys steps speed = (sys, .SLIDER_ERR_INVALID_PARAM)) ∧
    (¬ (steps = 0 ∨ speed = 0) → sys.state ≠ .SLIDER_STATE_IDLE →
      Slider_Move sys steps speed = (sys, .SLIDER_ERR_BUSY)) ∧
    (¬ (steps = 0 ∨ speed = 0) → sys.state = .SLIDER_STATE_IDLE →
      Slider_Move sys steps speed =
        ({ sys with pending_steps := steps, pending_speed := speed, motion_requested := true },
         .SLIDER_OK)) ∧
    ((Slider_Move sys steps speed).2 = .SLIDER_ERR_INVALID_PARAM ∨
      (Slider_Move sys steps speed).2 = .SLIDER_ERR_BUSY →
        (Slider_Move sys steps speed).1 = sys) := by
  refine ⟨Slider_Move_invalid sys steps speed, Slider_Move_busy sys steps speed,
    Slider_Move_ok sys steps speed, ?_⟩
  by_cases h1 : steps = 0 ∨ speed = 0
  · rw [Slider_Move_invalid sys steps speed h1]; exact fun _ => rfl
  · by_cases h2 : sys.state = .SLIDER_STATE_IDLE
    · rw [Slider_Move_ok sys steps speed h1 h2]
      intro h
      rcases h with h | h <;> exact SliderResult.noConfusion h
    · rw [Slider_Move_busy sys steps speed h1 h2]; exact fun _ => rfl

/-- A delivered callback touches the two completion flags only. -/
theorem deliver_frame (sys : SliderSys) (e : Option CallbackEvent) :
    deliver sys e = { sys with motion_complete := (deliver sys e).motion_complete,
                               motion_success := (deliver sys e).motion_success } := by
  cases e with
  | none => rfl
  | some e =>
    obtain ⟨f, c, q⟩ := e
    cases f
    rfl

theorem deliver_state (sys : SliderSys) (e : Option CallbackEvent) :
    (deliver sys e).state = sys.state ∧ (deliver sys e).homed = sys.homed := by
  rw [deliver_frame]
  exact ⟨rfl, rfl⟩

theorem Run_stop_state (sys : SliderSys) : (Slider_Run_stop sys).state = sys.state ∧
    (Slider_Run_stop sys).home_requested = sys.home_requested ∧
    (Slider_Run_stop sys).homed = sys.homed := by
  unfold Slider_Run_stop
  by_cases h1 : sys.stop_requested = true
  · rw [if_pos h1]
    simp only
    by_cases h2 : sys.state = .SLIDER_STATE_MOVING ∨ sys.state = .SLIDER_STATE_HOMING
    · rw [if_pos h2, deliver_frame]
      exact ⟨rfl, rfl, rfl⟩
    · rw [if_neg h2]
      exact ⟨rfl, rfl, rfl⟩
  · rw [if_neg h1]
    exact ⟨rfl, rfl, rfl⟩

/-- Requests and timer ticks leave the coordinator's `state` and `homed` alone;
only a pass of `Slider_Run` changes them. -/
theorem sysStep_not_run {fuel : Nat} {op : SysOp} {sys sys' : SliderSys}
    (h : sysStep fuel op sys = some sys') (hop : op ≠ .run) :
    sys'.state = sys.state ∧ sys'.homed = sys.homed := by
  cases op with
  | run => exact absurd rfl hop
  | home =>
    simp only [sysStep, Option.some.injEq] at h
    subst h
    unfold Slider_Home
    split_ifs <;> exact ⟨rfl, rfl⟩
  | move steps speed =>
    simp only [sysStep, Option.some.injEq] at h
    subst h
    unfold Slider_Move
    split_ifs <;> exact ⟨rfl, rfl⟩
  | stop =>
    simp only [sysStep, Option.some.injEq] at h
    subst h
    exact ⟨rfl, rfl⟩
  | tick =>
    simp only [sysStep, Sys_TimerISR] at h
    cases ht : Stepper_TimerISR fuel sys.stepper with
    | none => rw [ht] at h; exact Option.noConfusion h
    | some r =>
      obtain ⟨st, e⟩ := r
      rw [ht] at h
      simp only [Option.some.injEq] at h
      subst h
      exact deliver_state _ e

theorem sysRun_no_run {fuel : Nat} :
    ∀ (ops : List SysOp) (sys sys' : SliderSys), (∀ op ∈ ops, op ≠ SysOp.run) →
      sysRun fuel ops sys = some sys' → sys'.state = sys.state := by
  intro ops
  induction ops with
  | nil => intro sys sys' _ h; simp only [sysRun, Option.some.injEq] at h; rw [h]
  | cons op ops ih =>
    intro sys sys' hall h
    simp only [sysRun] at h
    cases h1 : sysStep fuel op sys with
    | none => rw [h1] at h; exact Option.noConfusion h
    | some s1 =>
      rw [h1] at h
      simp only at h
      rw [ih s1 sys' (fun o ho => hall o (List.mem_cons_of_mem _ ho)) h]
      exact (sysStep_not_run h1 (hall op (List.mem_cons_self _ _))).1

theorem dispatch_idle_home (y : SliderSys) (h1 : y.state = .SLIDER_STATE_IDLE)
    (h2 : y.home_requested = true) :
    (Slider_Run_dispatch y).state = .SLIDER_STATE_HOMING := by
  unfold Slider_Run_dispatch
  rw [h1]
  simp only [h2, if_true]

theorem home_then_run (sys : SliderSys) (hidle : sys.state = .SLIDER_STATE_IDLE) :
    (Slider_Home sys).2 = .SLIDER_OK ∧
    (Slider_Run (Slider_Home sys).1).state = .SLIDER_STATE_HOMING := by
  have hh : Slider_Home sys = ({ sys with home_requested := true }, .SLIDER_OK) := by
    unfold Slider_Home
    rw [if_neg (not_not.mpr hidle)]
  rw [hh]
  refine ⟨rfl, ?_⟩
  obtain ⟨h1, h2, _⟩ := Run_stop_state { sys with home_requested := true }
  unfold Slider_Run
  exact dispatch_idle_home _ (h1.trans hidle) h2

/-- Counterexample to C7 as stated: with no pass of `Slider_Run` between the two
requests the coordinator is still Idle and the move request returns OK. -/
theorem move_after_home_accepted :
    (Slider_Home (Slider_Init SliderSys.boot)).2 = .SLIDER_OK ∧
    (Slider_Move (Slider_Home (Slider_Init SliderSys.boot)).1 100 500).2 = .SLIDER_OK ∧
    (Slider_Move (Slider_Home (Slider_Init SliderSys.boot)).1 100 500).2 ≠ .SLIDER_ERR_BUSY := by
  decide

theorem dispatch_homed (y : SliderSys) (h : (Slider_Run_dispatch y).homed = true) :
    y.homed = true ∨
    (y.state = .SLIDER_STATE_HOMING ∧ y.motion_complete = true ∧
      (Slider_Run_dispatch y).state = .SLIDER_STATE_IDLE) := by
  unfold Slider_Run_dispatch at h ⊢
  cases hst : y.state with
  | SLIDER_STATE_IDLE =>
    rw [hst] at h
    simp only at h
    by_cases h1 : y.home_requested = true
    · rw [if_pos h1] at h; exact Bool.noConfusion h
    · rw [if_neg h1] at h
      by_cases h2 : y.motion_requested = true
      · rw [if_pos h2] at h; exact Or.inl h
      · rw [if_neg h2] at h; exact Or.inl h
  | SLIDER_STATE_HOMING =>
    rw [hst] at h
    simp only at h ⊢
    by_cases hmc : y.motion_complete = true
    · right
      rw [if_pos hmc]
      exact ⟨trivial, hmc, rfl⟩
    · rw [if_neg hmc] at h; exact Or.inl h
  | SLIDER_STATE_MOVING =>
    rw [hst] at h
    simp only at h
    by_cases hmc : y.motion_complete = true
    · rw [if_pos hmc] at h; exact Or.inl h
    · rw [if_neg hmc] at h; exact Or.inl h
  | SLIDER_STATE_ERROR =>
    rw [hst] at h
    exact Or.inl h

/-- One step of the system: `homed` turns true only in a pass of `Slider_Run` that
finds state Homing with `motion_complete` set and returns the coordinator to Idle. -/
theorem homed_step (fuel : Nat) (op : SysOp) (sys sys' : SliderSys)
    (h : sysStep fuel op sys = some sys') (hh : sys'.homed = true) :
    sys.homed = true ∨
    (op = .run ∧ sys.state = .SLIDER_STATE_HOMING ∧
      (Slider_Run_stop sys).motion_complete = true ∧ sys'.state = .SLIDER_STATE_IDLE) := by
  by_cases hop : op = .run
  · subst hop
    simp only [sysStep, Option.some.injEq] at h
    subst h
    obtain ⟨h1, _, h3⟩ := Run_stop_state sys
    rcases dispatch_homed (Slider_Run_stop sys) hh with d | ⟨d1, d2, d3⟩
    · exact Or.inl (h3 ▸ d)
    · exact Or.inr ⟨rfl, h1 ▸ d1, d2, d3⟩
  · left
    rw [← (sysStep_not_run h hop).2]; exact hh

theorem sysRun_cons {fuel : Nat} {op : SysOp} {ops : List SysOp} {sys sys' : SliderSys}
    (h : sysRun fuel (op :: ops) sys = some sys') :
    ∃ s1, sysStep fuel op sys = some s1 ∧ sysRun fuel ops s1 = some sys' := by
  simp only [sysRun] at h
  cases h1 : sysStep fuel op sys with
  | none => rw [h1] at h; exact Option.noConfusion h
  | some s1 => rw [h1] at h; exact ⟨s1, rfl, h⟩

theorem sysRun_cons_of {fuel : Nat} {op : SysOp} {ops : List SysOp} {sys s1 sys' : SliderSys}
    (h1 : sysStep fuel op sys = some s1) (h2 : sysRun fuel ops s1 = some sys') :
    sysRun fuel (op :: ops) sys = some sys' := by
  simp only [sysRun, h1, h2]

theorem homed_history {fuel : Nat} :
    ∀ (ops : List SysOp) (sys sys' : SliderSys), sys.homed = false →
      sysRun fuel ops sys = some sys' → sys'.homed = true →
      ∃ pre post y, ops = pre ++ SysOp.run :: post ∧ sysRun fuel pre sys = some y ∧
        y.state = .SLIDER_STATE_HOMING ∧ (Slider_Run_stop y).motion_complete = true ∧
        (Slider_Run y).homed = true ∧ (Slider_Run y).state = .SLIDER_STATE_IDLE := by
  intro ops
  induction ops with
  | nil =>
    intro sys sys' h0 h hh
    simp only [sysRun, Option.some.injEq] at h
    rw [← h, h0] at hh
    exact Bool.noConfusion hh
  | cons op ops ih =>
    intro sys sys' h0 h hh
    obtain ⟨s1, hs, hr⟩ := sysRun_cons h
    by_cases h1 : s1.homed = true
    · rcases homed_step fuel op sys s1 hs h1 with c | ⟨c1, c2, c3, c4⟩
      · rw [h0] at c; exact Bool.noConfusion c
      · subst c1
        simp only [sysStep, Option.some.injEq] at hs
        subst hs
        exact ⟨[], ops, sys, rfl, rfl, c2, c3, h1, c4⟩
    · have h1' : s1.homed = false := by
        cases hb : s1.homed with
        | false => rfl
        | true => exact absurd hb h1
      obtain ⟨pre, post, y, e1, e2, e3, e4, e5, e6⟩ := ih s1 sys' h1' hr hh
      exact ⟨op :: pre, post, y, by rw [e1]; rfl, sysRun_cons_of hs e2, e3, e4, e5, e6⟩

/-- Counterexample to C10 as stated: home, pass, stop request, pass.  The stop
ends the homing move at once with `callback(false, 0)`, and the same pass sets
`homed = true` while `motion_success` is false. -/
theorem homed_after_aborted_homing :
    (sysRun 0 [.home, .run] (Slider_Init SliderSys.boot)).map
        (fun y => (y.state, y.homed, y.stepper.phase, (Stepper_Stop y.stepper).2))
      = some (.SLIDER_STATE_HOMING, false, .PHASE_ACCEL,
              some ⟨.OnMotionComplete, false, 0⟩) ∧
    (sysRun 0 [.home, .run, .stop, .run] (Slider_Init SliderSys.boot)).map
        (fun y => (y.state, y.homed, y.motion_success))
      = some (.SLIDER_STATE_IDLE, true, false) := by
  decide

/-! ### Calls of the completion callback -/

theorem Stop_full (s : StepperState) :
    (s.phase = .PHASE_IDLE ∧ Stepper_Stop s = (s, none)) ∨
    (s.phase ≠ .PHASE_IDLE ∧
      ¬ (s.phase ≠ .PHASE_DECEL ∧ s.current_speed > STEPPER_MIN_SPEED) ∧
      Stepper_Stop s = ({ s with phase := .PHASE_IDLE }, invoke s.callback false s.position)) ∨
    (s.phase ≠ .PHASE_IDLE ∧ s.phase ≠ .PHASE_DECEL ∧ s.current_speed > STEPPER_MIN_SPEED ∧
      Stepper_Stop s = ({ s with
          decel_start := s.steps_done,
          target_steps := wrapI32 (((toU32 s.steps_done
            + CalcDecelSteps s.current_speed s.accel) % 2 ^ 32 : Nat) : Int),
          steps_to_go := wrapI32 (CalcDecelSteps s.current_speed s.accel : Int),
          phase := .PHASE_DECEL }, none)) := by
  unfold Stepper_Stop
  by_cases h1 : s.phase = .PHASE_IDLE
  · left; exact ⟨h1, by rw [if_neg (not_not.mpr h1)]⟩
  · by_cases h2 : s.phase ≠ .PHASE_DECEL ∧ s.current_speed > STEPPER_MIN_SPEED
    · right; right; exact ⟨h1, h2.1, h2.2, by rw [if_pos h1, if_pos h2]⟩
    · right; left; exact ⟨h1, h2, by rw [if_pos h1, if_neg h2]⟩

theorem TimerISR_event {fuel : Nat} {s s' : StepperState} {e : Option CallbackEvent}
    (h : Stepper_TimerISR fuel s = some (s', e)) (hrun : s.phase ≠ .PHASE_IDLE) :
    (s'.phase = .PHASE_IDLE → e = invoke s.callback true s'.position) ∧
    (s'.phase ≠ .PHASE_IDLE → e = none) := by
  obtain ⟨_, _, _, _, f5⟩ := TimerISR_frame h hrun
  by_cases hz : wrapI32 (s.steps_to_go - 1) ≤ 0
  · rw [TimerISR_final fuel s hrun hz] at h
    simp only [Option.some.injEq, Prod.mk.injEq] at h
    obtain ⟨h1, h2⟩ := h
    refine ⟨fun _ => ?_, fun hn => absurd (f5.mpr hz) hn⟩
    rw [← h2, ← h1]
  · refine ⟨fun hi => absurd (f5.mp hi) hz, fun _ => ?_⟩
    rw [TimerISR_inner fuel s hrun hz] at h
    cases hp : s.phase with
    | PHASE_IDLE => exact absurd hp hrun
    | PHASE_ACCEL =>
      rw [hp] at h
      simp only at h
      cases ha : accelCase fuel (stepped s) with
      | none => rw [ha] at h; exact Option.noConfusion h
      | some s2 =>
        rw [ha] at h
        simp only [Option.map_some', Option.some.injEq, Prod.mk.injEq] at h
        exact h.2.symm
    | PHASE_CRUISE =>
      rw [hp] at h
      simp only [Option.some.injEq, Prod.mk.injEq] at h
      exact h.2.symm
    | PHASE_DECEL =>
      rw [hp] at h
      simp only [Option.some.injEq, Prod.mk.injEq] at h
      exact h.2.symm

/-- One engine operation: the callback pointer is kept, an Idle engine stays Idle
and makes no call, and a running engine calls the callback exactly when the
operation leaves it Idle. -/
theorem applyOp_event {fuel : Nat} {op : EngineOp} {s s' : StepperState}
    {e : Option CallbackEvent} (h : applyOp fuel op s = some (s', e)) :
    s'.callback = s.callback ∧
    (s.phase = .PHASE_IDLE → s' = s ∧ e = none) ∧
    (s.phase ≠ .PHASE_IDLE → s'.phase ≠ .PHASE_IDLE → e = none) ∧
    (s.phase ≠ .PHASE_IDLE → s'.phase = .PHASE_IDLE →
      e = invoke s.callback (decide (op = .tick)) s'.position) := by
  cases op with
  | tick =>
    simp only [applyOp] at h
    by_cases hidle : s.phase = .PHASE_IDLE
    · rw [TimerISR_idle fuel s hidle] at h
      simp only [Option.some.injEq, Prod.mk.injEq] at h
      obtain ⟨h1, h2⟩ := h
      subst h1
      exact ⟨rfl, fun _ => ⟨rfl, h2.symm⟩, fun hn => absurd hidle hn, fun hn => absurd hidle hn⟩
    · obtain ⟨_, _, _, f4, _⟩ := TimerISR_frame h hidle
      obtain ⟨e1, e2⟩ := TimerISR_event h hidle
      exact ⟨f4, fun hi => absurd hi hidle, fun _ hn => e2 hn, fun _ hi => e1 hi⟩
  | stop =>
    simp only [applyOp, Option.some.injEq] at h
    rcases Stop_full s with ⟨c1, c2⟩ | ⟨c1, _, c3⟩ | ⟨c1, _, _, c4⟩
    · rw [c2] at h
      simp only [Prod.mk.injEq] at h
      obtain ⟨h1, h2⟩ := h
      subst h1
      exact ⟨rfl, fun _ => ⟨rfl, h2.symm⟩, fun hn => absurd c1 hn, fun hn => absurd c1 hn⟩
    · rw [c3] at h
      simp only [Prod.mk.injEq] at h
      obtain ⟨h1, h2⟩ := h
      subst h1
      exact ⟨rfl, fun hi => absurd hi c1, fun _ hn => absurd rfl hn, fun _ _ => h2.symm⟩
    · rw [c4] at h
      simp only [Prod.mk.injEq] at h
      obtain ⟨h1, h2⟩ := h
      subst h1
      exact ⟨rfl, fun hi => absurd hi c1, fun _ _ => h2.symm,
        fun _ hi => StepPhase.noConfusion hi⟩

theorem runOps_cons {fuel : Nat} {op : EngineOp} {ops : List EngineOp} {s s' : StepperState}
    {es : List CallbackEvent} (h : runOps fuel (op :: ops) s = some (s', es)) :
    ∃ s1 e es1, applyOp fuel op s = some (s1, e) ∧ runOps fuel ops s1 = some (s', es1) ∧
      es = e.toList ++ es1 := by
  simp only [runOps] at h
  cases h1 : applyOp fuel op s with
  | none => rw [h1] at h; exact Option.noConfusion h
  | some r =>
    obtain ⟨s1, e⟩ := r
    rw [h1] at h
    simp only at h
    cases h2 : runOps fuel ops s1 with
    | none => rw [h2] at h; exact Option.noConfusion h
    | some r2 =>
      obtain ⟨s2, es1⟩ := r2
      rw [h2] at h
      simp only [Option.some.injEq, Prod.mk.injEq] at h
      exact ⟨s1, e, es1, rfl, by rw [h2, h.1], h.2.symm⟩

theorem runOps_idle {fuel : Nat} :
    ∀ (ops : List EngineOp) (s s' : StepperState) (es : List CallbackEvent),
      s.phase = .PHASE_IDLE → runOps fuel ops s = some (s', es) → s' = s ∧ es = [] := by
  intro ops
  induction ops with
  | nil =>
    intro s s' es _ h
    simp only [runOps, Option.some.injEq, Prod.mk.injEq] at h
    exact ⟨h.1.symm, h.2.symm⟩
  | cons op ops ih =>
    intro s s' es hidle h
    obtain ⟨s1, e, es1, h1, h2, h3⟩ := runOps_cons h
    obtain ⟨a1, a2⟩ := (applyOp_event h1).2.1 hidle
    subst a1
    obtain ⟨b1, b2⟩ := ih s1 s' es1 hidle h2
    rw [h3, a2, b2]
    exact ⟨b1, rfl⟩

/-- Over a run of ticks and stops of an engine with a registered callback: no call
while the engine runs, and exactly one, carrying the final position, once it is Idle. -/
theorem runOps_events {fuel : Nat} (f : StepperCallback) :
    ∀ (ops : List EngineOp) (s s' : StepperState) (es : List CallbackEvent),
      s.phase ≠ .PHASE_IDLE → s.callback = some f → runOps fuel ops s = some (s', es) →
      s'.callback = some f ∧ (s'.phase ≠ .PHASE_IDLE → es = []) ∧
      (s'.phase = .PHASE_IDLE → ∃ c, es = [⟨f, c, s'.position⟩]) := by
  intro ops
  induction ops with
  | nil =>
    intro s s' es hrun hcb h
    simp only [runOps, Option.some.injEq, Prod.mk.injEq] at h
    obtain ⟨h1, h2⟩ := h
    subst h1
    exact ⟨hcb, fun _ => h2.symm, fun hi => absurd hi hrun⟩
  | cons op ops ih =>
    intro s s' es hrun hcb h
    obtain ⟨s1, e, es1, h1, h2, h3⟩ := runOps_cons h
    obtain ⟨a1, _, a3, a4⟩ := applyOp_event h1
    by_cases hi1 : s1.phase = .PHASE_IDLE
    · obtain ⟨b1, b2⟩ := runOps_idle ops s1 s' es1 hi1 h2
      subst b1
      have he := a4 hrun hi1
      rw [hcb] at he
      refine ⟨by rw [a1, hcb], fun hn => absurd hi1 hn, fun _ => ⟨decide (op = .tick), ?_⟩⟩
      rw [h3, b2, he]
      rfl
    · obtain ⟨c1, c2, c3⟩ := ih s1 s' es1 hi1 (by rw [a1, hcb]) h2
      have he := a3 hrun hi1
      refine ⟨c1, fun hn => ?_, fun hi => ?_⟩
      · rw [h3, he, c2 hn]; rfl
      · obtain ⟨c, hc⟩ := c3 hi
        exact ⟨c, by rw [h3, he, hc]; rfl⟩

theorem start_phase_cb (s : StepperState) (p : StepperMoveParams)
    (hidle : s.phase = .PHASE_IDLE) (h0 : p.steps ≠ 0) :
    (Stepper_StartMove s p).2 = true ∧
    (Stepper_StartMove s p).1.phase = .PHASE_ACCEL ∧
    (Stepper_StartMove s p).1.callback = p.on_complete ∧
    (Stepper_StartMove s p).1.accel = effAccel p.acceleration ∧
    (Stepper_StartMove s p).1.max_speed = clampSpeed p.max_speed ∧
    (Stepper_StartMove s p).1.current_speed = STEPPER_MIN_SPEED ∧
    (Stepper_StartMove s p).1.accel_steps = 0 ∧
    (Stepper_StartMove s p).1.steps_done = 0 ∧
    (Stepper_StartMove s p).1.position = s.position := by
  rw [start_accepted s p hidle h0]
  exact ⟨rfl, rfl, rfl, rfl, rfl, rfl, rfl, rfl, rfl⟩

/-- C11: after an accepted start with a registered callback, over every sequence
of timer ticks and stops: no call has been made while the engine is still
running, exactly one call (with the final position) has been made once it is
Idle, and the next operation makes a call exactly when it takes the phase from
non-Idle to Idle; in particular no tick or stop on an Idle engine makes one.
Every such sequence returns when the acceleration is in range. -/
theorem callback_fires_once (s : StepperState) (p : StepperMoveParams) (f : StepperCallback)
    (hidle : s.phase = .PHASE_IDLE) (h0 : p.steps ≠ 0) (hcb : p.on_complete = some f)
    (fuel : Nat) (ops : List EngineOp) :
    (∀ s1 es, runOps fuel ops (Stepper_StartMove s p).1 = some (s1, es) →
      (s1.phase ≠ .PHASE_IDLE → es = []) ∧
      (s1.phase = .PHASE_IDLE → ∃ c, es = [⟨f, c, s1.position⟩]) ∧
      (∀ op s2 e, applyOp fuel op s1 = some (s2, e) →
        ((e ≠ none ↔ (s1.phase ≠ .PHASE_IDLE ∧ s2.phase = .PHASE_IDLE)) ∧
         (e ≠ none → ∃ c, e = some ⟨f, c, s2.position⟩)))) ∧
    (accelInRange (effAccel p.acceleration) → 65536 ≤ fuel →
      ∃ s1 es, runOps fuel ops (Stepper_StartMove s p).1 = some (s1, es)) := by
  obtain ⟨_, hph, hc, _⟩ := start_phase_cb s p hidle h0
  constructor
  · intro s1 es h
    have hrun : (Stepper_StartMove s p).1.phase ≠ .PHASE_IDLE := by
      rw [hph]; exact fun h => StepPhase.noConfusion h
    obtain ⟨c1, c2, c3⟩ := runOps_events f ops _ s1 es hrun (by rw [hc, hcb]) h
    refine ⟨c2, c3, fun op s2 e ha => ?_⟩
    obtain ⟨_, a2, a3, a4⟩ := applyOp_event ha
    by_cases hi : s1.phase = .PHASE_IDLE
    · have he := (a2 hi).2
      exact ⟨⟨fun hn => absurd he hn, fun hn => absurd hi hn.1⟩, fun hn => absurd he hn⟩
    · by_cases hi2 : s2.phase = .PHASE_IDLE
      · have he := a4 hi hi2
        rw [c1] at he
        refine ⟨⟨fun _ => ⟨hi, hi2⟩, fun _ => ?_⟩, fun _ => ⟨decide (op = .tick), he⟩⟩
        rw [he]; exact fun h => Option.noConfusion h
      · have he := a3 hi hi2
        exact ⟨⟨fun hn => absurd he hn, fun hn => absurd hn.2 hi2⟩, fun hn => absurd he hn⟩
  · intro hA hf
    obtain ⟨s1, es, h, _⟩ := runOps_inv hf ops _ (Start_inv s p hidle h0 hA)
    exact ⟨s1, es, h⟩

/-- Witness of C11: the homing start, one tick, then a stop. -/
theorem callback_fires_once_witness :
    ∃ s1 es, runOps 65536 [.tick, .stop]
      (Stepper_StartMove StepperState.boot
        ⟨-100000, 500, 600, some .OnMotionComplete⟩).1 = some (s1, es) :=
  (callback_fires_once StepperState.boot ⟨-100000, 500, 600, some .OnMotionComplete⟩
    .OnMotionComplete rfl (by decide) rfl 65536 [.tick, .stop]).2 (by decide) (le_refl _)

/-! ### The acceleration law -/

theorem accelCase_fields {s : StepperState} (hI : Inv s) (hp : s.phase = .PHASE_ACCEL)
    {k : Nat} (hk : s.accel_steps = (k : Int))
    (hc : s.current_speed * s.current_speed ≤ 2500 + 2 * (s.accel * k))
    (hb : 2500 + 2 * (s.accel * k) ≤ 25000000) {fuel : Nat} (hf : 65536 ≤ fuel) :
    ∃ s', accelCase fuel s = some s' ∧
      s'.accel_steps = ((k + 1 : Nat) : Int) ∧ s'.steps_done = s.steps_done ∧
      s'.max_speed = s.max_speed ∧ s'.accel = s.accel ∧ s'.decel_start = s.decel_start ∧
      s'.steps_to_go = s.steps_to_go ∧
      s'.current_speed = accelLaw s.max_speed s.accel (k + 1) ∧
      s'.phase ≠ .PHASE_IDLE ∧
      (s'.phase = .PHASE_ACCEL → s.steps_done < s.decel_start) ∧
      (s'.phase = .PHASE_CRUISE → s.max_speed ≤ Nat.sqrt (accelTarget s.accel (k + 1))) ∧
      (s'.phase ≠ .PHASE_CRUISE →
        s'.current_speed = Nat.sqrt (accelTarget s.accel (k + 1))) := by
  refine ⟨_, accelCase_eq hI hk hc hb hf, ?_⟩
  have hL : accelLaw s.max_speed s.accel (k + 1)
      = min s.max_speed (Nat.sqrt (accelTarget s.accel (k + 1))) := rfl
  rw [hL]
  by_cases h1 : Nat.sqrt (accelTarget s.accel (k + 1)) ≥ s.max_speed
  · rw [if_pos h1]
    exact ⟨rfl, rfl, rfl, rfl, rfl, rfl, (min_eq_left h1).symm,
      fun h => StepPhase.noConfusion h, fun h => StepPhase.noConfusion h, fun _ => h1,
      fun h => absurd rfl h⟩
  · rw [if_neg h1]
    have hmin : min s.max_speed (Nat.sqrt (accelTarget s.accel (k + 1)))
        = Nat.sqrt (accelTarget s.accel (k + 1)) := min_eq_right (by omega)
    by_cases h2 : s.steps_done ≥ s.decel_start
    · rw [if_pos h2]
      exact ⟨rfl, rfl, rfl, rfl, rfl, rfl, hmin.symm,
        fun h => StepPhase.noConfusion h, fun h => StepPhase.noConfusion h,
        fun h => StepPhase.noConfusion h, fun _ => rfl⟩
    · rw [if_neg h2]
      have hph : ∀ q : StepPhase, s.phase = q → q = .PHASE_ACCEL := fun q hq => hq ▸ hp
      exact ⟨rfl, rfl, rfl, rfl, rfl, rfl, hmin.symm,
        fun h => StepPhase.noConfusion (hph _ h), fun _ => by omega,
        fun h => StepPhase.noConfusion (hph _ h), fun _ => rfl⟩

/-- A tick taken in phase Accel that does not end the move, under the invariant:
the fields of the state it returns. -/
theorem tick_accel {s : StepperState} (hI : Inv s) (hp : s.phase = .PHASE_ACCEL)
    {k : Nat} (hk : s.accel_steps = (k : Int))
    (hz : ¬ wrapI32 (s.steps_to_go - 1) ≤ 0) {fuel : Nat} (hf : 65536 ≤ fuel) :
    ∃ s', Stepper_TimerISR fuel s = some (s', none) ∧
      s'.accel_steps = ((k + 1 : Nat) : Int) ∧
      s'.steps_done = wrapI32 (s.steps_done + 1) ∧
      s'.max_speed = s.max_speed ∧ s'.accel = s.accel ∧ s'.decel_start = s.decel_start ∧
      s'.steps_to_go = wrapI32 (s.steps_to_go - 1) ∧
      s'.current_speed = accelLaw s.max_speed s.accel (k + 1) ∧
      s'.phase ≠ .PHASE_IDLE ∧
      (s'.phase = .PHASE_ACCEL → wrapI32 (s.steps_done + 1) < s.decel_start) ∧
      (s'.phase = .PHASE_CRUISE → s.max_speed ≤ Nat.sqrt (accelTarget s.accel (k + 1))) ∧
      (s'.phase ≠ .PHASE_CRUISE →
        s'.current_speed = Nat.sqrt (accelTarget s.accel (k + 1))) := by
  have hrun : s.phase ≠ .PHASE_IDLE := by rw [hp]; exact fun h => StepPhase.noConfusion h
  obtain ⟨k', hk', hc, hb⟩ := hI.hacc hp
  have hkk : k' = k := by rw [hk] at hk'; exact_mod_cast hk'.symm
  subst hkk
  obtain ⟨s', h1, h2⟩ := accelCase_fields (Inv_stepped hI) hp hk hc hb hf
  refine ⟨s', ?_, h2⟩
  rw [TimerISR_inner fuel s hrun hz, hp]
  simp only [h1, Option.map_some']

theorem accelCase_params {fuel : Nat} {s s' : StepperState} (h : accelCase fuel s = some s') :
    s'.max_speed = s.max_speed ∧ s'.accel = s.accel := by
  unfold accelCase at h
  simp only at h
  cases hs : scanUp fuel s.current_speed 1
      (((STEPPER_MIN_SPEED * STEPPER_MIN_SPEED) % 2 ^ 32
        + ((2 * s.accel) % 2 ^ 64 * toU64 (wrapI32 (s.accel_steps + 1))) % 2 ^ 64)
          % 2 ^ 64 % 2 ^ 32) with
  | none => rw [hs] at h; exact Option.noConfusion h
  | some r =>
    rw [hs] at h
    simp only at h
    split_ifs at h <;> (cases h; exact ⟨rfl, rfl⟩)

/-- A tick never changes the top speed or the acceleration, and never enters
phase Accel. -/
theorem TimerISR_params {fuel : Nat} {s s' : StepperState} {e : Option CallbackEvent}
    (h : Stepper_TimerISR fuel s = some (s', e)) :
    s'.max_speed = s.max_speed ∧ s'.accel = s.accel ∧
    (s.phase ≠ .PHASE_ACCEL → s'.phase ≠ .PHASE_ACCEL) := by
  by_cases hidle : s.phase = .PHASE_IDLE
  · rw [TimerISR_idle fuel s hidle] at h
    simp only [Option.some.injEq, Prod.mk.injEq] at h
    obtain ⟨h1, _⟩ := h
    subst h1
    exact ⟨rfl, rfl, fun h => h⟩
  by_cases hz : wrapI32 (s.steps_to_go - 1) ≤ 0
  · rw [TimerISR_final fuel s hidle hz] at h
    simp only [Option.some.injEq, Prod.mk.injEq] at h
    obtain ⟨h1, _⟩ := h
    subst h1
    exact ⟨rfl, rfl, fun _ h => StepPhase.noConfusion h⟩
  rw [TimerISR_inner fuel s hidle hz] at h
  cases hp : s.phase with
  | PHASE_IDLE => exact absurd hp hidle
  | PHASE_ACCEL =>
    rw [hp] at h
    simp only at h
    cases ha : accelCase fuel (stepped s) with
    | none => rw [ha] at h; exact Option.noConfusion h
    | some s2 =>
      rw [ha] at h
      simp only [Option.map_some', Option.some.injEq, Prod.mk.injEq] at h
      obtain ⟨h1, _⟩ := h
      subst h1
      obtain ⟨a1, a2⟩ := accelCase_params ha
      exact ⟨a1, a2, fun hn => absurd rfl hn⟩
  | PHASE_CRUISE =>
    rw [hp] at h
    simp only [Option.some.injEq, Prod.mk.injEq] at h
    obtain ⟨h1, _⟩ := h
    subst h1
    obtain ⟨c1, c2⟩ := cruiseCase_frame (stepped s)
    have hsp : (stepped s).phase = .PHASE_CRUISE := hp
    rw [c1]
    refine ⟨rfl, rfl, fun _ hq => ?_⟩
    have hq' : (cruiseCase (stepped s)).phase = .PHASE_ACCEL := hq
    rcases c2 with c2 | c2
    · rw [c2, hsp] at hq'; exact StepPhase.noConfusion hq'
    · rw [c2] at hq'; exact StepPhase.noConfusion hq'
  | PHASE_DECEL =>
    rw [hp] at h
    simp only [Option.some.injEq, Prod.mk.injEq] at h
    obtain ⟨h1, _⟩ := h
    subst h1
    rw [decelCase_frame (stepped s)]
    refine ⟨rfl, rfl, fun _ hq => ?_⟩
    have hq' : s.phase = .PHASE_ACCEL := hq
    rw [hp] at hq'; exact StepPhase.noConfusion hq'

theorem Stop_params (s : StepperState) :
    (Stepper_Stop s).1.max_speed = s.max_speed ∧ (Stepper_Stop s).1.accel = s.accel ∧
    (Stepper_Stop s).1.current_speed = s.current_speed ∧
    (Stepper_Stop s).1.callback = s.callback ∧
    (Stepper_Stop s).1.position = s.position ∧
    ((Stepper_Stop s).1.phase = .PHASE_ACCEL ∨ (Stepper_Stop s).1.phase = .PHASE_CRUISE →
      (Stepper_Stop s).1 = s) := by
  rcases Stop_cases s with h | h | ⟨_, _, _, h⟩
  · rw [h]
    exact ⟨rfl, rfl, rfl, rfl, rfl, fun _ => rfl⟩
  · rw [h]
    refine ⟨rfl, rfl, rfl, rfl, rfl, fun hq => ?_⟩
    rcases hq with hq | hq <;> exact StepPhase.noConfusion hq
  · rw [h]
    refine ⟨rfl, rfl, rfl, rfl, rfl, fun hq => ?_⟩
    rcases hq with hq | hq <;> exact StepPhase.noConfusion hq

theorem tick_result_unique {fuel : Nat} {s a b : StepperState} {e1 e2 : Option CallbackEvent}
    (h1 : Stepper_TimerISR fuel s = some (a, e1)) (h2 : Stepper_TimerISR fuel s = some (b, e2)) :
    a = b ∧ e1 = e2 := by
  rw [h1] at h2
  simp only [Option.some.injEq, Prod.mk.injEq] at h2
  exact h2

theorem RunInv_tick {M a : Nat} {s s' : StepperState} {e : Option CallbackEvent}
    (hR : RunInv M a s) {fuel : Nat} (hf : 65536 ≤ fuel)
    (h : Stepper_TimerISR fuel s = some (s', e)) : RunInv M a s' := by
  obtain ⟨t, e', ht, hIt, _, _⟩ := TimerISR_inv hR.inv hf
  obtain ⟨rfl, _⟩ := tick_result_unique h ht
  obtain ⟨p1, p2, p3⟩ := TimerISR_params h
  refine ⟨hIt, by rw [p1, hR.hMs], by rw [p2, hR.has], fun hacc => ?_⟩
  have hp : s.phase = .PHASE_ACCEL := by
    by_contra hn
    exact p3 hn hacc
  have hrun : s.phase ≠ .PHASE_IDLE := by rw [hp]; exact fun h => StepPhase.noConfusion h
  obtain ⟨k, hk, hc, hb⟩ := hR.inv.hacc hp
  have hz : ¬ wrapI32 (s.steps_to_go - 1) ≤ 0 := by
    intro hz
    have := ((TimerISR_frame h hrun).2.2.2.2).mpr hz
    rw [this] at hacc
    exact StepPhase.noConfusion hacc
  obtain ⟨u, hu, u1, u2, _⟩ := tick_accel hR.inv hp hk hz hf
  obtain ⟨rfl, _⟩ := tick_result_unique h hu
  have hkle : k ≤ s.accel * k := Nat.le_mul_of_pos_left k (by have := hR.inv.ha.1; omega)
  rw [u1, u2, hR.sync hp, hk, wrapI32_eq (by unfold isI32; omega)]
  push_cast
  rfl

theorem RunInv_stop {M a : Nat} {s : StepperState} (hR : RunInv M a s) :
    RunInv M a (Stepper_Stop s).1 := by
  obtain ⟨p1, p2, _, _, _, p6⟩ := Stop_params s
  refine ⟨(Stop_inv hR.inv).1, by rw [p1, hR.hMs], by rw [p2, hR.has], fun hacc => ?_⟩
  have q := p6 (Or.inl hacc)
  rw [q] at hacc ⊢
  exact hR.sync hacc

theorem RunInv_start (s : StepperState) (p : StepperMoveParams)
    (hidle : s.phase = .PHASE_IDLE) (h0 : p.steps ≠ 0)
    (hA : accelInRange (effAccel p.acceleration)) :
    RunInv (clampSpeed p.max_speed) (effAccel p.acceleration) (Stepper_StartMove s p).1 := by
  obtain ⟨_, _, _, c4, c5, _, c7, c8, _⟩ := start_phase_cb s p hidle h0
  exact ⟨Start_inv s p hidle h0 hA, c5, c4, fun _ => by rw [c7, c8]⟩

theorem RunInv_runOps {M a : Nat} {fuel : Nat} (hf : 65536 ≤ fuel) :
    ∀ (ops : List EngineOp) (s : StepperState), RunInv M a s →
      ∃ s' es, runOps fuel ops s = some (s', es) ∧ RunInv M a s' := by
  intro ops
  induction ops with
  | nil => intro s hR; exact ⟨s, [], rfl, hR⟩
  | cons op ops ih =>
    intro s hR
    cases op with
    | tick =>
      obtain ⟨t, e, ht, _⟩ := TimerISR_inv hR.inv hf
      obtain ⟨s2, es, h2, hR2⟩ := ih t (RunInv_tick hR hf ht)
      exact ⟨s2, e.toList ++ es, by simp only [runOps, applyOp, ht, h2], hR2⟩
    | stop =>
      obtain ⟨s2, es, h2, hR2⟩ := ih _ (RunInv_stop hR)
      refine ⟨s2, (Stepper_Stop s).2.toList ++ es, ?_, hR2⟩
      simp only [runOps, applyOp, h2]

/-- The integer square root is the largest integer whose square does not exceed
its argument. -/
theorem sqrt_largest (n r : Nat) : r = Nat.sqrt n ↔ r * r ≤ n ∧ n < (r + 1) * (r + 1) :=
  Nat.eq_sqrt

/-- C16: for a move started with the default acceleration, a tick taken in phase
Accel that does not end the move leaves `accel_steps == steps_done` and
`current_speed == min(max_speed, floor(sqrt(MIN_SPEED² + 2·accel·accel_steps)))`,
the law of the specification; the tick returns. -/
theorem accel_law (s : StepperState) (p : StepperMoveParams)
    (hidle : s.phase = .PHASE_IDLE) (h0 : p.steps ≠ 0)
    (hA : p.acceleration = STEPPER_DEFAULT_ACCEL)
    (ops : List EngineOp) (fuel : Nat) (hf : 65536 ≤ fuel) :
    ∃ s1 es s2 e, runOps fuel ops (Stepper_StartMove s p).1 = some (s1, es) ∧
      Stepper_TimerISR fuel s1 = some (s2, e) ∧
      (s1.phase = .PHASE_ACCEL → s2.phase ≠ .PHASE_IDLE →
        s2.accel_steps = s2.steps_done ∧
        ∃ k : Nat, s2.accel_steps = (k : Int) ∧
          s2.current_speed = accelLaw (clampSpeed p.max_speed) STEPPER_DEFAULT_ACCEL k) := by
  have hA' : accelInRange (effAccel p.acceleration) := by rw [hA]; exact accelInRange_default
  have hE : effAccel p.acceleration = STEPPER_DEFAULT_ACCEL := by rw [hA]; rfl
  obtain ⟨s1, es, h1, hR⟩ := RunInv_runOps hf ops _ (RunInv_start s p hidle h0 hA')
  obtain ⟨s2, e, h2, _⟩ := TimerISR_inv hR.inv hf
  refine ⟨s1, es, s2, e, h1, h2, fun hp hn => ?_⟩
  have hrun : s1.phase ≠ .PHASE_IDLE := by rw [hp]; exact fun h => StepPhase.noConfusion h
  obtain ⟨k, hk, hc, hb⟩ := hR.inv.hacc hp
  have hz : ¬ wrapI32 (s1.steps_to_go - 1) ≤ 0 :=
    fun hz => hn (((TimerISR_frame h2 hrun).2.2.2.2).mpr hz)
  obtain ⟨u, hu, u1, u2, _, _, _, _, u7, _⟩ := tick_accel hR.inv hp hk hz hf
  obtain ⟨rfl, _⟩ := tick_result_unique h2 hu
  have hkle : k ≤ s1.accel * k := Nat.le_mul_of_pos_left k (by have := hR.inv.ha.1; omega)
  have hsync : s2.accel_steps = s2.steps_done := by
    rw [u1, u2, hR.sync hp, hk, wrapI32_eq (by unfold isI32; omega)]
    push_cast
    rfl
  refine ⟨hsync, k + 1, u1, ?_⟩
  rw [u7, hR.hMs, hR.has, hE]

/-- Witness of C16: the first ticks of the move (1000 steps, speed 500). -/
theorem accel_law_witness :
    ∃ s1 es s2 e, runOps 65536 [.tick, .tick]
        (Stepper_StartMove StepperState.boot ⟨1000, 500, 600, none⟩).1 = some (s1, es) ∧
      Stepper_TimerISR 65536 s1 = some (s2, e) ∧
      (s1.phase = .PHASE_ACCEL → s2.phase ≠ .PHASE_IDLE →
        s2.accel_steps = s2.steps_done ∧
        ∃ k : Nat, s2.accel_steps = (k : Int) ∧
          s2.current_speed = accelLaw (clampSpeed 500) STEPPER_DEFAULT_ACCEL k) :=
  accel_law StepperState.boot ⟨1000, 500, 600, none⟩ rfl (by decide) rfl [.tick, .tick] 65536
    (le_refl _)

/-! ### Triangle profiles -/

theorem tick_phase_cruise {fuel : Nat} {s s' : StepperState} {e : Option CallbackEvent}
    (h : Stepper_TimerISR fuel s = some (s', e)) (hp : s.phase ≠ .PHASE_ACCEL)
    (hc : s.phase ≠ .PHASE_CRUISE) : s'.phase ≠ .PHASE_CRUISE := by
  by_cases hidle : s.phase = .PHASE_IDLE
  · rw [TimerISR_idle fuel s hidle] at h
    simp only [Option.some.injEq, Prod.mk.injEq] at h
    obtain ⟨h1, _⟩ := h
    subst h1
    exact hc
  by_cases hz : wrapI32 (s.steps_to_go - 1) ≤ 0
  · rw [TimerISR_final fuel s hidle hz] at h
    simp only [Option.some.injEq, Prod.mk.injEq] at h
    obtain ⟨h1, _⟩ := h
    subst h1
    exact fun h => StepPhase.noConfusion h
  rw [TimerISR_inner fuel s hidle hz] at h
  cases hq : s.phase with
  | PHASE_IDLE => exact absurd hq hidle
  | PHASE_ACCEL => exact absurd hq hp
  | PHASE_CRUISE => exact absurd hq hc
  | PHASE_DECEL =>
    rw [hq] at h
    simp only [Option.some.injEq, Prod.mk.injEq] at h
    obtain ⟨h1, _⟩ := h
    subst h1
    rw [decelCase_frame (stepped s)]
    intro hx
    have hx' : s.phase = .PHASE_CRUISE := hx
    rw [hq] at hx'
    exact StepPhase.noConfusion hx'

/-- Outside phase Accel a tick does not raise the speed. -/
theorem tick_speed_le {fuel : Nat} {s s' : StepperState} {e : Option CallbackEvent}
    (hI : Inv s) (h : Stepper_TimerISR fuel s = some (s', e)) (hp : s.phase ≠ .PHASE_ACCEL) :
    s'.current_speed ≤ s.current_speed := by
  by_cases hidle : s.phase = .PHASE_IDLE
  · rw [TimerISR_idle fuel s hidle] at h
    simp only [Option.some.injEq, Prod.mk.injEq] at h
    obtain ⟨h1, _⟩ := h
    subst h1
    exact le_refl _
  by_cases hz : wrapI32 (s.steps_to_go - 1) ≤ 0
  · rw [TimerISR_final fuel s hidle hz] at h
    simp only [Option.some.injEq, Prod.mk.injEq] at h
    obtain ⟨h1, _⟩ := h
    subst h1
    exact le_refl _
  rw [TimerISR_inner fuel s hidle hz] at h
  cases hq : s.phase with
  | PHASE_IDLE => exact absurd hq hidle
  | PHASE_ACCEL => exact absurd hq hp
  | PHASE_CRUISE =>
    rw [hq] at h
    simp only [Option.some.injEq, Prod.mk.injEq] at h
    obtain ⟨h1, _⟩ := h
    subst h1
    rw [(cruiseCase_frame (stepped s)).1]
    exact le_refl _
  | PHASE_DECEL =>
    rw [hq] at h
    simp only [Option.some.injEq, Prod.mk.injEq] at h
    obtain ⟨h1, _⟩ := h
    subst h1
    exact (decelCase_speed (stepped s) hI.hc.1).2

theorem accelLaw_sq_le (M a k H : Nat) (hk : k ≤ H) :
    accelLaw M a k * accelLaw M a k ≤ 2500 + 2 * (a * H) := by
  have h1 : accelLaw M a k ≤ Nat.sqrt (STEPPER_MIN_SPEED * STEPPER_MIN_SPEED + 2 * a * k) :=
    min_le_right _ _
  have h2 := Nat.sqrt_le (STEPPER_MIN_SPEED * STEPPER_MIN_SPEED + 2 * a * k)
  have h3 := Nat.mul_le_mul h1 h1
  have h4 : a * k ≤ a * H := Nat.mul_le_mul_left a hk
  have h5 : STEPPER_MIN_SPEED * STEPPER_MIN_SPEED + 2 * a * k = 2500 + 2 * (a * k) := by
    unfold STEPPER_MIN_SPEED; ring
  omega

theorem TriInv_tick {M a H : Nat} {T : Int} (hT : 2 ≤ T → 1 ≤ H) (hT1 : 1 ≤ T)
    (hT2 : T < 2 ^ 31)
    {s s' : StepperState} {e : Option CallbackEvent}
    (hTri : TriInv M a H T s) {fuel : Nat} (hf : 65536 ≤ fuel)
    (h : Stepper_TimerISR fuel s = some (s', e)) :
    TriInv M a H T s' ∧
    (s'.phase = .PHASE_CRUISE → s.phase ≠ .PHASE_CRUISE → M * M ≤ 2500 + 2 * (a * H)) := by
  have hR' := RunInv_tick hTri.run hf h
  by_cases hp : s.phase = .PHASE_ACCEL
  · have hrun : s.phase ≠ .PHASE_IDLE := by rw [hp]; exact fun h => StepPhase.noConfusion h
    by_cases hz : wrapI32 (s.steps_to_go - 1) ≤ 0
    · have h' := h
      rw [TimerISR_final fuel s hrun hz] at h'
      simp only [Option.some.injEq, Prod.mk.injEq] at h'
      obtain ⟨h1, _⟩ := h'
      subst h1
      exact ⟨⟨hR', hTri.peak, fun hq => StepPhase.noConfusion hq⟩,
        fun hq => StepPhase.noConfusion hq⟩
    · obtain ⟨k, hk, hc, hb⟩ := hTri.run.inv.hacc hp
      obtain ⟨u, hu, u1, u2, _, _, u5, _, u7, _, u9, u10, _⟩ :=
        tick_accel hTri.run.inv hp hk hz hf
      obtain ⟨rfl, _⟩ := tick_result_unique h hu
      obtain ⟨t1, t2⟩ := hTri.tri hp
      have hkle : k ≤ s.accel * k :=
        Nat.le_mul_of_pos_left k (by have := hTri.run.inv.ha.1; omega)
      have hk1 : k + 1 ≤ H := by
        rcases t2 with t2 | ⟨_, t3⟩
        · rw [hk] at t2; omega
        · rw [t3] at hz
          have : (2 : Int) ≤ T := by unfold wrapI32 at hz; omega
          have := hT this
          rw [hk] at *
          omega
      have hpk : s'.current_speed * s'.current_speed ≤ 2500 + 2 * (a * H) := by
        rw [u7, hTri.run.hMs, hTri.run.has]
        exact accelLaw_sq_le M a (k + 1) H hk1
      refine ⟨⟨hR', hpk, fun hq => ⟨by rw [u5]; exact t1, Or.inl ?_⟩⟩, fun hq _ => ?_⟩
      · have h9 := u9 hq
        rw [hTri.run.sync hp, hk, wrapI32_eq (by unfold isI32; omega), t1] at h9
        rw [u1]
        push_cast at h9 ⊢
        exact h9
      · have h10 := u10 hq
        rw [hTri.run.hMs, hTri.run.has] at h10
        have h11 := Nat.mul_le_mul h10 h10
        have h12 := Nat.sqrt_le (accelTarget a (k + 1))
        have h13 : accelTarget a (k + 1) = 2500 + 2 * (a * (k + 1)) := by
          unfold accelTarget STEPPER_MIN_SPEED; ring
        have h14 : a * (k + 1) ≤ a * H := Nat.mul_le_mul_left a hk1
        omega
  · have hsp := tick_speed_le hTri.run.inv h hp
    have hn := (TimerISR_params h).2.2 hp
    refine ⟨⟨hR', le_trans (Nat.mul_le_mul hsp hsp) hTri.peak, fun hq => absurd hq hn⟩,
      fun hq hc => absurd hq (tick_phase_cruise h hp hc)⟩

theorem TriInv_stop {M a H : Nat} {T : Int} {s : StepperState} (hTri : TriInv M a H T s) :
    TriInv M a H T (Stepper_Stop s).1 ∧
    ((Stepper_Stop s).1.phase = .PHASE_CRUISE → s.phase = .PHASE_CRUISE) := by
  obtain ⟨_, _, p3, _, _, p6⟩ := Stop_params s
  refine ⟨⟨RunInv_stop hTri.run, by rw [p3]; exact hTri.peak, fun hq => ?_⟩, fun hq => ?_⟩
  · have q := p6 (Or.inl hq)
    rw [q] at hq ⊢
    exact hTri.tri hq
  · have q := p6 (Or.inr hq)
    rw [q] at hq
    exact hq

theorem TriInv_runOps {M a H : Nat} {T : Int} (hT : 2 ≤ T → 1 ≤ H) (hT1 : 1 ≤ T)
    (hT2 : T < 2 ^ 31) {fuel : Nat} (hf : 65536 ≤ fuel) :
    ∀ (ops : List EngineOp) (s : StepperState), TriInv M a H T s →
      ∃ s' es, runOps fuel ops s = some (s', es) ∧ TriInv M a H T s' ∧
        (2500 + 2 * (a * H) < M * M → s.phase ≠ .PHASE_CRUISE → s'.phase ≠ .PHASE_CRUISE) := by
  intro ops
  induction ops with
  | nil => intro s hTri; exact ⟨s, [], rfl, hTri, fun _ h => h⟩
  | cons op ops ih =>
    intro s hTri
    cases op with
    | tick =>
      obtain ⟨t, e, ht, _⟩ := TimerISR_inv hTri.run.inv hf
      obtain ⟨hTri1, hc1⟩ := TriInv_tick hT hT1 hT2 hTri hf ht
      obtain ⟨s2, es, h2, hTri2, hc2⟩ := ih t hTri1
      refine ⟨s2, e.toList ++ es, by simp only [runOps, applyOp, ht, h2], hTri2,
        fun hB hn => hc2 hB (fun hq => ?_)⟩
      have := hc1 hq hn
      omega
    | stop =>
      obtain ⟨hTri1, hc1⟩ := TriInv_stop hTri
      obtain ⟨s2, es, h2, hTri2, hc2⟩ := ih _ hTri1
      refine ⟨s2, (Stepper_Stop s).2.toList ++ es, ?_, hTri2,
        fun hB hn => hc2 hB (fun hq => hn (hc1 hq))⟩
      simp only [runOps, applyOp, h2]

/-- A start that satisfies the triangle test: the acceleration is in range, the
travel is small, and the triangle invariant holds with `decel_start = |steps| / 2`. -/
theorem start_triangle (s : StepperState) (p : StepperMoveParams)
    (hidle : s.phase = .PHASE_IDLE) (h0 : p.steps ≠ 0)
    (htri : 2 * (clampSpeed p.max_speed * clampSpeed p.max_speed
      / (2 * effAccel p.acceleration)) ≥ p.steps.natAbs) :
    accelInRange (effAccel p.acceleration) ∧ p.steps.natAbs ≤ 25000000 ∧
    TriInv (clampSpeed p.max_speed) (effAccel p.acceleration) (p.steps.natAbs / 2)
      (p.steps.natAbs : Int) (Stepper_StartMove s p).1 := by
  have hcb := clampSpeed_bounds p.max_speed
  have hap := effAccel_pos p.acceleration
  unfold STEPPER_MAX_SPEED at hcb
  have hMM : clampSpeed p.max_speed * clampSpeed p.max_speed ≤ 5000 * 5000 :=
    Nat.mul_le_mul hcb.2 hcb.2
  have hT1 : 1 ≤ p.steps.natAbs := by omega
  generalize hF : clampSpeed p.max_speed * clampSpeed p.max_speed
    / (2 * effAccel p.acceleration) = F at htri
  have hFpos : 0 < F := by omega
  have h2A : 2 * effAccel p.acceleration ≤ clampSpeed p.max_speed * clampSpeed p.max_speed := by
    by_contra hlt
    have : clampSpeed p.max_speed * clampSpeed p.max_speed / (2 * effAccel p.acceleration) = 0 :=
      Nat.div_eq_of_lt (by omega)
    omega
  have hFle : F ≤ 12500000 := by
    rw [← hF]
    calc clampSpeed p.max_speed * clampSpeed p.max_speed / (2 * effAccel p.acceleration)
        ≤ clampSpeed p.max_speed * clampSpeed p.max_speed / 2 :=
          Nat.div_le_div_left (by omega) (by omega)
      _ ≤ 12500000 := by omega
  have hA : accelInRange (effAccel p.acceleration) := by
    unfold accelInRange STEPPER_MAX_SPEED; omega
  have hRun := RunInv_start s p hidle h0 hA
  refine ⟨hA, by omega, hRun, ?_, ?_⟩
  · obtain ⟨_, _, _, _, _, c6, _⟩ := start_phase_cb s p hidle h0
    rw [c6]
    unfold STEPPER_MIN_SPEED
    omega
  · intro _
    rw [start_accepted s p hidle h0]
    simp only
    generalize hT : (if p.steps > 0 then p.steps else wrapI32 (-p.steps)) = T
    have hTabs : T = (p.steps.natAbs : Int) := by
      rw [← hT]
      split_ifs with hpos
      · omega
      · rw [wrapI32_eq (by unfold isI32; omega)]; omega
    rw [CalcDecelSteps_eq hcb.2 (by omega) (by omega), hF]
    rw [toU32_nonneg (by omega) (by omega)]
    have hTn : T.toNat = p.steps.natAbs := by omega
    rw [hTn, Nat.mod_eq_of_lt (by omega : 2 * F < 2 ^ 32), if_pos htri]
    refine ⟨?_, Or.inr ⟨trivial, hTabs⟩⟩
    rw [hTabs, Int.tdiv_eq_ediv (by omega) (by omega)]
    norm_cast

/-- C14: for every accepted start that passes the triangle test
`2 * accel_steps_full >= |steps|`, after every sequence of ticks and stops
`current_speed² <= MIN_SPEED² + 2·accel·(|steps| / 2)`; every such sequence returns. -/
theorem triangle_peak_bound (s : StepperState) (p : StepperMoveParams)
    (hidle : s.phase = .PHASE_IDLE) (h0 : p.steps ≠ 0)
    (htri : 2 * (clampSpeed p.max_speed * clampSpeed p.max_speed
      / (2 * effAccel p.acceleration)) ≥ p.steps.natAbs)
    (ops : List EngineOp) (fuel : Nat) (hf : 65536 ≤ fuel) :
    (Stepper_StartMove s p).2 = true ∧
    ∃ s' es, runOps fuel ops (Stepper_StartMove s p).1 = some (s', es) ∧
      s'.current_speed * s'.current_speed
        ≤ STEPPER_MIN_SPEED * STEPPER_MIN_SPEED
          + 2 * effAccel p.acceleration * (p.steps.natAbs / 2) := by
  obtain ⟨_, hT, hTri⟩ := start_triangle s p hidle h0 htri
  obtain ⟨s', es, h1, hTri', _⟩ :=
    TriInv_runOps (by omega) (by omega) (by omega) hf ops _ hTri
  refine ⟨(start_phase_cb s p hidle h0).1, s', es, h1, ?_⟩
  have := hTri'.peak
  have h5 : STEPPER_MIN_SPEED * STEPPER_MIN_SPEED
      + 2 * effAccel p.acceleration * (p.steps.natAbs / 2)
      = 2500 + 2 * (effAccel p.acceleration * (p.steps.natAbs / 2)) := by
    unfold STEPPER_MIN_SPEED; ring
  omega

/-- Witness of C14: steps 100, speed 500, accel 600 keeps `current_speed <= 250`. -/
theorem triangle_peak_bound_witness :
    ∃ s' es, runOps 65536 (List.replicate 50 EngineOp.tick)
        (Stepper_StartMove StepperState.boot ⟨100, 500, 600, none⟩).1 = some (s', es) ∧
      s'.current_speed ≤ 250 := by
  obtain ⟨s', es, h1, h2⟩ :=
    (triangle_peak_bound StepperState.boot ⟨100, 500, 600, none⟩ rfl (by decide) (by decide)
      (List.replicate 50 EngineOp.tick) 65536 (le_refl _)).2
  refine ⟨s', es, h1, ?_⟩
  have h3 : STEPPER_MIN_SPEED * STEPPER_MIN_SPEED
      + 2 * effAccel (StepperMoveParams.mk 100 500 600 none).acceleration
        * ((StepperMoveParams.mk 100 500 600 none).steps.natAbs / 2) = 62500 := by decide
  rw [h3] at h2
  by_contra hgt
  have h4 : 251 ≤ s'.current_speed := by omega
  have h5 := Nat.mul_le_mul h4 h4
  omega

/-- C13 (amended): for every accepted start that passes the triangle test and
whose peak target `MIN_SPEED² + 2·accel·(|steps| / 2)` lies below `max_speed²`,
after every sequence of ticks and stops `current_speed` is strictly below
`max_speed` and the phase is not Cruise; every such sequence returns. -/
theorem triangle_below_max (s : StepperState) (p : StepperMoveParams)
    (hidle : s.phase = .PHASE_IDLE) (h0 : p.steps ≠ 0)
    (htri : 2 * (clampSpeed p.max_speed * clampSpeed p.max_speed
      / (2 * effAccel p.acceleration)) ≥ p.steps.natAbs)
    (hpeak : STEPPER_MIN_SPEED * STEPPER_MIN_SPEED
      + 2 * effAccel p.acceleration * (p.steps.natAbs / 2)
        < clampSpeed p.max_speed * clampSpeed p.max_speed)
    (ops : List EngineOp) (fuel : Nat) (hf : 65536 ≤ fuel) :
    (Stepper_StartMove s p).2 = true ∧
    ∃ s' es, runOps fuel ops (Stepper_StartMove s p).1 = some (s', es) ∧
      s'.current_speed < clampSpeed p.max_speed ∧ s'.max_speed = clampSpeed p.max_speed ∧
      s'.phase ≠ .PHASE_CRUISE := by
  obtain ⟨_, hT, hTri⟩ := start_triangle s p hidle h0 htri
  obtain ⟨s', es, h1, hTri', hc⟩ :=
    TriInv_runOps (by omega) (by omega) (by omega) hf ops _ hTri
  have h5 : STEPPER_MIN_SPEED * STEPPER_MIN_SPEED
      + 2 * effAccel p.acceleration * (p.steps.natAbs / 2)
      = 2500 + 2 * (effAccel p.acceleration * (p.steps.natAbs / 2)) := by
    unfold STEPPER_MIN_SPEED; ring
  have hph : (Stepper_StartMove s p).1.phase ≠ .PHASE_CRUISE := by
    rw [(start_phase_cb s p hidle h0).2.1]; exact fun h => StepPhase.noConfusion h
  refine ⟨(start_phase_cb s p hidle h0).1, s', es, h1, ?_, hTri'.run.hMs, hc (by omega) hph⟩
  have hpk := hTri'.peak
  by_contra hge
  have h6 : clampSpeed p.max_speed ≤ s'.current_speed := by omega
  have h7 := Nat.mul_le_mul h6 h6
  omega

/-- Witness of C13 (amended): steps 100, speed 500, accel 600. -/
theorem triangle_below_max_witness :
    ∃ s' es, runOps 65536 (List.replicate 50 EngineOp.tick)
        (Stepper_StartMove StepperState.boot ⟨100, 500, 600, none⟩).1 = some (s', es) ∧
      s'.current_speed < clampSpeed 500 ∧ s'.max_speed = clampSpeed 500 ∧
      s'.phase ≠ .PHASE_CRUISE :=
  (triangle_below_max StepperState.boot ⟨100, 500, 600, none⟩ rfl (by decide) (by decide)
    (by decide) (List.replicate 50 EngineOp.tick) 65536 (le_refl _)).2

/-- Counterexample to C13 as stated: steps 4, speed 70, accel 600 passes the
triangle test (`2 * 4 >= 4`), yet the second tick reaches `max_speed = 70` and
enters phase Cruise. -/
theorem triangle_reaches_max :
    2 * (clampSpeed 70 * clampSpeed 70 / (2 * effAccel 600)) ≥ (4 : Int).natAbs ∧
    (runTicks 100 2 (Stepper_StartMove StepperState.boot ⟨4, 70, 600, none⟩).1).map
      (fun y => (y.phase, y.current_speed, y.max_speed)) = some (.PHASE_CRUISE, 70, 70) := by
  decide

/-! ### Invariant of the coordinator -/

theorem deliver_fields (x : SliderSys) (e : Option CallbackEvent) :
    (deliver x e).state = x.state ∧ (deliver x e).stepper = x.stepper ∧
    (deliver x e).pending_steps = x.pending_steps ∧
    (deliver x e).pending_speed = x.pending_speed ∧
    (deliver x e).motion_requested = x.motion_requested ∧
    (deliver x e).home_requested = x.home_requested ∧
    (deliver x e).homed = x.homed ∧
    (e = none → (deliver x e).motion_complete = x.motion_complete) ∧
    (e ≠ none → (deliver x e).motion_complete = true) ∧
    (x.motion_complete = true → (deliver x e).motion_complete = true) := by
  cases e with
  | none => exact ⟨rfl, rfl, rfl, rfl, rfl, rfl, rfl, fun _ => rfl, fun h => absurd rfl h, fun h => h⟩
  | some ev =>
    obtain ⟨f, c, q⟩ := ev
    cases f
    exact ⟨rfl, rfl, rfl, rfl, rfl, rfl, rfl, fun h => Option.noConfusion h, fun _ => rfl,
      fun _ => rfl⟩

theorem invoke_some (f : StepperCallback) (c : Bool) (q : Int) :
    invoke (some f) c q ≠ none := by
  intro h
  exact Option.noConfusion h

/-- The coordinator after an engine operation and the callback it made. -/
theorem SysInv_engine (fuel : Nat) (op : EngineOp) {x : SliderSys} {s' : StepperState}
    {e : Option CallbackEvent} (hS : SysInv x)
    (h : applyOp fuel op x.stepper = some (s', e))
    (hI : Inv x.stepper → Inv s')
    (y : SliderSys) (hy1 : y.state = x.state) (hy2 : y.stepper = s')
    (hy3 : y.pending_steps = x.pending_steps) (hy4 : y.motion_requested = x.motion_requested)
    (hy5 : e = none → y.motion_complete = x.motion_complete)
    (hy6 : e ≠ none → y.motion_complete = true) : SysInv y := by
  obtain ⟨a1, a2, a3, a4⟩ := applyOp_event h
  by_cases hidle : x.stepper.phase = .PHASE_IDLE
  · obtain ⟨b1, b2⟩ := a2 hidle
    have hmc := hy5 b2
    refine ⟨by rw [hy1]; exact hS.hst, fun hq => ?_, fun hq => ?_, fun hq => ?_, fun hq => ?_,
      fun hq => ?_⟩
    · rw [hy2, b1]; exact hidle
    · rw [hy3]; exact hS.hpend (by rw [← hy4]; exact hq)
    · rw [hy2, b1] at hq; exact absurd hidle hq
    · rw [hy2, b1, hmc]; exact hS.hdone (by rw [← hy1]; exact hq)
    · rw [hy2, b1] at hq; exact absurd hidle hq
  · have hcb := hS.hcb hidle
    have hne : x.state ≠ .SLIDER_STATE_IDLE := fun hq => hidle (hS.hidle hq)
    have hmc0 : ¬ x.motion_complete = true := fun hq => hidle ((hS.hdone hne).mpr hq)
    refine ⟨by rw [hy1]; exact hS.hst, fun hq => ?_, fun hq => ?_, fun hq => ?_, fun hq => ?_,
      fun hq => ?_⟩
    · rw [hy1] at hq; exact absurd hq hne
    · rw [hy3]; exact hS.hpend (by rw [← hy4]; exact hq)
    · rw [hy2, a1]; exact hcb
    · rw [hy2]
      by_cases hi2 : s'.phase = .PHASE_IDLE
      · have he := a4 hidle hi2
        rw [hcb] at he
        have hmc := hy6 (by rw [he]; exact invoke_some _ _ _)
        exact ⟨fun _ => hmc, fun _ => hi2⟩
      · have he := a3 hidle hi2
        have hmc := hy5 he
        exact ⟨fun hq => absurd hq hi2, fun hq => absurd (hmc ▸ hq) hmc0⟩
    · rw [hy2]; exact hI (hS.hinv hidle)

theorem SysInv_tick {fuel : Nat} (hf : 65536 ≤ fuel) {x : SliderSys} (hS : SysInv x) :
    ∃ y, Sys_TimerISR fuel x = some y ∧ SysInv y ∧ y.state = x.state ∧ y.homed = x.homed := by
  by_cases hidle : x.stepper.phase = .PHASE_IDLE
  · have ht := TimerISR_idle fuel x.stepper hidle
    refine ⟨deliver { x with stepper := x.stepper } none, ?_, ?_, rfl, rfl⟩
    · unfold Sys_TimerISR; rw [ht]
    · exact hS
  · obtain ⟨t, e, ht, hIt, _⟩ := TimerISR_inv (hS.hinv hidle) hf
    obtain ⟨d1, d2, d3, _, d5, _, d7, d8, d9, _⟩ := deliver_fields { x with stepper := t } e
    refine ⟨deliver { x with stepper := t } e, ?_, ?_, d1, d7⟩
    · unfold Sys_TimerISR; rw [ht]
    · exact SysInv_engine fuel EngineOp.tick hS ht (fun _ => hIt) _ d1 d2 d3 d5 d8 d9

theorem SysInv_Run_stop {x : SliderSys} (hS : SysInv x) : SysInv (Slider_Run_stop x) := by
  unfold Slider_Run_stop
  by_cases h1 : x.stop_requested = true
  · rw [if_pos h1]
    simp only
    by_cases h2 : x.state = .SLIDER_STATE_MOVING ∨ x.state = .SLIDER_STATE_HOMING
    · rw [if_pos h2]
      obtain ⟨d1, d2, d3, _, d5, _, _, d8, d9, _⟩ :=
        deliver_fields { x with stop_requested := false, stepper := (Stepper_Stop x.stepper).1 }
          (Stepper_Stop x.stepper).2
      exact SysInv_engine 0 EngineOp.stop hS rfl
        (fun hI => (Stop_inv hI).1) _ d1 d2 d3 d5 d8 d9
    · rw [if_neg h2]
      exact ⟨hS.hst, hS.hidle, hS.hpend, hS.hcb, hS.hdone, hS.hinv⟩
  · rw [if_neg h1]
    exact hS

theorem SetPosition_idle (s : StepperState) (q : Int) (h : s.phase = .PHASE_IDLE) :
    Stepper_SetPosition s q = { s with position := q } := by
  unfold Stepper_SetPosition Stepper_IsRunning
  simp only [h, ne_eq, not_true_eq_false, decide_False, Bool.false_eq_true, if_false]

theorem homeParams_ok : homeParams.steps ≠ 0 ∧ accelInRange (effAccel homeParams.acceleration) ∧
    homeParams.on_complete = some StepperCallback.OnMotionComplete := by
  decide

theorem moveParams_ok (y : SliderSys) :
    (moveParams y).steps = y.pending_steps ∧
    accelInRange (effAccel (moveParams y).acceleration) ∧
    (moveParams y).on_complete = some StepperCallback.OnMotionComplete :=
  ⟨rfl, accelInRange_default, rfl⟩

/-- The coordinator after a start issued from state Idle with the engine Idle. -/
theorem SysInv_started {x y : SliderSys} (hS : SysInv x) (p : StepperMoveParams)
    (hp0 : p.steps ≠ 0) (hpA : accelInRange (effAccel p.acceleration))
    (hpc : p.on_complete = some StepperCallback.OnMotionComplete)
    (hxi : x.stepper.phase = .PHASE_IDLE)
    (hy1 : y.state ≠ .SLIDER_STATE_IDLE) (hy1' : y.state ≠ .SLIDER_STATE_ERROR)
    (hy2 : y.stepper = (Stepper_StartMove x.stepper p).1)
    (hy3 : y.motion_requested = true → x.motion_requested = true)
    (hy4 : y.pending_steps = x.pending_steps)
    (hy5 : y.motion_complete = false) : SysInv y := by
  obtain ⟨_, c2, c3, _⟩ := start_phase_cb x.stepper p hxi hp0
  have hrun : y.stepper.phase ≠ .PHASE_IDLE := by
    rw [hy2, c2]; exact fun h => StepPhase.noConfusion h
  refine ⟨hy1', fun hq => absurd hq hy1, fun hq => ?_, fun _ => ?_, fun _ => ?_, fun _ => ?_⟩
  · rw [hy4]; exact hS.hpend (hy3 hq)
  · rw [hy2, c3, hpc]
  · refine ⟨fun hq => absurd hq hrun, fun hq => ?_⟩
    rw [hy5] at hq; exact Bool.noConfusion hq
  · rw [hy2]; exact Start_inv x.stepper p hxi hp0 hpA

/-- The cases of the switch in `Slider_Run`. -/
theorem dispatch_cases (y : SliderSys) :
    (y.state = .SLIDER_STATE_IDLE ∧ y.home_requested = true ∧
      Slider_Run_dispatch y =
        { y with home_requested := false, state := .SLIDER_STATE_HOMING, homed := false,
                 error_code := .SLIDER_ERROR_NONE, motion_complete := false,
                 stepper := (Stepper_StartMove y.stepper homeParams).1 }) ∨
    (y.state = .SLIDER_STATE_IDLE ∧ ¬ y.home_requested = true ∧ y.motion_requested = true ∧
      Slider_Run_dispatch y =
        { y with motion_requested := false, state := .SLIDER_STATE_MOVING,
                 error_code := .SLIDER_ERROR_NONE, motion_complete := false,
                 stepper := (Stepper_StartMove y.stepper (moveParams y)).1 }) ∨
    (y.state = .SLIDER_STATE_HOMING ∧ y.motion_complete = true ∧
      Slider_Run_dispatch y =
        { y with motion_complete := false, stepper := Stepper_SetPosition y.stepper 0,
                 homed := true, state := .SLIDER_STATE_IDLE }) ∨
    (y.state = .SLIDER_STATE_MOVING ∧ y.motion_complete = true ∧
      Slider_Run_dispatch y =
        { y with motion_complete := false, state := .SLIDER_STATE_IDLE }) ∨
    ((y.state = .SLIDER_STATE_IDLE → ¬ y.home_requested = true ∧ ¬ y.motion_requested = true) ∧
      (y.state = .SLIDER_STATE_HOMING ∨ y.state = .SLIDER_STATE_MOVING →
        ¬ y.motion_complete = true) ∧
      Slider_Run_dispatch y = y) := by
  unfold Slider_Run_dispatch
  cases hst : y.state with
  | SLIDER_STATE_IDLE =>
    simp only
    by_cases h1 : y.home_requested = true
    · left
      rw [if_pos h1]
      exact ⟨trivial, h1, rfl⟩
    · rw [if_neg h1]
      by_cases h2 : y.motion_requested = true
      · right; left
        rw [if_pos h2]
        exact ⟨trivial, h1, h2, rfl⟩
      · right; right; right; right
        rw [if_neg h2]
        refine ⟨fun _ => ⟨h1, h2⟩, fun h => ?_, rfl⟩
        rcases h with h | h <;> exact SliderState.noConfusion h
  | SLIDER_STATE_HOMING =>
    simp only
    by_cases h1 : y.motion_complete = true
    · right; right; left
      rw [if_pos h1]
      exact ⟨trivial, h1, rfl⟩
    · right; right; right; right
      rw [if_neg h1]
      exact ⟨fun h => SliderState.noConfusion h, fun _ => h1, rfl⟩
  | SLIDER_STATE_MOVING =>
    simp only
    by_cases h1 : y.motion_complete = true
    · right; right; right; left
      rw [if_pos h1]
      exact ⟨trivial, h1, rfl⟩
    · right; right; right; right
      rw [if_neg h1]
      exact ⟨fun h => SliderState.noConfusion h, fun _ => h1, rfl⟩
  | SLIDER_STATE_ERROR =>
    right; right; right; right
    refine ⟨fun h => SliderState.noConfusion h, fun h => ?_, rfl⟩
    rcases h with h | h <;> exact SliderState.noConfusion h

theorem SysInv_dispatch {y : SliderSys} (hS : SysInv y) : SysInv (Slider_Run_dispatch y) := by
  rcases dispatch_cases y with
    ⟨h1, _, h3⟩ | ⟨h1, _, h2, h3⟩ | ⟨h1, h2, h3⟩ | ⟨h1, h2, h3⟩ | ⟨_, _, h3⟩
  · rw [h3]
    obtain ⟨a1, a2, a3⟩ := homeParams_ok
    exact SysInv_started hS homeParams a1 a2 a3 (hS.hidle h1)
      (fun h => SliderState.noConfusion h) (fun h => SliderState.noConfusion h) rfl
      (fun h => h) rfl rfl
  · rw [h3]
    obtain ⟨a1, a2, a3⟩ := moveParams_ok y
    exact SysInv_started hS (moveParams y) (by rw [a1]; exact hS.hpend h2) a2 a3 (hS.hidle h1)
      (fun h => SliderState.noConfusion h) (fun h => SliderState.noConfusion h) rfl
      (fun h => Bool.noConfusion h) rfl rfl
  · rw [h3]
    have hne : y.state ≠ .SLIDER_STATE_IDLE := by
      rw [h1]; exact fun h => SliderState.noConfusion h
    have hi : y.stepper.phase = .PHASE_IDLE := (hS.hdone hne).mpr h2
    rw [SetPosition_idle y.stepper 0 hi]
    exact ⟨fun h => SliderState.noConfusion h, fun _ => hi, hS.hpend,
      fun hq => absurd hi hq, fun hq => absurd rfl hq, fun hq => absurd hi hq⟩
  · rw [h3]
    have hne : y.state ≠ .SLIDER_STATE_IDLE := by
      rw [h1]; exact fun h => SliderState.noConfusion h
    have hi : y.stepper.phase = .PHASE_IDLE := (hS.hdone hne).mpr h2
    exact ⟨fun h => SliderState.noConfusion h, fun _ => hi, hS.hpend,
      fun hq => absurd hi hq, fun hq => absurd rfl hq, fun hq => absurd hi hq⟩
  · rw [h3]; exact hS

theorem SysInv_init : SysInv (Slider_Init SliderSys.boot) :=
  ⟨fun h => SliderState.noConfusion h, fun _ => rfl, fun h => Bool.noConfusion h,
    fun h => absurd rfl h, fun h => absurd rfl h, fun h => absurd rfl h⟩

theorem SysInv_step {fuel : Nat} (hf : 65536 ≤ fuel) (op : SysOp) {x : SliderSys}
    (hS : SysInv x) : ∃ y, sysStep fuel op x = some y ∧ SysInv y := by
  cases op with
  | home =>
    refine ⟨_, rfl, ?_⟩
    unfold Slider_Home
    by_cases h : x.state ≠ .SLIDER_STATE_IDLE
    · rw [if_pos h]; exact hS
    · rw [if_neg h]
      exact ⟨hS.hst, hS.hidle, hS.hpend, hS.hcb, hS.hdone, hS.hinv⟩
  | move steps speed =>
    refine ⟨_, rfl, ?_⟩
    by_cases h1 : steps = 0 ∨ speed = 0
    · rw [Slider_Move_invalid x steps speed h1]; exact hS
    · by_cases h2 : x.state = .SLIDER_STATE_IDLE
      · rw [Slider_Move_ok x steps speed h1 h2]
        exact ⟨hS.hst, hS.hidle, fun _ => fun h0 => h1 (Or.inl h0), hS.hcb, hS.hdone, hS.hinv⟩
      · rw [Slider_Move_busy x steps speed h1 h2]; exact hS
  | stop =>
    exact ⟨_, rfl, ⟨hS.hst, hS.hidle, hS.hpend, hS.hcb, hS.hdone, hS.hinv⟩⟩
  | run =>
    exact ⟨_, rfl, SysInv_dispatch (SysInv_Run_stop hS)⟩
  | tick =>
    obtain ⟨y, h1, h2, _⟩ := SysInv_tick hf hS
    exact ⟨y, h1, h2⟩

theorem SysInv_sysRun {fuel : Nat} (hf : 65536 ≤ fuel) :
    ∀ (ops : List SysOp) (x : SliderSys), SysInv x →
      ∃ y, sysRun fuel ops x = some y ∧ SysInv y := by
  intro ops
  induction ops with
  | nil => intro x hS; exact ⟨x, rfl, hS⟩
  | cons op ops ih =>
    intro x hS
    obtain ⟨x1, h1, hS1⟩ := SysInv_step hf op hS
    obtain ⟨y, h2, hS2⟩ := ih x1 hS1
    exact ⟨y, sysRun_cons_of h1 h2, hS2⟩

/-! ### More fuel never changes a result -/

theorem scanUp_succ : ∀ (f s ns sq r : Nat), scanUp f s ns sq = some r →
    scanUp (f + 1) s ns sq = some r := by
  intro f
  induction f with
  | zero => intro s ns sq r h; exact Option.noConfusion h
  | succ f ih =>
    intro s ns sq r h
    unfold scanUp at h ⊢
    by_cases ht : (s * s) % 2 ^ 32 ≤ sq
    · rw [if_pos ht] at h ⊢
      exact ih _ _ _ _ h
    · rw [if_neg ht] at h ⊢
      exact h

theorem scanUp_mono {f f' s ns sq r : Nat} (h : scanUp f s ns sq = some r) (hle : f ≤ f') :
    scanUp f' s ns sq = some r := by
  induction hle with
  | refl => exact h
  | step _ ih => exact scanUp_succ _ _ _ _ _ ih

theorem accelCase_mono {f f' : Nat} {s s' : StepperState} (h : accelCase f s = some s')
    (hle : f ≤ f') : accelCase f' s = some s' := by
  unfold accelCase at h ⊢
  simp only at h ⊢
  cases hs : scanUp f s.current_speed 1
      (((STEPPER_MIN_SPEED * STEPPER_MIN_SPEED) % 2 ^ 32
        + ((2 * s.accel) % 2 ^ 64 * toU64 (wrapI32 (s.accel_steps + 1))) % 2 ^ 64)
          % 2 ^ 64 % 2 ^ 32) with
  | none => rw [hs] at h; exact Option.noConfusion h
  | some r =>
    rw [hs] at h
    rw [scanUp_mono hs hle]
    exact h

theorem TimerISR_mono {f f' : Nat} {s : StepperState}
    {r : StepperState × Option CallbackEvent} (h : Stepper_TimerISR f s = some r)
    (hle : f ≤ f') : Stepper_TimerISR f' s = some r := by
  by_cases hidle : s.phase = .PHASE_IDLE
  · rw [TimerISR_idle f s hidle] at h
    rw [TimerISR_idle f' s hidle]; exact h
  by_cases hz : wrapI32 (s.steps_to_go - 1) ≤ 0
  · rw [TimerISR_final f s hidle hz] at h
    rw [TimerISR_final f' s hidle hz]; exact h
  rw [TimerISR_inner f s hidle hz] at h
  rw [TimerISR_inner f' s hidle hz]
  cases hp : s.phase with
  | PHASE_IDLE => exact absurd hp hidle
  | PHASE_ACCEL =>
    rw [hp] at h
    simp only at h ⊢
    cases ha : accelCase f (stepped s) with
    | none => rw [ha] at h; exact Option.noConfusion h
    | some s2 =>
      rw [ha] at h
      rw [accelCase_mono ha hle]
      exact h
  | PHASE_CRUISE => rw [hp] at h; exact h
  | PHASE_DECEL => rw [hp] at h; exact h

theorem sysStep_mono {f f' : Nat} {op : SysOp} {x y : SliderSys}
    (h : sysStep f op x = some y) (hle : f ≤ f') : sysStep f' op x = some y := by
  cases op with
  | home => exact h
  | move steps speed => exact h
  | stop => exact h
  | run => exact h
  | tick =>
    simp only [sysStep, Sys_TimerISR] at h ⊢
    cases ht : Stepper_TimerISR f x.stepper with
    | none => rw [ht] at h; exact Option.noConfusion h
    | some r =>
      rw [ht] at h
      rw [TimerISR_mono ht hle]
      exact h

theorem sysRun_mono {f f' : Nat} (hle : f ≤ f') :
    ∀ (ops : List SysOp) (x y : SliderSys), sysRun f ops x = some y →
      sysRun f' ops x = some y := by
  intro ops
  induction ops with
  | nil => intro x y h; exact h
  | cons op ops ih =>
    intro x y h
    obtain ⟨x1, h1, h2⟩ := sysRun_cons h
    exact sysRun_cons_of (sysStep_mono h1 hle) (ih x1 y h2)

/-- Every state the system reaches from initialisation satisfies the invariant. -/
theorem SysInv_reachable {fuel : Nat} {ops : List SysOp} {y : SliderSys}
    (h : sysRun fuel ops (Slider_Init SliderSys.boot) = some y) : SysInv y := by
  have h' := sysRun_mono (Nat.le_max_left fuel 65536) ops _ y h
  obtain ⟨y', h2, hS⟩ := SysInv_sysRun (Nat.le_max_right fuel 65536) ops _ SysInv_init
  rw [h'] at h2
  simp only [Option.some.injEq] at h2
  rw [h2]; exact hS

theorem sysRun_total {fuel : Nat} (hf : 65536 ≤ fuel) (ops : List SysOp) :
    ∃ y, sysRun fuel ops (Slider_Init SliderSys.boot) = some y := by
  obtain ⟨y, h, _⟩ := SysInv_sysRun hf ops _ SysInv_init
  exact ⟨y, h⟩

theorem Run_stop_complete (x : SliderSys) (h : x.motion_complete = true) :
    (Slider_Run_stop x).motion_complete = true := by
  unfold Slider_Run_stop
  by_cases h1 : x.stop_requested = true
  · rw [if_pos h1]
    simp only
    by_cases h2 : x.state = .SLIDER_STATE_MOVING ∨ x.state = .SLIDER_STATE_HOMING
    · rw [if_pos h2]
      exact (deliver_fields _ _).2.2.2.2.2.2.2.2.2 h
    · rw [if_neg h2]; exact h
  · rw [if_neg h1]; exact h

/-- C17: in every state reached from `Slider_Init` by requests, passes of
`Slider_Run` and timer ticks, coordinator state Idle implies engine phase Idle
and a pending move has `steps != 0`; hence the `Stepper_StartMove` call a pass of
`Slider_Run` makes from state Idle, for homing or for the pending move, returns
true.  Every sequence of operations returns. -/
theorem start_always_accepted (fuel : Nat) (ops : List SysOp) :
    (∀ y, sysRun fuel ops (Slider_Init SliderSys.boot) = some y →
      (y.state = .SLIDER_STATE_IDLE → y.stepper.phase = .PHASE_IDLE) ∧
      (y.motion_requested = true → y.pending_steps ≠ 0) ∧
      ((Slider_Run_stop y).state = .SLIDER_STATE_IDLE →
        (Slider_Run_stop y).home_requested = true →
        (Stepper_StartMove (Slider_Run_stop y).stepper homeParams).2 = true ∧
        (Slider_Run y).stepper = (Stepper_StartMove (Slider_Run_stop y).stepper homeParams).1) ∧
      ((Slider_Run_stop y).state = .SLIDER_STATE_IDLE →
        ¬ (Slider_Run_stop y).home_requested = true →
        (Slider_Run_stop y).motion_requested = true →
        (Stepper_StartMove (Slider_Run_stop y).stepper (moveParams (Slider_Run_stop y))).2
          = true ∧
        (Slider_Run y).stepper
          = (Stepper_StartMove (Slider_Run_stop y).stepper (moveParams (Slider_Run_stop y))).1)) ∧
    (65536 ≤ fuel → ∃ y, sysRun fuel ops (Slider_Init SliderSys.boot) = some y) := by
  refine ⟨fun y h => ?_, fun hf => sysRun_total hf ops⟩
  have hS := SysInv_reachable h
  have hS2 := SysInv_Run_stop hS
  refine ⟨hS.hidle, hS.hpend, fun h1 h2 => ?_, fun h1 h2 h3 => ?_⟩
  · refine ⟨(start_phase_cb _ homeParams (hS2.hidle h1) homeParams_ok.1).1, ?_⟩
    rcases dispatch_cases (Slider_Run_stop y) with
      ⟨_, _, c⟩ | ⟨_, c, _⟩ | ⟨c, _⟩ | ⟨c, _⟩ | ⟨c, _⟩
    · unfold Slider_Run; rw [c]
    · exact absurd h2 c
    · rw [h1] at c; exact SliderState.noConfusion c
    · rw [h1] at c; exact SliderState.noConfusion c
    · exact absurd h2 (c h1).1
  · have hne : (moveParams (Slider_Run_stop y)).steps ≠ 0 := hS2.hpend h3
    refine ⟨(start_phase_cb _ _ (hS2.hidle h1) hne).1, ?_⟩
    rcases dispatch_cases (Slider_Run_stop y) with
      ⟨_, c, _⟩ | ⟨_, _, _, c⟩ | ⟨c, _⟩ | ⟨c, _⟩ | ⟨c, _⟩
    · exact absurd c h2
    · unfold Slider_Run; rw [c]
    · rw [h1] at c; exact SliderState.noConfusion c
    · rw [h1] at c; exact SliderState.noConfusion c
    · exact absurd h3 (c h1).2

/-- C18: in every reached state, coordinator state Moving or Homing with the
engine Idle implies that `motion_complete` is set, and the next pass of
`Slider_Run` returns the coordinator to Idle.  Every sequence of operations
returns. -/
theorem no_stuck_state (fuel : Nat) (ops : List SysOp) :
    (∀ y, sysRun fuel ops (Slider_Init SliderSys.boot) = some y →
      (y.state = .SLIDER_STATE_MOVING ∨ y.state = .SLIDER_STATE_HOMING) →
      y.stepper.phase = .PHASE_IDLE →
      y.motion_complete = true ∧ (Slider_Run y).state = .SLIDER_STATE_IDLE) ∧
    (65536 ≤ fuel → ∃ y, sysRun fuel ops (Slider_Init SliderSys.boot) = some y) := by
  refine ⟨fun y h hst hph => ?_, fun hf => sysRun_total hf ops⟩
  have hS := SysInv_reachable h
  have hne : y.state ≠ .SLIDER_STATE_IDLE := by
    rcases hst with hst | hst <;> rw [hst] <;> exact fun h => SliderState.noConfusion h
  have hmc : y.motion_complete = true := (hS.hdone hne).mp hph
  refine ⟨hmc, ?_⟩
  have hmc2 := Run_stop_complete y hmc
  have hst2 := (Run_stop_state y).1
  unfold Slider_Run
  rcases dispatch_cases (Slider_Run_stop y) with
    ⟨c, _⟩ | ⟨c, _⟩ | ⟨_, _, c⟩ | ⟨_, _, c⟩ | ⟨_, c, _⟩
  · rw [hst2] at c; exact absurd c hne
  · rw [hst2] at c; exact absurd c hne
  · rw [c]
  · rw [c]
  · rw [hst2] at c
    exact absurd hmc2 (c (hst.symm))

/-- C15: in every reached state, a pass of `Slider_Run` that finds state Homing
with `motion_complete` set clears `motion_complete`, sets `homed` and state Idle,
and leaves the engine Idle at position 0, so `Slider_GetStatus` then reports
state Idle, position 0, homed.  Every sequence of operations returns. -/
theorem homing_completion (fuel : Nat) (ops : List SysOp) :
    (∀ y, sysRun fuel ops (Slider_Init SliderSys.boot) = some y →
      (Slider_Run_stop y).state = .SLIDER_STATE_HOMING →
      (Slider_Run_stop y).motion_complete = true →
      (Slider_Run_stop y).stepper.phase = .PHASE_IDLE ∧
      (Slider_Run y).motion_complete = false ∧ (Slider_Run y).homed = true ∧
      (Slider_Run y).state = .SLIDER_STATE_IDLE ∧
      (Slider_Run y).stepper.phase = .PHASE_IDLE ∧
      (Slider_Run y).stepper.position = 0 ∧
      (Slider_GetStatus (Slider_Run y)).state = .SLIDER_STATE_IDLE ∧
      (Slider_GetStatus (Slider_Run y)).position = 0 ∧
      (Slider_GetStatus (Slider_Run y)).homed = true) ∧
    (65536 ≤ fuel → ∃ y, sysRun fuel ops (Slider_Init SliderSys.boot) = some y) := by
  refine ⟨fun y h hst hmc => ?_, fun hf => sysRun_total hf ops⟩
  have hS2 := SysInv_Run_stop (SysInv_reachable h)
  have hne : (Slider_Run_stop y).state ≠ .SLIDER_STATE_IDLE := by
    rw [hst]; exact fun h => SliderState.noConfusion h
  have hi : (Slider_Run_stop y).stepper.phase = .PHASE_IDLE := (hS2.hdone hne).mpr hmc
  have hrun : Slider_Run y =
      { Slider_Run_stop y with
          motion_complete := false,
          stepper := { (Slider_Run_stop y).stepper with position := 0 },
          homed := true, state := .SLIDER_STATE_IDLE } := by
    unfold Slider_Run
    rcases dispatch_cases (Slider_Run_stop y) with
      ⟨c, _⟩ | ⟨c, _⟩ | ⟨_, _, c⟩ | ⟨c, _⟩ | ⟨_, c, _⟩
    · exact absurd c hne
    · exact absurd c hne
    · rw [c, SetPosition_idle _ 0 hi]
    · rw [hst] at c; exact SliderState.noConfusion c
    · exact absurd hmc (c (Or.inl hst))
  rw [hrun]
  exact ⟨hi, rfl, rfl, rfl, hi, rfl, rfl, rfl, rfl⟩

/-! ### Defects of the deceleration and of the 32-bit scan -/

/-- C12: with steps 4, speed 70 and the default acceleration the second tick
enters Cruise at `steps_done = decel_start = 2` with `steps_to_go = 2`; a stop
issued there sets `steps_to_go` to `70 * 70 / 1200 = 4`, and the move ends at
position 6, two steps past the requested 4.  The same holds when the move is
issued through the coordinator. -/
theorem stop_raises_steps_to_go :
    (runTicks 100 2 (Stepper_StartMove StepperState.boot
        ⟨4, 70, 600, some .OnMotionComplete⟩).1).map
      (fun y => (y.phase, y.current_speed, y.steps_to_go, (Stepper_Stop y).1.phase,
                 (Stepper_Stop y).1.steps_to_go))
      = some (.PHASE_CRUISE, 70, 2, .PHASE_DECEL, 4) ∧
    ((runTicks 100 2 (Stepper_StartMove StepperState.boot
        ⟨4, 70, 600, some .OnMotionComplete⟩).1).bind
      (fun y => runTicks 100 4 (Stepper_Stop y).1)).map (fun y => (y.phase, y.position))
      = some (.PHASE_IDLE, 6) ∧
    (sysRun 100 [.move 4 70, .run, .tick, .tick, .stop, .run, .tick, .tick, .tick, .tick]
        (Slider_Init SliderSys.boot)).map (fun y => (y.stepper.phase, y.stepper.position))
      = some (.PHASE_IDLE, 6) := by
  decide

set_option maxRecDepth 100000 in
/-- C19: the triangle move of the specification (100 steps, speed 500, default
acceleration) reaches speed 250 at step 50, keeps it through the whole Decel
phase and takes its final step at 250, not at the minimum speed 50; the
10-step move ends at 92. -/
theorem triangle_ends_at_peak_speed :
    (runTicks 100 50 (Stepper_StartMove StepperState.boot ⟨100, 500, 600, none⟩).1).map
      (fun y => (y.phase, y.current_speed)) = some (.PHASE_DECEL, 250) ∧
    (runTicks 100 99 (Stepper_StartMove StepperState.boot ⟨100, 500, 600, none⟩).1).map
      (fun y => (y.phase, y.current_speed)) = some (.PHASE_DECEL, 250) ∧
    (runTicks 100 100 (Stepper_StartMove StepperState.boot ⟨100, 500, 600, none⟩).1).map
      (fun y => (y.phase, y.current_speed, y.position)) = some (.PHASE_IDLE, 250, 100) ∧
    (runTicks 100 10 (Stepper_StartMove StepperState.boot ⟨10, 500, 600, none⟩).1).map
      (fun y => (y.phase, y.current_speed, y.position)) = some (.PHASE_IDLE, 92, 10) := by
  decide

/-- C20: the start (steps 2, speed 500, acceleration `2³¹ - 1251`) is accepted,
and the first tick after it never returns: the 32-bit target of the upward scan
is `2³² - 2`, which `s * s` reduced to 32 bits never exceeds. -/
theorem accel_scan_never_stops :
    (Stepper_StartMove StepperState.boot ⟨2, 500, 2147482397, none⟩).2 = true ∧
    (((STEPPER_MIN_SPEED * STEPPER_MIN_SPEED) % 2 ^ 32
      + ((2 * 2147482397) % 2 ^ 64 * toU64 (wrapI32 (0 + 1))) % 2 ^ 64) % 2 ^ 64 % 2 ^ 32
        = 4294967294) ∧
    (∀ fuel s ns, scanUp fuel s ns 4294967294 = none) ∧
    ¬ ∃ fuel r, Stepper_TimerISR fuel
        (Stepper_StartMove StepperState.boot ⟨2, 500, 2147482397, none⟩).1 = some r := by
  refine ⟨by decide, by decide, scanUp_diverges, ?_⟩
  rintro ⟨fuel, r, h⟩
  rw [first_tick_diverges fuel] at h
  exact Option.noConfusion h


/-- Witness of C17: a move request on the initialised system; the pass that
follows starts the engine and the start returns true. -/
theorem start_always_accepted_witness :
    ∃ y, sysRun 0 [.move 100 500] (Slider_Init SliderSys.boot) = some y ∧
      (Stepper_StartMove (Slider_Run_stop y).stepper (moveParams (Slider_Run_stop y))).2 = true ∧
      (Slider_Run y).stepper
        = (Stepper_StartMove (Slider_Run_stop y).stepper (moveParams (Slider_Run_stop y))).1 := by
  cases h : sysRun 0 [.move 100 500] (Slider_Init SliderSys.boot) with
  | none => exact absurd h (by decide)
  | some y =>
    have hv : (sysRun 0 [.move 100 500] (Slider_Init SliderSys.boot)).map
        (fun y => ((Slider_Run_stop y).state, (Slider_Run_stop y).home_requested,
                   (Slider_Run_stop y).motion_requested))
        = some (.SLIDER_STATE_IDLE, false, true) := by decide
    rw [h] at hv
    simp only [Option.map_some', Option.some.injEq, Prod.mk.injEq] at hv
    obtain ⟨v1, v2, v3⟩ := hv
    exact ⟨y, rfl, ((start_always_accepted 0 [.move 100 500]).1 y h).2.2.2 v1
      (by rw [v2]; exact fun hq => Bool.noConfusion hq) v3⟩

/-- Witness of C18: a one-step move has taken its only tick; the coordinator is
still Moving, the engine is Idle, and the completion is pending. -/
theorem no_stuck_state_witness :
    ∃ y, sysRun 0 [.move 1 500, .run, .tick] (Slider_Init SliderSys.boot) = some y ∧
      y.state = .SLIDER_STATE_MOVING ∧ y.stepper.phase = .PHASE_IDLE ∧
      y.motion_complete = true ∧ (Slider_Run y).state = .SLIDER_STATE_IDLE := by
  cases h : sysRun 0 [.move 1 500, .run, .tick] (Slider_Init SliderSys.boot) with
  | none => exact absurd h (by decide)
  | some y =>
    have hv : (sysRun 0 [.move 1 500, .run, .tick] (Slider_Init SliderSys.boot)).map
        (fun y => (y.state, y.stepper.phase)) = some (.SLIDER_STATE_MOVING, .PHASE_IDLE) := by
      decide
    rw [h] at hv
    simp only [Option.map_some', Option.some.injEq, Prod.mk.injEq] at hv
    obtain ⟨v1, v2⟩ := hv
    exact ⟨y, rfl, v1, v2,
      (no_stuck_state 0 [.move 1 500, .run, .tick]).1 y h (Or.inl v1) v2⟩

/-- Witness of C15: a homing move ended by a stop request; the pass that takes
the stop finds state Homing with the completion set and reports position 0. -/
theorem homing_completion_witness :
    ∃ y, sysRun 0 [.home, .run, .stop] (Slider_Init SliderSys.boot) = some y ∧
      (Slider_GetStatus (Slider_Run y)).state = .SLIDER_STATE_IDLE ∧
      (Slider_GetStatus (Slider_Run y)).position = 0 ∧
      (Slider_GetStatus (Slider_Run y)).homed = true := by
  cases h : sysRun 0 [.home, .run, .stop] (Slider_Init SliderSys.boot) with
  | none => exact absurd h (by decide)
  | some y =>
    have hv : (sysRun 0 [.home, .run, .stop] (Slider_Init SliderSys.boot)).map
        (fun y => ((Slider_Run_stop y).state, (Slider_Run_stop y).motion_complete))
        = some (.SLIDER_STATE_HOMING, true) := by decide
    rw [h] at hv
    simp only [Option.map_some', Option.some.injEq, Prod.mk.injEq] at hv
    obtain ⟨v1, v2⟩ := hv
    exact ⟨y, rfl,
      ((homing_completion 0 [.home, .run, .stop]).1 y h v1 v2).2.2.2.2.2.2⟩

/-! ### Busy while homing, and what `homed` records -/

theorem SysInv_of_run {fuel : Nat} {ops : List SysOp} {x y : SliderSys} (hS : SysInv x)
    (h : sysRun fuel ops x = some y) : SysInv y := by
  have h' := sysRun_mono (Nat.le_max_left fuel 65536) ops _ y h
  obtain ⟨y', h2, hS'⟩ := SysInv_sysRun (Nat.le_max_right fuel 65536) ops x hS
  rw [h'] at h2
  simp only [Option.some.injEq] at h2
  rw [h2]; exact hS'

theorem sysRun_one {fuel : Nat} {op : SysOp} {x y : SliderSys}
    (h : sysStep fuel op x = some y) : sysRun fuel [op] x = some y :=
  sysRun_cons_of h rfl

/-- Requests and timer ticks never take a home request back. -/
theorem sysStep_home_requested {fuel : Nat} {op : SysOp} {sys sys' : SliderSys}
    (h : sysStep fuel op sys = some sys') (hop : op ≠ .run)
    (hh : sys.home_requested = true) : sys'.home_requested = true := by
  cases op with
  | run => exact absurd rfl hop
  | home =>
    simp only [sysStep, Option.some.injEq] at h
    subst h
    unfold Slider_Home
    split_ifs
    · exact hh
    · rfl
  | move steps speed =>
    simp only [sysStep, Option.some.injEq] at h
    subst h
    unfold Slider_Move
    split_ifs <;> exact hh
  | stop =>
    simp only [sysStep, Option.some.injEq] at h
    subst h
    exact hh
  | tick =>
    simp only [sysStep, Sys_TimerISR] at h
    cases ht : Stepper_TimerISR fuel sys.stepper with
    | none => rw [ht] at h; exact Option.noConfusion h
    | some r =>
      obtain ⟨st, e⟩ := r
      rw [ht] at h
      simp only [Option.some.injEq] at h
      subst h
      rw [(deliver_fields _ e).2.2.2.2.2.1]
      exact hh

theorem sysRun_home_requested {fuel : Nat} :
    ∀ (ops : List SysOp) (sys sys' : SliderSys), (∀ op ∈ ops, op ≠ SysOp.run) →
      sys.home_requested = true → sysRun fuel ops sys = some sys' →
      sys'.home_requested = true := by
  intro ops
  induction ops with
  | nil => intro sys sys' _ hh h; simp only [sysRun, Option.some.injEq] at h; rw [← h]; exact hh
  | cons op ops ih =>
    intro sys sys' hall hh h
    obtain ⟨s1, h1, h2⟩ := sysRun_cons h
    exact ih s1 sys' (fun o ho => hall o (List.mem_cons_of_mem _ ho))
      (sysStep_home_requested h1 (hall op (List.mem_cons_self _ _)) hh) h2

/-- A pass of `Slider_Run` that finds state Homing without the completion flag
leaves the coordinator in state Homing. -/
theorem Run_keeps_homing (x : SliderSys) (hst : x.state = .SLIDER_STATE_HOMING)
    (hmc : ¬ (Slider_Run_stop x).motion_complete = true) :
    (Slider_Run x).state = .SLIDER_STATE_HOMING := by
  have hst2 : (Slider_Run_stop x).state = .SLIDER_STATE_HOMING := (Run_stop_state x).1.trans hst
  unfold Slider_Run
  rcases dispatch_cases (Slider_Run_stop x) with
    ⟨c, _⟩ | ⟨c, _⟩ | ⟨_, c, _⟩ | ⟨c, _⟩ | ⟨_, _, c⟩
  · rw [hst2] at c; exact SliderState.noConfusion c
  · rw [hst2] at c; exact SliderState.noConfusion c
  · exact absurd c hmc
  · rw [hst2] at c; exact SliderState.noConfusion c
  · rw [c]; exact hst2

/-- The coordinator stays in state Homing until a pass of `Slider_Run` finds the
completion flag set. -/
theorem homing_persists {fuel : Nat} :
    ∀ (post : List SysOp) (x sys' : SliderSys), x.state = .SLIDER_STATE_HOMING →
      (∀ p1 p2 y, post = p1 ++ SysOp.run :: p2 → sysRun fuel p1 x = some y →
        ¬ (Slider_Run_stop y).motion_complete = true) →
      sysRun fuel post x = some sys' → sys'.state = .SLIDER_STATE_HOMING := by
  intro post
  induction post with
  | nil => intro x sys' hst _ h; simp only [sysRun, Option.some.injEq] at h; rw [← h]; exact hst
  | cons op rest ih =>
    intro x sys' hst hno h
    obtain ⟨s1, h1, h2⟩ := sysRun_cons h
    have hst1 : s1.state = .SLIDER_STATE_HOMING := by
      by_cases hop : op = .run
      · subst hop
        simp only [sysStep, Option.some.injEq] at h1
        rw [← h1]
        exact Run_keeps_homing x hst (hno [] rest x rfl rfl)
      · rw [(sysStep_not_run h1 hop).1]; exact hst
    refine ih s1 sys' hst1 (fun p1 p2 y hsplit hy => ?_) h2
    exact hno (op :: p1) p2 y (by rw [hsplit]; rfl) (sysRun_cons_of h1 hy)

/-- The pass of `Slider_Run` that takes a home request from state Idle. -/
theorem Run_takes_home {y1 : SliderSys} (hS : SysInv y1)
    (hst : y1.state = .SLIDER_STATE_IDLE) (hh : y1.home_requested = true) :
    (Slider_Run y1).state = .SLIDER_STATE_HOMING ∧
    (Slider_Run y1).stepper.phase = .PHASE_ACCEL := by
  obtain ⟨r1, r2, _⟩ := Run_stop_state y1
  have hS2 := SysInv_Run_stop hS
  have hi : (Slider_Run_stop y1).stepper.phase = .PHASE_IDLE := hS2.hidle (r1.trans hst)
  unfold Slider_Run
  rcases dispatch_cases (Slider_Run_stop y1) with
    ⟨_, _, c⟩ | ⟨_, c, _⟩ | ⟨c, _⟩ | ⟨c, _⟩ | ⟨c, _⟩
  · rw [c]
    exact ⟨rfl, (start_phase_cb _ homeParams hi homeParams_ok.1).2.1⟩
  · exact absurd (r2.trans hh) c
  · rw [r1, hst] at c; exact SliderState.noConfusion c
  · rw [r1, hst] at c; exact SliderState.noConfusion c
  · exact absurd (r2.trans hh) (c (r1.trans hst)).1

/-- C7 (amended): in a state reached from initialisation with the coordinator
Idle, `Slider_Home` returns OK; until the next pass of `Slider_Run` (requests and
timer ticks only) a `Slider_Move` with `steps != 0` and `speed != 0` is still
accepted; that pass takes the request and starts the homing move (state Homing,
engine in Accel).  From then on, over every sequence of requests, passes and
timer ticks, the move request returns Busy whenever the engine is still running,
and the coordinator stays in state Homing, the request returning Busy, as long
as no pass of `Slider_Run` has found the completion flag set.  All sequences
return. -/
theorem move_busy_while_homing (fuel : Nat) (pre mid post : List SysOp)
    (y0 y1 sys' : SliderSys) (steps : Int) (speed : Nat) (hs : steps ≠ 0) (hv : speed ≠ 0)
    (h0 : sysRun fuel pre (Slider_Init SliderSys.boot) = some y0)
    (hidle : y0.state = .SLIDER_STATE_IDLE)
    (hmid : ∀ op ∈ mid, op ≠ SysOp.run)
    (h1 : sysRun fuel mid (Slider_Home y0).1 = some y1)
    (h2 : sysRun fuel post (Slider_Run y1) = some sys') :
    (Slider_Home y0).2 = .SLIDER_OK ∧
    (Slider_Move y1 steps speed).2 = .SLIDER_OK ∧
    (Slider_Run y1).state = .SLIDER_STATE_HOMING ∧
    (Slider_Run y1).stepper.phase = .PHASE_ACCEL ∧
    (sys'.stepper.phase ≠ .PHASE_IDLE →
      (Slider_Move sys' steps speed).2 = .SLIDER_ERR_BUSY) ∧
    ((∀ p1 p2 y, post = p1 ++ SysOp.run :: p2 → sysRun fuel p1 (Slider_Run y1) = some y →
        ¬ (Slider_Run_stop y).motion_complete = true) →
      sys'.state = .SLIDER_STATE_HOMING ∧
      (Slider_Move sys' steps speed).2 = .SLIDER_ERR_BUSY) ∧
    (65536 ≤ fuel →
      (∀ l, ∃ z, sysRun fuel l (Slider_Home y0).1 = some z) ∧
      (∀ l, ∃ z, sysRun fuel l (Slider_Run y1) = some z)) := by
  have hpar : ¬ (steps = 0 ∨ speed = 0) := by rintro (h | h); exact hs h; exact hv h
  have hhome : Slider_Home y0 = ({ y0 with home_requested := true }, .SLIDER_OK) := by
    unfold Slider_Home
    rw [if_neg (not_not.mpr hidle)]
  have hS0 : SysInv y0 := SysInv_reachable h0
  have hSh : SysInv (Slider_Home y0).1 :=
    SysInv_of_run hS0 (sysRun_one (rfl : sysStep fuel .home y0 = some (Slider_Home y0).1))
  have hS1 : SysInv y1 := SysInv_of_run hSh h1
  have hSr : SysInv (Slider_Run y1) :=
    SysInv_of_run hS1 (sysRun_one (rfl : sysStep fuel .run y1 = some (Slider_Run y1)))
  have hS' : SysInv sys' := SysInv_of_run hSr h2
  have hst1 : y1.state = .SLIDER_STATE_IDLE := by
    rw [sysRun_no_run mid _ y1 hmid h1, hhome]; exact hidle
  have hh1 : y1.home_requested = true :=
    sysRun_home_requested mid _ y1 hmid (by rw [hhome]) h1
  obtain ⟨t1, t2⟩ := Run_takes_home hS1 hst1 hh1
  have hbusy : ∀ z : SliderSys, z.state ≠ .SLIDER_STATE_IDLE →
      (Slider_Move z steps speed).2 = .SLIDER_ERR_BUSY := by
    intro z hne
    rw [Slider_Move_busy z steps speed hpar hne]
  refine ⟨by rw [hhome], by rw [Slider_Move_ok y1 steps speed hpar hst1], t1, t2,
    fun hrun => hbusy sys' (fun hi => hrun (hS'.hidle hi)), fun hno => ?_, fun hf => ?_⟩
  · have hst := homing_persists post (Slider_Run y1) sys' t1 hno h2
    exact ⟨hst, hbusy sys' (by rw [hst]; exact fun h => SliderState.noConfusion h)⟩
  · exact ⟨fun l => (SysInv_sysRun hf l _ hSh).imp fun _ h => h.1,
      fun l => (SysInv_sysRun hf l _ hSr).imp fun _ h => h.1⟩

/-- Witness of C7 (amended): home, one pass, then a tick, a pass and a tick; the
engine is still accelerating and the move request returns Busy. -/
theorem move_busy_while_homing_witness :
    ∃ sys', sysRun 100 [.tick, .run, .tick]
        (Slider_Run (Slider_Home (Slider_Init SliderSys.boot)).1) = some sys' ∧
      (Slider_Move sys' 100 500).2 = .SLIDER_ERR_BUSY := by
  cases h : sysRun 100 [.tick, .run, .tick]
      (Slider_Run (Slider_Home (Slider_Init SliderSys.boot)).1) with
  | none => exact absurd h (by decide)
  | some y =>
    have hv : (sysRun 100 [.tick, .run, .tick]
        (Slider_Run (Slider_Home (Slider_Init SliderSys.boot)).1)).map
        (fun y => y.stepper.phase) = some .PHASE_ACCEL := by decide
    rw [h] at hv
    simp only [Option.map_some', Option.some.injEq] at hv
    exact ⟨y, rfl,
      (move_busy_while_homing 100 [] [] [.tick, .run, .tick] (Slider_Init SliderSys.boot)
        (Slider_Home (Slider_Init SliderSys.boot)).1 y 100 500 (by decide) (by decide)
        rfl rfl (fun _ hm => nomatch hm) rfl h).2.2.2.2.1
        (by rw [hv]; exact fun hq => StepPhase.noConfusion hq)⟩

/-- One step of the system keeps: `homed` is not set while the coordinator is in
state Homing (the pass that starts a homing move clears it). -/
theorem homed_not_homing_step {fuel : Nat} {op : SysOp} {sys sys' : SliderSys}
    (h : sysStep fuel op sys = some sys')
    (hI : sys.homed = true → sys.state ≠ .SLIDER_STATE_HOMING) :
    sys'.homed = true → sys'.state ≠ .SLIDER_STATE_HOMING := by
  by_cases hop : op = .run
  · subst hop
    simp only [sysStep, Option.some.injEq] at h
    subst h
    obtain ⟨r1, _, r3⟩ := Run_stop_state sys
    unfold Slider_Run
    rcases dispatch_cases (Slider_Run_stop sys) with
      ⟨_, _, c⟩ | ⟨_, _, _, c⟩ | ⟨_, _, c⟩ | ⟨_, _, c⟩ | ⟨_, _, c⟩
    · rw [c]; exact fun hh => Bool.noConfusion hh
    · rw [c]; exact fun _ hs => SliderState.noConfusion hs
    · rw [c]; exact fun _ hs => SliderState.noConfusion hs
    · rw [c]; exact fun _ hs => SliderState.noConfusion hs
    · rw [c, r1, r3]; exact hI
  · obtain ⟨a, b⟩ := sysStep_not_run h hop
    rw [a, b]; exact hI

/-- Looking back from a state with `homed` set: either `homed` was set from the
start and has stayed so, or some pass of `Slider_Run` completed a homing move and
`homed` has stayed set, with no homing started, ever since. -/
theorem homed_last {fuel : Nat} :
    ∀ (ops : List SysOp) (sys sys' : SliderSys),
      (sys.homed = true → sys.state ≠ .SLIDER_STATE_HOMING) →
      sysRun fuel ops sys = some sys' → sys'.homed = true →
      (sys.homed = true ∧
        ∀ p1 p2 z, ops = p1 ++ p2 → sysRun fuel p1 sys = some z →
          z.homed = true ∧ z.state ≠ .SLIDER_STATE_HOMING) ∨
      ∃ pre post y, ops = pre ++ SysOp.run :: post ∧ sysRun fuel pre sys = some y ∧
        y.state = .SLIDER_STATE_HOMING ∧ (Slider_Run_stop y).motion_complete = true ∧
        (Slider_Run y).homed = true ∧ (Slider_Run y).state = .SLIDER_STATE_IDLE ∧
        ∀ p1 p2 z, post = p1 ++ p2 → sysRun fuel p1 (Slider_Run y) = some z →
          z.homed = true ∧ z.state ≠ .SLIDER_STATE_HOMING := by
  intro ops
  induction ops with
  | nil =>
    intro sys sys' hI h hh
    simp only [sysRun, Option.some.injEq] at h
    subst h
    refine Or.inl ⟨hh, fun p1 p2 z hsplit hz => ?_⟩
    have hp1 : p1 = [] := (List.append_eq_nil.mp hsplit.symm).1
    subst hp1
    simp only [sysRun, Option.some.injEq] at hz
    subst hz
    exact ⟨hh, hI hh⟩
  | cons op ops ih =>
    intro sys sys' hI h hh
    obtain ⟨s1, hs, hr⟩ := sysRun_cons h
    rcases ih s1 sys' (homed_not_homing_step hs hI) hr hh with
      ⟨hh1, hall⟩ | ⟨pre, post, y, e1, e2, e3, e4, e5, e6, e7⟩
    · rcases homed_step fuel op sys s1 hs hh1 with c | ⟨c1, c2, c3, c4⟩
      · refine Or.inl ⟨c, fun p1 p2 z hsplit hz => ?_⟩
        cases p1 with
        | nil =>
          simp only [sysRun, Option.some.injEq] at hz
          subst hz
          exact ⟨c, hI c⟩
        | cons a p1' =>
          simp only [List.cons_append, List.cons.injEq] at hsplit
          obtain ⟨ha, hsplit'⟩ := hsplit
          subst ha
          obtain ⟨s1', hs', hz'⟩ := sysRun_cons hz
          rw [hs] at hs'
          simp only [Option.some.injEq] at hs'
          subst hs'
          exact hall p1' p2 z hsplit' hz'
      · subst c1
        simp only [sysStep, Option.some.injEq] at hs
        subst hs
        exact Or.inr ⟨[], ops, sys, rfl, rfl, c2, c3, hh1, c4, hall⟩
    · exact Or.inr ⟨op :: pre, post, y, by rw [e1]; rfl, sysRun_cons_of hs e2,
        e3, e4, e5, e6, e7⟩

theorem homed_not_homing_run {fuel : Nat} :
    ∀ (ops : List SysOp) (sys sys' : SliderSys),
      (sys.homed = true → sys.state ≠ .SLIDER_STATE_HOMING) →
      sysRun fuel ops sys = some sys' →
      sys'.homed = true → sys'.state ≠ .SLIDER_STATE_HOMING := by
  intro ops
  induction ops with
  | nil => intro sys sys' hI h; simp only [sysRun, Option.some.injEq] at h; rw [← h]; exact hI
  | cons op ops ih =>
    intro sys sys' hI h
    obtain ⟨s1, hs, hr⟩ := sysRun_cons h
    exact ih s1 sys' (homed_not_homing_step hs hI) hr

/-- C10 (amended): in every state reached from initialisation by requests,
passes of `Slider_Run` and timer ticks, `homed == true` implies that the
coordinator is not in state Homing and that a pass of `Slider_Run` found state
Homing with `motion_complete` set and the engine Idle, set `homed` and returned
to Idle, and that ever since that pass `homed` has stayed set and the
coordinator has not been in state Homing: the most recent homing move has
ended.  `motion_success` is not consulted: the completion may be one the
callback reported with `completed = false`.  Every sequence of operations
returns. -/
theorem homed_only_after_homing_completion (fuel : Nat) (ops : List SysOp) :
    (∀ sys', sysRun fuel ops (Slider_Init SliderSys.boot) = some sys' → sys'.homed = true →
      sys'.state ≠ .SLIDER_STATE_HOMING ∧
      ∃ pre post y, ops = pre ++ SysOp.run :: post ∧
        sysRun fuel pre (Slider_Init SliderSys.boot) = some y ∧
        y.state = .SLIDER_STATE_HOMING ∧ (Slider_Run_stop y).motion_complete = true ∧
        (Slider_Run_stop y).stepper.phase = .PHASE_IDLE ∧
        (Slider_Run y).homed = true ∧ (Slider_Run y).state = .SLIDER_STATE_IDLE ∧
        ∀ p1 p2 z, post = p1 ++ p2 → sysRun fuel p1 (Slider_Run y) = some z →
          z.homed = true ∧ z.state ≠ .SLIDER_STATE_HOMING) ∧
    (65536 ≤ fuel → ∃ y, sysRun fuel ops (Slider_Init SliderSys.boot) = some y) := by
  refine ⟨fun sys' h hh => ?_, fun hf => sysRun_total hf ops⟩
  have hI0 : (Slider_Init SliderSys.boot).homed = true →
      (Slider_Init SliderSys.boot).state ≠ .SLIDER_STATE_HOMING :=
    fun hq => Bool.noConfusion hq
  refine ⟨homed_not_homing_run ops _ sys' hI0 h hh, ?_⟩
  rcases homed_last ops _ sys' hI0 h hh with ⟨c, _⟩ | ⟨pre, post, y, e1, e2, e3, e4, e5, e6, e7⟩
  · exact Bool.noConfusion c
  · have hS2 := SysInv_Run_stop (SysInv_reachable e2)
    have hne : (Slider_Run_stop y).state ≠ .SLIDER_STATE_IDLE := by
      rw [(Run_stop_state y).1, e3]; exact fun hq => SliderState.noConfusion hq
    exact ⟨pre, post, y, e1, e2, e3, e4, (hS2.hdone hne).mpr e4, e5, e6, e7⟩

/-- Witness of C10 (amended): home, pass, stop request, pass, then a move
request and the pass that starts it. -/
theorem homed_only_after_homing_completion_witness :
    (Slider_Run (Slider_Move (Slider_Run (Slider_Stop
        (Slider_Run (Slider_Home (Slider_Init SliderSys.boot)).1)).1) 100 500).1).state
      ≠ .SLIDER_STATE_HOMING ∧
    ∃ pre post y, [SysOp.home, .run, .stop, .run, .move 100 500, .run] = pre ++ SysOp.run :: post ∧
      sysRun 0 pre (Slider_Init SliderSys.boot) = some y ∧
      y.state = .SLIDER_STATE_HOMING ∧ (Slider_Run_stop y).motion_complete = true ∧
      (Slider_Run_stop y).stepper.phase = .PHASE_IDLE ∧
      (Slider_Run y).homed = true ∧ (Slider_Run y).state = .SLIDER_STATE_IDLE ∧
      ∀ p1 p2 z, post = p1 ++ p2 → sysRun 0 p1 (Slider_Run y) = some z →
        z.homed = true ∧ z.state ≠ .SLIDER_STATE_HOMING :=
  (homed_only_after_homing_completion 0 [.home, .run, .stop, .run, .move 100 500, .run]).1
    (Slider_Run (Slider_Move (Slider_Run (Slider_Stop
        (Slider_Run (Slider_Home (Slider_Init SliderSys.boot)).1)).1) 100 500).1)
    rfl (by decide)

end Slider
